import Mathlib

/-!
# Inspection store: the in-memory fallback database and its command dispatcher

A shallow embedding of `src/lib/api.js`.  The process-wide mutable object `DB`
becomes an explicit value of type `DB` that every command receives and returns.
The two sources of nondeterminism of the JavaScript code, `crypto.randomUUID()`
(with its `Math.random()` fallback) and `now()`, are read from an explicit
environment `Env` holding the values of the successive calls.  The methods of
the runtime whose result depends on Unicode tables or on the host locale
(`toUpperCase`, `toLowerCase`, and `localeCompare` on strings that are not
timestamps) are not fixed: they are parameters.
-/

namespace InspectionOfficine

/-! ## JavaScript values -/

/-- A loosely typed JavaScript value, for the fields and arguments on which the
code branches by truthiness or strict equality. -/
inductive JSVal where
  | undefined
  | null
  | bool (b : Bool)
  | num (n : Int)
  | str (s : String)
  deriving DecidableEq, Repr

/-- JavaScript truthiness. -/
def JSVal.truthy : JSVal → Bool
  | .undefined => false
  | .null => false
  | .bool b => b
  | .num n => n != 0
  | .str s => s != ""

/-- Truthiness of a string: every string but the empty one. -/
def strTruthy (s : String) : Bool := s != ""

/-- The expression `x || null` for `x` a string or `undefined` (here `none`):
the result is a string or `null` (here `none`). -/
def orNull : Option String → Option String
  | some s => if strTruthy s then some s else none
  | none => none

/-- A JavaScript value that is a string or `null` (here `none`), as a `JSVal`. -/
def ofNullable : Option String → JSVal
  | some s => .str s
  | none => .null

/-- A JavaScript value that is a string or `undefined` (here `none`), as a `JSVal`. -/
def ofOptional : Option String → JSVal
  | some s => .str s
  | none => .undefined

/-- The method `String.prototype.localeCompare` on the timestamps that `now()` produces
(`YYYY-MM-DD HH:MM:SS`, fixed width, digits at fixed positions), where it agrees
with the lexicographic order of the strings.  It serves the sort of
`cmd_list_inspections` on `updated_at`, a field that only `now()` writes; the
sort of `calculateTrendData`, whose keys are dates as they were entered, takes
the comparator of the runtime as a parameter instead. -/
def localeCompare (a b : String) : Int :=
  if a < b then -1 else if a = b then 0 else 1

/-- The method `Array.prototype.sort(cmp)`: a stable sort, `a` stays before `b` when
`cmp(a, b) <= 0`. -/
def jsSort {α : Type} (cmp : α → α → Int) (l : List α) : List α :=
  l.insertionSort (fun a b => cmp a b ≤ 0)

/-- The method `Array.prototype.find`. -/
def jsFind {α : Type} (p : α → Bool) (l : List α) : Option α := l.find? p

/-- Mutation of the object that `Array.prototype.find` returns: the first element
satisfying `p` is replaced by its image under `f`, the others stay in place. -/
def updateFirst {α : Type} (p : α → Bool) (f : α → α) : List α → List α
  | [] => []
  | x :: xs => if p x then f x :: xs else x :: updateFirst p f xs

/-- An object used as a dictionary with string keys that is only ever read,
written and deleted by key (`DB.sessions`, `DB.responses`); keys are tokens and
identifiers, none of them a property name of `Object.prototype`. -/
abbrev StrMap (α : Type) := String → Option α

/-- The empty object `{}`. -/
def StrMap.empty {α : Type} : StrMap α := fun _ => none

/-- The assignment `m[k] = v`. -/
def StrMap.set {α : Type} (m : StrMap α) (k : String) (v : α) : StrMap α :=
  fun k' => if k' = k then some v else m k'

/-- The statement `delete m[k]`. -/
def StrMap.delete {α : Type} (m : StrMap α) (k : String) : StrMap α :=
  fun k' => if k' = k then none else m k'

/-- An object whose keys are non-negative integers (criterion ids), as the list
of its entries in the order of `Object.entries`: ascending numeric key. -/
abbrev NumObj (α : Type) := List (Nat × α)

/-- The assignment `o[k] = v` on an integer-keyed object: an existing key keeps
its place, a new key is placed in ascending order. -/
def NumObj.set {α : Type} (k : Nat) (v : α) : NumObj α → NumObj α
  | [] => [(k, v)]
  | (k', v') :: rest =>
    if k = k' then (k, v) :: rest
    else if k < k' then (k, v) :: (k', v') :: rest
    else (k', v') :: NumObj.set k v rest

/-- The read `o[k]`, `none` for `undefined`. -/
def NumObj.get {α : Type} (k : Nat) (o : NumObj α) : Option α :=
  (o.find? (fun e => e.1 == k)).map Prod.snd

/-! ## Data model -/

/-- A user record of `DB.users`. -/
structure User where
  id : String
  username : String
  full_name : String
  role : String
  active : Bool
  password : String
  created_at : String
  updated_at : String
  deriving DecidableEq, Repr

/-- The public fields of a user, as returned by the commands. -/
structure UserView where
  id : String
  username : String
  full_name : String
  role : String
  active : Bool
  created_at : String
  updated_at : String
  deriving DecidableEq, Repr

/-- The object literal built from a user record in `cmd_login`,
`cmd_validate_session` and `cmd_list_users`. -/
def User.view (u : User) : UserView :=
  { id := u.id, username := u.username, full_name := u.full_name, role := u.role,
    active := u.active, created_at := u.created_at, updated_at := u.updated_at }

/-- The value returned by `cmd_login`, passed back by callers as `args.session`. -/
structure Session where
  token : String
  user : UserView
  deriving DecidableEq, Repr

/-- The expression `args.session?.user?.id`: `none` is `undefined`. -/
def sessionUserId (s : Option Session) : Option String := s.map (fun x => x.user.id)

/-- The expression `args.session?.user?.full_name`: `none` is `undefined`. -/
def sessionFullName (s : Option Session) : Option String := s.map (fun x => x.user.full_name)

/-- The expression `args.session?.user?.username`: `none` is `undefined`. -/
def sessionUsername (s : Option Session) : Option String := s.map (fun x => x.user.username)

/-- The progress snapshot of an inspection. -/
structure Progress where
  total : Nat
  answered : Nat
  conforme : Nat
  non_conforme : Nat
  deriving DecidableEq, Repr

/-- An inspection record of `DB.inspections`.  `created_by` and
`created_by_name` are a string or `null` (`none`). -/
structure Inspection where
  id : String
  grid_id : String
  status : String
  date_inspection : String
  establishment : String
  inspection_type : String
  inspectors : List String
  created_by : Option String
  created_by_name : Option String
  validated_by : JSVal
  validated_by_name : JSVal
  validated_at : JSVal
  created_at : String
  updated_at : String
  progress : Progress
  deriving DecidableEq, Repr

/-- A stored response, the value under a criterion id in `DB.responses[id]`. -/
structure Response where
  conforme : JSVal
  observation : String
  updated_by : JSVal
  updated_at : String
  deriving DecidableEq, Repr

/-- An element of the array returned by `cmd_get_responses`. -/
structure ResponseView where
  criterion_id : Nat
  conforme : JSVal
  observation : String
  updated_by : JSVal
  updated_at : String
  deriving DecidableEq, Repr

/-- An entry of `DB.audit`. -/
structure AuditEntry where
  id : Nat
  timestamp : String
  user_id : JSVal
  username : JSVal
  action : String
  entity_type : String
  entity_id : String
  details : String
  deriving DecidableEq, Repr

/-- The store `DB`. -/
structure DB where
  users : List User
  inspections : List Inspection
  responses : StrMap (NumObj Response)
  audit : List AuditEntry
  sessions : StrMap String

/-- The store as the module creates it and as the tests reset it. -/
def DB.empty : DB :=
  { users := [], inspections := [], responses := StrMap.empty, audit := [],
    sessions := StrMap.empty }

/-- The values that one call of `fallbackInvoke` reads from outside the store:
`seedId`, `seedCreated`, `seedUpdated` are the identifier and the two `now()`
values drawn by `initDB` when it seeds; `newId` is the identifier or token drawn
by the command handler (`crypto.randomUUID?.() || ...`), and `now1`, `now2`,
`now3` are the values of its first, second and third call of `now()`.
`toUpperCase` is the method `String.prototype.toUpperCase` of the runtime, the
upper-case mapping of Unicode; it is not fixed here, every statement holds for
each function in its place. -/
structure Env where
  seedId : String
  seedCreated : String
  seedUpdated : String
  newId : String
  now1 : String
  now2 : String
  now3 : String
  toUpperCase : String → String

/-! ## Grid catalogue -/

/-- A criterion of a grid section. -/
structure GridItem where
  id : Nat
  reference : String
  description : String
  pre_opening : Bool
  deriving DecidableEq, Repr

/-- A section of a grid. -/
structure GridSection where
  id : Nat
  title : String
  items : List GridItem
  deriving DecidableEq, Repr

/-- A grid of the static catalogue. -/
structure Grid where
  id : String
  name : String
  code : String
  version : String
  icon : String
  color : String
  sections : List GridSection
  deriving DecidableEq, Repr

/-- A grid with the two counts that `list_grids` adds. -/
structure GridSummary where
  grid : Grid
  criteria_count : Nat
  section_count : Nat
  deriving DecidableEq, Repr

/-- The static catalogue of `buildAllGridsJS`. -/
def buildAllGridsJS : List Grid :=
  [ { id := "officine", name := "Pharmacie", code := "IP-F-0018", version := "1.0",
      icon := "💊", color := "#2D5F8D",
      sections := [ { id := 1, title := "Renseignements généraux",
                      items := [ { id := 1, reference := "REF 1.01",
                                   description := "Prénom et Nom du propriétaire",
                                   pre_opening := false } ] } ] },
    { id := "grossiste", name := "Grossiste", code := "IP-FO-0002", version := "1.0",
      icon := "📦", color := "#C74E1C",
      sections := [ { id := 1, title := "Organisation",
                      items := [ { id := 1, reference := "REF 1.01",
                                   description := "Structure organisationnelle",
                                   pre_opening := false } ] } ] } ]

/-! ## Commands -/

/-- The argument `req` of `cmd_create_user`. -/
structure CreateUserReq where
  username : String
  full_name : String
  role : String
  password : String
  deriving DecidableEq, Repr

/-- The argument `req` of `cmd_update_user`; `none` is an absent (`undefined`)
field. -/
structure UpdateUserReq where
  full_name : Option String
  role : Option String
  active : Option Bool
  deriving DecidableEq, Repr

/-- The argument `req` of `cmd_create_inspection`. -/
structure CreateInspectionReq where
  grid_id : String
  establishment : String
  date_inspection : String
  inspection_type : String
  inspectors : List String
  deriving DecidableEq, Repr

/-- The argument `filter` of `cmd_query_audit`; `none` is an absent field. -/
structure AuditFilter where
  user_id : JSVal
  action : Option String
  entity_type : Option String
  limit : Option Nat
  offset : Option Nat
  deriving DecidableEq, Repr

/-- A command name together with its argument bundle. -/
inductive Cmd where
  | list_grids
  | get_grid (gridId : String)
  | cmd_login (username password : String)
  | cmd_logout (token : String)
  | cmd_validate_session (token : String)
  | cmd_list_users
  | cmd_create_user (req : CreateUserReq)
  | cmd_update_user (userId : String) (req : UpdateUserReq)
  | cmd_change_password (userId newPassword : String)
  | cmd_delete_user (userId : String)
  | cmd_create_inspection (req : CreateInspectionReq) (session : Option Session)
  | cmd_list_inspections (myOnly : Bool) (status : Option String) (session : Option Session)
  | cmd_get_inspection (inspectionId : String)
  | cmd_get_responses (inspectionId : String)
  | cmd_save_response (inspectionId : String) (criterionId : Nat) (conforme : JSVal)
      (observation : String) (session : Option Session)
  | cmd_set_inspection_status (inspectionId : String) (status : String)
      (session : Option Session)
  | cmd_delete_inspection (inspectionId : String)
  | cmd_query_audit (filter : AuditFilter)
  | cmd_count_audit
  | unknown (name : String)
  deriving DecidableEq, Repr

/-- The value a command returns. -/
inductive Ret where
  | null
  | undefined
  | session (s : Session)
  | user (u : UserView)
  | users (us : List UserView)
  | id (s : String)
  | inspection (i : Inspection)
  | inspections (l : List Inspection)
  | responses (l : List ResponseView)
  | audit (l : List AuditEntry)
  | count (n : Nat)
  | grid (g : Grid)
  | grids (l : List GridSummary)
  deriving DecidableEq, Repr

deriving instance DecidableEq for Except

/-- The store after a call together with what the call returned (`ok`) or the
message of the error it threw (`error`). -/
structure Outcome where
  db : DB
  result : Except String Ret

/-- The function `initDB`: seeds the administrator when `DB.users` is empty. -/
def initDB (env : Env) (db : DB) : DB :=
  if db.users.length = 0 then
    { db with users := db.users ++
        [ { id := env.seedId, username := "admin", full_name := "Administrateur",
            role := "admin", active := true, password := "admin123",
            created_at := env.seedCreated, updated_at := env.seedUpdated } ] }
  else db

/-- The function `addAuditLog`, with the value `ts` of its call of `now()`. -/
def addAuditLog (db : DB) (userId username : JSVal) (action entityType entityId details : String)
    (ts : String) : DB :=
  { db with audit :=
      { id := db.audit.length + 1, timestamp := ts, user_id := userId, username := username,
        action := action, entity_type := entityType, entity_id := entityId,
        details := details } :: db.audit }

/-- The progress snapshot that `cmd_save_response` computes from a response
collection. -/
def computeProgress (r : NumObj Response) : Progress :=
  { total := r.length,
    answered := (r.filter (fun e => e.2.conforme != JSVal.null)).length,
    conforme := (r.filter (fun e => e.2.conforme == JSVal.bool true)).length,
    non_conforme := (r.filter (fun e => e.2.conforme == JSVal.bool false)).length }

/-- Case `cmd_login`. -/
def cmd_login (env : Env) (username password : String) (db : DB) : Outcome :=
  match jsFind (fun x => x.username == username && x.password == password && x.active)
      db.users with
  | none => ⟨db, .error "Identifiants incorrects"⟩
  | some u =>
    let tok := env.newId
    let db1 := { db with sessions := db.sessions.set tok u.id }
    let db2 := addAuditLog db1 (.str u.id) (.str u.username) "LOGIN" "session" tok "" env.now1
    ⟨db2, .ok (.session { token := tok, user := u.view })⟩

/-- Case `cmd_logout`. -/
def cmd_logout (token : String) (db : DB) : Outcome :=
  ⟨{ db with sessions := db.sessions.delete token }, .ok .null⟩

/-- Case `cmd_validate_session`. -/
def cmd_validate_session (token : String) (db : DB) : Outcome :=
  match db.sessions token with
  | none => ⟨db, .error "Session invalide"⟩
  | some uid =>
    if !strTruthy uid then ⟨db, .error "Session invalide"⟩
    else
      match jsFind (fun x => x.id == uid) db.users with
      | none => ⟨db, .error "Session invalide"⟩
      | some u =>
        if !u.active then ⟨db, .error "Session invalide"⟩
        else ⟨db, .ok (.user u.view)⟩

/-- Case `cmd_list_users`. -/
def cmd_list_users (db : DB) : Outcome :=
  ⟨db, .ok (.users ((db.users.filter (fun u => u.active)).map User.view))⟩

/-- Case `cmd_create_user`. -/
def cmd_create_user (env : Env) (req : CreateUserReq) (db : DB) : Outcome :=
  let nu : User :=
    { id := env.newId, username := req.username, full_name := req.full_name, role := req.role,
      password := req.password, active := true, created_at := env.now1,
      updated_at := env.now2 }
  let db1 := { db with users := db.users ++ [nu] }
  let db2 := addAuditLog db1 .null .null "CREATE_USER" "user" nu.id nu.username env.now3
  ⟨db2, .ok (.user { nu.view with active := true })⟩

/-- Case `cmd_update_user`. -/
def cmd_update_user (env : Env) (userId : String) (req : UpdateUserReq) (db : DB) : Outcome :=
  let upd (u : User) : User :=
    let fullName := match req.full_name with
      | some s => if strTruthy s then s else u.full_name
      | none => u.full_name
    let role := match req.role with
      | some s => if strTruthy s then s else u.role
      | none => u.role
    let active := match req.active with
      | some b => b
      | none => u.active
    { u with full_name := fullName, role := role, active := active, updated_at := env.now1 }
  let users := updateFirst (fun x => x.id == userId) upd db.users
  ⟨{ db with users := users }, .ok .null⟩

/-- Case `cmd_change_password`. -/
def cmd_change_password (userId newPassword : String) (db : DB) : Outcome :=
  let users := updateFirst (fun x => x.id == userId) (fun u => { u with password := newPassword })
    db.users
  ⟨{ db with users := users }, .ok .null⟩

/-- Case `cmd_delete_user`. -/
def cmd_delete_user (userId : String) (db : DB) : Outcome :=
  let users := updateFirst (fun x => x.id == userId) (fun u => { u with active := false })
    db.users
  ⟨{ db with users := users }, .ok .null⟩

/-- The record that `cmd_create_inspection` pushes. -/
def newInspection (env : Env) (req : CreateInspectionReq) (session : Option Session) :
    Inspection :=
  { id := env.newId,
    grid_id := req.grid_id,
    status := "draft",
    date_inspection := req.date_inspection,
    establishment := req.establishment,
    inspection_type := req.inspection_type,
    inspectors := req.inspectors,
    created_by := orNull (sessionUserId session),
    created_by_name := orNull (sessionFullName session),
    validated_by := .null,
    validated_by_name := .null,
    validated_at := .null,
    created_at := env.now1,
    updated_at := env.now2,
    progress := { total := 0, answered := 0, conforme := 0, non_conforme := 0 } }

/-- Case `cmd_create_inspection`. -/
def cmd_create_inspection (env : Env) (req : CreateInspectionReq) (session : Option Session)
    (db : DB) : Outcome :=
  let insp := newInspection env req session
  let db1 := { db with inspections := db.inspections ++ [insp],
                       responses := db.responses.set insp.id [] }
  let db2 := addAuditLog db1 (ofNullable insp.created_by) (ofNullable insp.created_by_name)
    "CREATE_INSPECTION" "inspection" insp.id req.establishment env.now3
  ⟨db2, .ok (.id insp.id)⟩

/-- The predicate of the `filter` call in `cmd_list_inspections`; a status that
is `null`, `undefined` (`none`) or empty does not filter. -/
def listKeeps (myOnly : Bool) (status : Option String) (session : Option Session)
    (i : Inspection) : Bool :=
  if myOnly && (ofNullable i.created_by != ofOptional (sessionUserId session)) then false
  else if (match status with
      | some s => strTruthy s && i.status != s
      | none => false) then false
  else true

/-- Case `cmd_list_inspections`. -/
def cmd_list_inspections (myOnly : Bool) (status : Option String) (session : Option Session)
    (db : DB) : Outcome :=
  ⟨db, .ok (.inspections (jsSort (fun a b => localeCompare b.updated_at a.updated_at)
      (db.inspections.filter (listKeeps myOnly status session))))⟩

/-- Case `cmd_get_inspection`. -/
def cmd_get_inspection (inspectionId : String) (db : DB) : Outcome :=
  match jsFind (fun i => i.id == inspectionId) db.inspections with
  | some i => ⟨db, .ok (.inspection i)⟩
  | none => ⟨db, .ok .undefined⟩

/-- The object that `cmd_get_responses` builds from one entry `[cid, v]` of
`Object.entries`; the key is read back with `parseInt`.  The call of `now()` for
an entry without `updated_at` reads the draw `now1` for every such entry. -/
def responseView (env : Env) (e : Nat × Response) : ResponseView :=
  { criterion_id := e.1,
    conforme := e.2.conforme,
    observation := if strTruthy e.2.observation then e.2.observation else "",
    updated_by := e.2.updated_by,
    updated_at := if strTruthy e.2.updated_at then e.2.updated_at else env.now1 }

/-- Case `cmd_get_responses`. -/
def cmd_get_responses (env : Env) (inspectionId : String) (db : DB) : Outcome :=
  let r := (db.responses inspectionId).getD []
  ⟨db, .ok (.responses (r.map (responseView env)))⟩

/-- The object that `cmd_save_response` stores under the criterion id. -/
def savedResponse (env : Env) (conforme : JSVal) (observation : String)
    (session : Option Session) : Response :=
  { conforme := conforme, observation := observation,
    updated_by := ofOptional (sessionUserId session), updated_at := env.now1 }

/-- Case `cmd_save_response`. -/
def cmd_save_response (env : Env) (inspectionId : String) (criterionId : Nat) (conforme : JSVal)
    (observation : String) (session : Option Session) (db : DB) : Outcome :=
  let r0 := (db.responses inspectionId).getD []
  let r := NumObj.set criterionId (savedResponse env conforme observation session) r0
  let upd (insp : Inspection) : Inspection :=
    { insp with
      status := if insp.status == "draft" then "in_progress" else insp.status,
      updated_at := env.now2,
      progress := computeProgress r }
  let inspections := updateFirst (fun i => i.id == inspectionId) upd db.inspections
  ⟨{ db with responses := db.responses.set inspectionId r, inspections := inspections },
   .ok .null⟩

/-- Case `cmd_set_inspection_status`; the audit entry takes the value of the
next call of `now()` after those of the update.  The action is built with
`args.status.toUpperCase()`, the method of the runtime, `env.toUpperCase`. -/
def cmd_set_inspection_status (env : Env) (inspectionId : String) (status : String)
    (session : Option Session) (db : DB) : Outcome :=
  let found := (jsFind (fun i => i.id == inspectionId) db.inspections).isSome
  let upd (insp : Inspection) : Inspection :=
    if status == "validated" then
      { insp with status := status, updated_at := env.now1,
                  validated_by := ofOptional (sessionUserId session),
                  validated_by_name := ofOptional (sessionFullName session),
                  validated_at := .str env.now2 }
    else { insp with status := status, updated_at := env.now1 }
  let ts := if found then (if status == "validated" then env.now3 else env.now2) else env.now1
  let inspections := updateFirst (fun i => i.id == inspectionId) upd db.inspections
  let db1 := { db with inspections := inspections }
  ⟨addAuditLog db1 (ofOptional (sessionUserId session)) (ofOptional (sessionUsername session))
    ("SET_STATUS_" ++ env.toUpperCase status) "inspection" inspectionId "" ts, .ok .null⟩

/-- Case `cmd_delete_inspection`. -/
def cmd_delete_inspection (inspectionId : String) (db : DB) : Outcome :=
  ⟨{ db with inspections := db.inspections.filter (fun i => i.id != inspectionId),
             responses := db.responses.delete inspectionId }, .ok .null⟩

/-- Case `cmd_query_audit`. -/
def cmd_query_audit (filter : AuditFilter) (db : DB) : Outcome :=
  let logs : List AuditEntry := db.audit
  let logs : List AuditEntry := if filter.user_id.truthy then logs.filter (fun l => l.user_id == filter.user_id)
    else logs
  let logs : List AuditEntry := match filter.action with
    | some a => if strTruthy a then logs.filter (fun l => l.action == a) else logs
    | none => logs
  let logs : List AuditEntry := match filter.entity_type with
    | some t => if strTruthy t then logs.filter (fun l => l.entity_type == t) else logs
    | none => logs
  let limit := match filter.limit with
    | some n => if n != 0 then n else 100
    | none => 100
  let offset := filter.offset.getD 0
  ⟨db, .ok (.audit ((logs.drop offset).take limit))⟩

/-- Case `list_grids`. -/
def list_grids (db : DB) : Outcome :=
  ⟨db, .ok (.grids (buildAllGridsJS.map (fun g =>
    { grid := g,
      criteria_count := g.sections.foldl (fun s sec => s + sec.items.length) 0,
      section_count := g.sections.length })))⟩

/-- Case `get_grid`. -/
def get_grid (gridId : String) (db : DB) : Outcome :=
  match jsFind (fun g => g.id == gridId) buildAllGridsJS with
  | some g => ⟨db, .ok (.grid g)⟩
  | none => ⟨db, .ok .null⟩

/-- The function `fallbackInvoke`: `initDB()` first, then the `switch` on the
command name. -/
def fallbackInvoke (env : Env) (cmd : Cmd) (db : DB) : Outcome :=
  let db := initDB env db
  match cmd with
  | .list_grids => list_grids db
  | .get_grid gridId => get_grid gridId db
  | .cmd_login username password => cmd_login env username password db
  | .cmd_logout token => cmd_logout token db
  | .cmd_validate_session token => cmd_validate_session token db
  | .cmd_list_users => cmd_list_users db
  | .cmd_create_user req => cmd_create_user env req db
  | .cmd_update_user userId req => cmd_update_user env userId req db
  | .cmd_change_password userId newPassword => cmd_change_password userId newPassword db
  | .cmd_delete_user userId => cmd_delete_user userId db
  | .cmd_create_inspection req session => cmd_create_inspection env req session db
  | .cmd_list_inspections myOnly status session => cmd_list_inspections myOnly status session db
  | .cmd_get_inspection inspectionId => cmd_get_inspection inspectionId db
  | .cmd_get_responses inspectionId => cmd_get_responses env inspectionId db
  | .cmd_save_response inspectionId criterionId conforme observation session =>
    cmd_save_response env inspectionId criterionId conforme observation session db
  | .cmd_set_inspection_status inspectionId status session =>
    cmd_set_inspection_status env inspectionId status session db
  | .cmd_delete_inspection inspectionId => cmd_delete_inspection inspectionId db
  | .cmd_query_audit filter => cmd_query_audit filter db
  | .cmd_count_audit => ⟨db, .ok (.count db.audit.length)⟩
  | .unknown _ => ⟨db, .ok .null⟩


/-! ## Numbers of `kpi.js`

The rates of `kpi.js` are computed with JavaScript numbers, IEEE 754 binary64
values.  The values that occur are finite and non-negative; they are held here
exactly, as dyadic fractions, and every division and multiplication rounds its
exact result to 53 significant bits, to nearest, ties to even. -/

/-- The quotient `n / d` rounded to the nearest integer, a tie going to the even
neighbour. -/
def roundNearestEven (n d : Nat) : Nat :=
  if 2 * (n % d) < d then n / d
  else if d < 2 * (n % d) then n / d + 1
  else if (n / d) % 2 = 0 then n / d
  else n / d + 1

/-- A finite non-negative binary64 value: the number `num / 2 ^ exp`. -/
structure Double where
  num : Nat
  exp : Nat
  deriving DecidableEq, Repr

/-- The least `k`, counted up from the given one, with `2 ^ 52 * d <= n * 2 ^ k`. -/
def scaleUp : Nat → Nat → Nat → Nat → Nat
  | 0, _, _, k => k
  | fuel + 1, n, d, k => if 2 ^ 52 * d ≤ n * 2 ^ k then k else scaleUp fuel n d (k + 1)

/-- The least `j`, counted up from the given one, with `n < 2 ^ 53 * d * 2 ^ j`. -/
def scaleDown : Nat → Nat → Nat → Nat → Nat
  | 0, _, _, j => j
  | fuel + 1, n, d, j => if n < 2 ^ 53 * d * 2 ^ j then j else scaleDown fuel n d (j + 1)

/-- The binary64 value nearest to the exact quotient `n / d` (`d > 0`), ties to
even: the quotient is scaled by the power of two that brings it into
`[2 ^ 52, 2 ^ 53)`, rounded to an integer there, and scaled back.  Exact for the
quotients in the normal range of binary64, which holds every quotient of two
integers below `2 ^ 53`. -/
def toDouble (n d : Nat) : Double :=
  if n = 0 then ⟨0, 0⟩
  else if n < 2 ^ 53 * d then
    ⟨roundNearestEven (n * 2 ^ scaleUp (d + 53) n d 0) d, scaleUp (d + 53) n d 0⟩
  else
    ⟨roundNearestEven n (d * 2 ^ scaleDown n n d 0) * 2 ^ scaleDown n n d 0, 0⟩

/-- The operator `/` on two integers that binary64 holds exactly (counts, sums of
rates), the divisor not zero. -/
def divDouble (n d : Nat) : Double := toDouble n d

/-- The operator `*` on a binary64 value and an integer that binary64 holds
exactly. -/
def mulDouble (x : Double) (n : Nat) : Double := toDouble (x.num * n) (2 ^ x.exp)

/-- The function `Math.round` on a non-negative value: the integer
`floor (x + 1/2)`, so a half is rounded up. -/
def mathRound (x : Double) : Nat := (2 * x.num + 2 ^ x.exp) / (2 * 2 ^ x.exp)

/-- The expression `Math.round((n / d) * 100)`. -/
def percentOf (n d : Nat) : Nat := mathRound (mulDouble (divDouble n d) 100)

/-! ## KPI computations (`kpi.js`) -/

/-- The function `calculateComplianceRate`; `none` is an absent (`null`,
`undefined`) argument. -/
def calculateComplianceRate (responses : Option (NumObj Response)) : Nat :=
  match responses with
  | none => 0
  | some r =>
    if r.length = 0 then 0
    else
      let answered := (r.map Prod.snd).filter (fun v => v.conforme != JSVal.null)
      if answered.length = 0 then 0
      else
        let conforme := (answered.filter (fun v => v.conforme == JSVal.bool true)).length
        mathRound (mulDouble (divDouble conforme answered.length) 100)

/-- An inspection as the functions of `kpi.js` read it: the fields they access,
`none` for a field that the object does not have. -/
structure KpiInspection where
  status : Option String
  date_inspection : Option String
  created_at : Option String
  progress : Option Progress
  deriving DecidableEq, Repr

/-- A stored inspection as an argument of the functions of `kpi.js`. -/
def Inspection.toKpi (i : Inspection) : KpiInspection :=
  { status := some i.status, date_inspection := some i.date_inspection,
    created_at := some i.created_at, progress := some i.progress }

/-- The object returned by `calculateInspectionStats`. -/
structure InspectionStats where
  total_criteria : Nat
  answered : Nat
  pending : Int
  conforme : Nat
  non_conforme : Nat
  completion_rate : Nat
  compliance_rate : Nat
  deriving DecidableEq, Repr

/-- The function `calculateInspectionStats` (its second parameter is not read);
`none` is `null`. -/
def calculateInspectionStats (inspection : Option KpiInspection) : Option InspectionStats :=
  match inspection with
  | none => none
  | some insp =>
    let progress : Progress := match insp.progress with
      | some p => p
      | none => { total := 0, answered := 0, conforme := 0, non_conforme := 0 }
    let complianceRate :=
      if progress.answered = 0 then 0
      else mathRound (mulDouble (divDouble progress.conforme progress.answered) 100)
    let completionRate :=
      if progress.total = 0 then 0
      else mathRound (mulDouble (divDouble progress.answered progress.total) 100)
    some { total_criteria := progress.total,
           answered := progress.answered,
           pending := (progress.total : Int) - (progress.answered : Int),
           conforme := progress.conforme,
           non_conforme := progress.non_conforme,
           completion_rate := completionRate,
           compliance_rate := complianceRate }

/-- An object with string keys that is enumerated (`byStatus`, `byDate`): the
list of its entries in the order of creation of the properties, which is the
order of `Object.entries` for keys that are not integer-like. -/
abbrev StrObj (β : Type) := List (String × β)

/-- The read `o[key]`, `none` for `undefined`. -/
def StrObj.get {β : Type} (key : String) (o : StrObj β) : Option β := o.lookup key

/-- The assignment `o[key] = f(o[key])`: an existing property keeps its place, a
new one is created last. -/
def StrObj.update {β : Type} (key : String) (f : Option β → β) : StrObj β → StrObj β
  | [] => [(key, f none)]
  | (k, v) :: rest =>
    if k = key then (k, f (some v)) :: rest
    else (k, v) :: StrObj.update key f rest

/-- The object returned by `aggregateInspectionStats`. -/
structure AggregateStats where
  total_inspections : Nat
  by_status : StrObj Nat
  total_criteria : Nat
  total_conforme : Nat
  total_non_conforme : Nat
  average_compliance_rate : Nat
  deriving DecidableEq, Repr

/-- The property key that a value which is a string or `undefined` (`none`)
becomes. -/
def propertyKey : Option String → String
  | some s => s
  | none => "undefined"

/-- The statement `byStatus[key] = (byStatus[key] || 0) + 1`. -/
def bumpCount (key : String) (byStatus : StrObj Nat) : StrObj Nat :=
  StrObj.update key (fun old =>
    (match old with
      | some n => if n != 0 then n else 0
      | none => 0) + 1) byStatus

/-- The variables that the `forEach` of `aggregateInspectionStats` updates. -/
structure AggregateAcc where
  byStatus : StrObj Nat
  totalCriteria : Nat
  totalConforme : Nat
  totalNonConforme : Nat
  totalComplianceRates : List Nat
  deriving DecidableEq, Repr

/-- The body of the `forEach` of `aggregateInspectionStats`. -/
def aggregateStep (acc : AggregateAcc) (insp : KpiInspection) : AggregateAcc :=
  let byStatus := bumpCount (propertyKey insp.status) acc.byStatus
  match calculateInspectionStats (some insp) with
  | some stats =>
    { byStatus := byStatus,
      totalCriteria := acc.totalCriteria + stats.total_criteria,
      totalConforme := acc.totalConforme + stats.conforme,
      totalNonConforme := acc.totalNonConforme + stats.non_conforme,
      totalComplianceRates :=
        if 0 ≤ stats.compliance_rate then acc.totalComplianceRates ++ [stats.compliance_rate]
        else acc.totalComplianceRates }
  | none => { acc with byStatus := byStatus }

/-- The function `aggregateInspectionStats`; `none` is an absent argument. -/
def aggregateInspectionStats (inspections : Option (List KpiInspection)) : AggregateStats :=
  match inspections with
  | none =>
    { total_inspections := 0, by_status := [], total_criteria := 0, total_conforme := 0,
      total_non_conforme := 0, average_compliance_rate := 0 }
  | some l =>
    if l.length = 0 then
      { total_inspections := 0, by_status := [], total_criteria := 0, total_conforme := 0,
        total_non_conforme := 0, average_compliance_rate := 0 }
    else
      let acc := l.foldl aggregateStep
        { byStatus := [], totalCriteria := 0, totalConforme := 0, totalNonConforme := 0,
          totalComplianceRates := [] }
      { total_inspections := l.length,
        by_status := acc.byStatus,
        total_criteria := acc.totalCriteria,
        total_conforme := acc.totalConforme,
        total_non_conforme := acc.totalNonConforme,
        average_compliance_rate :=
          if 0 < acc.totalComplianceRates.length then
            mathRound (divDouble (acc.totalComplianceRates.foldl (fun a b => a + b) 0)
              acc.totalComplianceRates.length)
          else 0 }

/-- An element of the array returned by `calculateTrendData`. -/
structure TrendPoint where
  date : String
  compliance_rate : Nat
  total_inspections : Nat
  deriving DecidableEq, Repr

/-- The expression `insp.date_inspection || insp.created_at`, as a property key. -/
def groupingDate (insp : KpiInspection) : String :=
  match insp.date_inspection with
  | some d => if strTruthy d then d else propertyKey insp.created_at
  | none => propertyKey insp.created_at

/-- The statements `if (!byDate[date]) byDate[date] = []; byDate[date].push(insp)`. -/
def pushByDate (date : String) (insp : KpiInspection)
    (byDate : StrObj (List KpiInspection)) : StrObj (List KpiInspection) :=
  StrObj.update date (fun old =>
    (match old with
      | some l => l
      | none => []) ++ [insp]) byDate

/-- The object `byDate` that `calculateTrendData` builds. -/
def groupByDate (l : List KpiInspection) : StrObj (List KpiInspection) :=
  l.foldl (fun byDate insp => pushByDate (groupingDate insp) insp byDate) []

/-- The function `calculateTrendData`; `none` is an absent argument.  The method
`String.prototype.localeCompare` of the runtime, whose order is the collation of
the host locale, is the parameter `collation`. -/
def calculateTrendData (collation : String → String → Int)
    (inspections : Option (List KpiInspection)) : List TrendPoint :=
  match inspections with
  | none => []
  | some l =>
    if l.length = 0 then []
    else
      (jsSort (fun a b => collation a.1 b.1) (groupByDate l)).map (fun e =>
        { date := e.1,
          compliance_rate := (aggregateInspectionStats (some e.2)).average_compliance_rate,
          total_inspections := e.2.length })

/-- A response with the given verdict, as the tests of `kpi.js` build it. -/
def verdict (conforme : JSVal) : Response :=
  { conforme := conforme, observation := "", updated_by := .undefined, updated_at := "" }

/-- An inspection that carries only a progress snapshot. -/
def progressOnly (total answered conforme nonConforme : Nat) : KpiInspection :=
  { status := none, date_inspection := none, created_at := none,
    progress := some { total := total, answered := answered, conforme := conforme,
                       non_conforme := nonConforme } }

/-! ## Authentication module (`auth.js`) and the wrapper of `inspections.js`

The wrappers call `invoke(cmd, args, useTauri)` with `useTauri` left at its
default `false`, which is `fallbackInvoke(cmd, args)`.  A string argument that
may be absent (`undefined`, `null`) is an `Option String`. -/

/-- The code points that `String.prototype.trim` removes: the `WhiteSpace` and
`LineTerminator` productions of ECMAScript (tab, line feed, vertical tab, form
feed, carriage return, space, no-break space, the space separators of Unicode,
line and paragraph separator, byte order mark). -/
def jsWhiteSpace (c : Char) : Bool :=
  c.toNat == 0x09 || c.toNat == 0x0A || c.toNat == 0x0B || c.toNat == 0x0C ||
  c.toNat == 0x0D || c.toNat == 0x20 || c.toNat == 0xA0 || c.toNat == 0x1680 ||
  (0x2000 ≤ c.toNat && c.toNat ≤ 0x200A) || c.toNat == 0x2028 || c.toNat == 0x2029 ||
  c.toNat == 0x202F || c.toNat == 0x205F || c.toNat == 0x3000 || c.toNat == 0xFEFF

/-- The method `String.prototype.trim`. -/
def jsTrim (s : String) : String :=
  String.mk ((s.data.dropWhile jsWhiteSpace).reverse.dropWhile jsWhiteSpace).reverse

/-- The test `!x` on a string that may be absent. -/
def falsyStr : Option String → Bool
  | none => true
  | some s => !strTruthy s

/-- The message of the error that `login` throws for a missing username. -/
def usernameRequired : String := "Nom d\x27utilisateur requis"

/-- The function `login` of `auth.js`. -/
def login (env : Env) (username password : Option String) (db : DB) : Outcome :=
  match username with
  | none => ⟨db, .error usernameRequired⟩
  | some u =>
    if !strTruthy u || !strTruthy (jsTrim u) then ⟨db, .error usernameRequired⟩
    else
      match password with
      | none => ⟨db, .error "Mot de passe requis"⟩
      | some p =>
        if !strTruthy p then ⟨db, .error "Mot de passe requis"⟩
        else fallbackInvoke env (.cmd_login u p) db

/-- The function `logout` of `auth.js`; it returns nothing (`undefined`). -/
def logout (env : Env) (token : Option String) (db : DB) : Outcome :=
  match token with
  | none => ⟨db, .error "Token requis"⟩
  | some t =>
    if !strTruthy t then ⟨db, .error "Token requis"⟩
    else
      match (fallbackInvoke env (.cmd_logout t) db).result with
      | .ok _ => ⟨(fallbackInvoke env (.cmd_logout t) db).db, .ok .undefined⟩
      | .error e => ⟨(fallbackInvoke env (.cmd_logout t) db).db, .error e⟩

/-- The function `validateSession` of `auth.js`. -/
def validateSession (env : Env) (token : Option String) (db : DB) : Outcome :=
  match token with
  | none => ⟨db, .error "Token requis"⟩
  | some t =>
    if !strTruthy t then ⟨db, .error "Token requis"⟩
    else fallbackInvoke env (.cmd_validate_session t) db

/-- The method `Array.prototype.includes` on an array of strings: a value that
is not a string is not included. -/
def includesStr (l : List String) (v : JSVal) : Bool :=
  match v with
  | .str s => l.contains s
  | _ => false

/-- The function `isAdmin`. -/
def isAdmin (role : JSVal) : Bool := includesStr ["admin", "lead_inspector"] role

/-- The function `canManageUsers`. -/
def canManageUsers (role : JSVal) : Bool := includesStr ["admin", "lead_inspector"] role

/-- The function `canValidateInspections`. -/
def canValidateInspections (role : JSVal) : Bool :=
  includesStr ["admin", "lead_inspector"] role

/-- The function `canCreateInspections`. -/
def canCreateInspections (role : JSVal) : Bool :=
  includesStr ["admin", "lead_inspector", "inspector"] role

/-- The command names that the `switch` of `fallbackInvoke` handles. -/
def handledNames : List String :=
  ["list_grids", "get_grid", "cmd_login", "cmd_logout", "cmd_validate_session",
   "cmd_list_users", "cmd_create_user", "cmd_update_user", "cmd_change_password",
   "cmd_delete_user", "cmd_create_inspection", "cmd_list_inspections", "cmd_get_inspection",
   "cmd_get_responses", "cmd_save_response", "cmd_set_inspection_status",
   "cmd_delete_inspection", "cmd_query_audit", "cmd_count_audit"]

/-- The function `updateInspectionMeta` of `inspections.js`: it dispatches
`cmd_update_inspection_meta`, a name that the `switch` does not handle, and
returns nothing.  The arguments reach the dispatcher in the bundle, which the
`default` branch does not read. -/
def updateInspectionMeta (env : Env) (_inspectionId : String) (_metadata : JSVal)
    (_session : Option Session) (db : DB) : Outcome :=
  match (fallbackInvoke env (.unknown "cmd_update_inspection_meta") db).result with
  | .ok _ => ⟨(fallbackInvoke env (.unknown "cmd_update_inspection_meta") db).db, .ok .undefined⟩
  | .error e => ⟨(fallbackInvoke env (.unknown "cmd_update_inspection_meta") db).db, .error e⟩

/-! ## Notions used in the statements, and sample data -/

/-- Whether the call returned rather than threw. -/
def Outcome.succeeded (o : Outcome) : Bool :=
  match o.result with
  | .ok _ => true
  | .error _ => false

/-- The credentials test of `cmd_login` on one user. -/
def credentialsMatch (username password : String) (u : User) : Prop :=
  u.username = username ∧ u.password = password ∧ u.active = true

/-- The upper-case mapping restricted to the letters `a` to `z`; `toUpperCase`
agrees with it on the strings of ASCII characters, which the status names of the
examples are. -/
def upperASCII (s : String) : String := String.mk (s.data.map Char.toUpper)

/-- A sample environment: identifiers and timestamps of the shape the code draws. -/
def sampleEnv : Env :=
  { seedId := "admin-0001", seedCreated := "2024-01-15 08:00:00",
    seedUpdated := "2024-01-15 08:00:00", newId := "uuid-0002",
    now1 := "2024-01-15 08:00:01", now2 := "2024-01-15 08:00:02",
    now3 := "2024-01-15 08:00:03", toUpperCase := upperASCII }

/-- The identifier invariant of `DB.users`: identifiers are pairwise distinct
and non-empty, as those minted by `crypto.randomUUID?.() || ...` are. -/
def UserIdsWF (users : List User) : Prop :=
  (users.map (fun u => u.id)).Nodup ∧ ∀ u ∈ users, u.id ≠ ""

/-- A store with one active inspector besides nothing else, for examples. -/
def sampleUser : User :=
  { id := "uuid-0001", username := "alice", full_name := "Alice Martin", role := "inspector",
    active := true, password := "s3cret", created_at := "2024-01-10 09:00:00",
    updated_at := "2024-01-10 09:00:00" }

/-- The empty store with `sampleUser` as its only user. -/
def sampleDB : DB := { DB.empty with users := [sampleUser] }

/-- Successive calls of `initDB`, one per element of `envs`, each reading its
own draws. -/
def initDBTimes (envs : List Env) (db : DB) : DB :=
  envs.foldl (fun d e => initDB e d) db

/-- The administrator record that `initDB` pushes. -/
def seedAdmin (env : Env) : User :=
  { id := env.seedId, username := "admin", full_name := "Administrateur", role := "admin",
    active := true, password := "admin123", created_at := env.seedCreated,
    updated_at := env.seedUpdated }

/-- A sample inspection in status `draft`, for examples. -/
def sampleInspection : Inspection :=
  { id := "insp-0001", grid_id := "officine", status := "draft",
    date_inspection := "2024-01-15", establishment := "Pharmacie du Centre",
    inspection_type := "initiale", inspectors := ["Alice Martin"],
    created_by := some "uuid-0001", created_by_name := some "Alice Martin",
    validated_by := .null, validated_by_name := .null, validated_at := .null,
    created_at := "2024-01-12 10:00:00", updated_at := "2024-01-12 10:00:00",
    progress := { total := 0, answered := 0, conforme := 0, non_conforme := 0 } }

/-- The store `sampleDB` with `sampleInspection` and its empty response
collection. -/
def sampleInspDB : DB :=
  { sampleDB with inspections := [sampleInspection],
                  responses := StrMap.empty.set "insp-0001" [] }

/-- One call of `cmd_save_response`: its draws and its arguments. -/
structure SaveCall where
  env : Env
  inspectionId : String
  criterionId : Nat
  conforme : JSVal
  observation : String
  session : Option Session

/-- The store after one call of `cmd_save_response`. -/
def SaveCall.run (c : SaveCall) (db : DB) : DB :=
  (fallbackInvoke c.env
    (.cmd_save_response c.inspectionId c.criterionId c.conforme c.observation c.session) db).db

/-- The store after a sequence of calls of `cmd_save_response`, first call first. -/
def runSaves (calls : List SaveCall) (db : DB) : DB :=
  calls.foldl (fun d c => c.run d) db

/-- The array that `cmd_get_responses` returns on a store. -/
def getResponses (env : Env) (inspectionId : String) (db : DB) : List ResponseView :=
  match (fallbackInvoke env (.cmd_get_responses inspectionId) db).result with
  | .ok (.responses l) => l
  | _ => []

/-- The representation invariant of the response collections: the entries of an
integer-keyed object are listed by strictly ascending key, so no key occurs
twice. -/
def ResponsesWF (db : DB) : Prop :=
  ∀ id r, db.responses id = some r → (r.map Prod.fst).Sorted (fun a b => a < b)

/-- A save on the sample inspection with the sample draws. -/
def sampleSave (criterionId : Nat) (conforme : JSVal) (observation : String) : SaveCall :=
  { env := sampleEnv, inspectionId := "insp-0001", criterionId := criterionId,
    conforme := conforme, observation := observation, session := none }

/-- The draws of a second and a third call, with their own identifiers. -/
def sampleEnv2 : Env := { sampleEnv with newId := "uuid-0003" }

/-- The draws of a third call. -/
def sampleEnv3 : Env := { sampleEnv with newId := "uuid-0004" }

/-- A request that creates a user whose display name is empty. -/
def bobReq : CreateUserReq :=
  { username := "bob", full_name := "", role := "inspector", password := "pw" }

/-- The store after `cmd_create_user` with `bobReq` on the empty store. -/
def bobDB : DB := (fallbackInvoke sampleEnv (.cmd_create_user bobReq) DB.empty).db

/-- The session that the login of that user returns. -/
def bobSession : Session :=
  { token := "uuid-0003",
    user := { id := "uuid-0002", username := "bob", full_name := "", role := "inspector",
              active := true, created_at := "2024-01-15 08:00:01",
              updated_at := "2024-01-15 08:00:02" } }

/-- A sample creation request. -/
def sampleReq : CreateInspectionReq :=
  { grid_id := "officine", establishment := "Pharmacie du Centre",
    date_inspection := "2024-01-15", inspection_type := "initiale",
    inspectors := ["Inspector 1"] }

/-- The array that `cmd_list_inspections` returns on a store. -/
def listInspections (env : Env) (myOnly : Bool) (status : Option String)
    (session : Option Session) (db : DB) : List Inspection :=
  match (fallbackInvoke env (.cmd_list_inspections myOnly status session) db).result with
  | .ok (.inspections l) => l
  | _ => []

/-- A second sample inspection, created by another user and updated later. -/
def sampleInspection2 : Inspection :=
  { sampleInspection with id := "insp-0002", status := "completed",
                          created_by := some "uuid-0009", created_by_name := some "Chloé",
                          updated_at := "2024-01-14 16:30:00" }

/-- One call of the dispatcher: its draws and its command. -/
structure Call where
  env : Env
  cmd : Cmd

/-- The store after one call of the dispatcher. -/
def Call.run (c : Call) (db : DB) : DB := (fallbackInvoke c.env c.cmd db).db

/-- The store after a sequence of calls of the dispatcher, first call first. -/
def runCalls (calls : List Call) (db : DB) : DB :=
  calls.foldl (fun d c => c.run d) db

/-- The numbering of an audit log that is newest first: the entry at position
`i` (the head is position 0) has sequence id `length - i`. -/
def AuditNumbered (audit : List AuditEntry) : Prop :=
  ∀ (i : Nat) (h : i < audit.length), (audit.get ⟨i, h⟩).id = audit.length - i

/-- The store `sampleInspDB` after its inspection was validated by `sampleUser`. -/
def validatedDB : DB :=
  (fallbackInvoke sampleEnv
    (.cmd_set_inspection_status "insp-0001" "validated"
      (some { token := "tok", user := sampleUser.view })) sampleInspDB).db

/-- The sample inspection as it is stored in `validatedDB`. -/
def validatedInspection : Inspection :=
  { sampleInspection with status := "validated", updated_at := "2024-01-15 08:00:01",
                          validated_by := .str "uuid-0001",
                          validated_by_name := .str "Alice Martin",
                          validated_at := .str "2024-01-15 08:00:02" }

/-- The compliance rate that `calculateInspectionStats` gives for an inspection. -/
def complianceRateOf (insp : KpiInspection) : Nat :=
  match calculateInspectionStats (some insp) with
  | some st => st.compliance_rate
  | none => 0

/-- The progress snapshot that `calculateInspectionStats` reads: the one of the
inspection, or all zeros. -/
def progressOf (insp : KpiInspection) : Progress :=
  insp.progress.getD { total := 0, answered := 0, conforme := 0, non_conforme := 0 }

/-- The summary that `aggregateInspectionStats` returns for no inspection. -/
def zeroSummary : AggregateStats :=
  { total_inspections := 0, by_status := [], total_criteria := 0, total_conforme := 0,
    total_non_conforme := 0, average_compliance_rate := 0 }

/-- The rounding the specification writes, in exact arithmetic: the integer
nearest to the quotient `n / d`, a half rounded up, that is `floor (n / d + 1/2)`. -/
def roundHalfUp (n d : Nat) : Nat := (2 * n + d) / (2 * d)

/-- The exact quotient `n / d` lies half-way between two integers. -/
def ExactHalf (n d : Nat) : Prop := (2 * n + d) % (2 * d) = 0

instance ExactHalf.decidable (n d : Nat) : Decidable (ExactHalf n d) :=
  inferInstanceAs (Decidable ((2 * n + d) % (2 * d) = 0))

/-- Forty answered criteria, numbered from 1, the first twenty-three conforming. -/
def tieResponses : NumObj Response :=
  (List.range 40).map (fun i => (i + 1, verdict (.bool (decide (i < 23)))))

/-- The three inspections of the grouping test of `calculateTrendData`. -/
def trendSample : List KpiInspection :=
  [ { progressOnly 100 100 80 20 with date_inspection := some "2024-01-15" },
    { progressOnly 100 100 90 10 with date_inspection := some "2024-01-15" },
    { progressOnly 100 100 70 30 with date_inspection := some "2024-01-16" } ]

/-- The comparison of two lists of numbers, first difference first, a list before
its proper extensions: negative, zero or positive. -/
def compareCodes : List Nat → List Nat → Int
  | [], [] => 0
  | [], _ :: _ => -1
  | _ :: _, [] => 1
  | x :: xs, y :: ys => if x < y then -1 else if y < x then 1 else compareCodes xs ys

/-- A comparator for the examples, which compares the characters without regard
to the case of the letters `A` to `Z`.  It agrees with `localeCompare` on the
dates of the examples: on two ISO dates, and on `March 1, 2024` and
`april 1, 2024`, where the collation puts `april` first. -/
def caseBlindCompare (a b : String) : Int :=
  compareCodes (a.data.map (fun c => c.toLower.toNat)) (b.data.map (fun c => c.toLower.toNat))

/-- Two inspections dated in words, the later month written in lower case. -/
def trendMixedCase : List KpiInspection :=
  [ { progressOnly 100 100 80 20 with date_inspection := some "March 1, 2024" },
    { progressOnly 100 100 90 10 with date_inspection := some "april 1, 2024" } ]

/-- Whether a call prepends an entry to the audit log: a `cmd_login` that
succeeds, `cmd_create_user`, `cmd_create_inspection` and
`cmd_set_inspection_status` do, no other command does. -/
def writesAudit (env : Env) (cmd : Cmd) (db : DB) : Bool :=
  match cmd with
  | .cmd_login _ _ => (fallbackInvoke env cmd db).succeeded
  | .cmd_create_user _ => true
  | .cmd_create_inspection _ _ => true
  | .cmd_set_inspection_status _ _ _ => true
  | _ => false

/-- A session of `sampleUser`, as `cmd_login` returns it. -/
def sampleSession : Session := { token := "tok-0001", user := sampleUser.view }

/-- The usernames of the users of a store, in store order. -/
def usernames (db : DB) : List String := db.users.map (fun u => u.username)

/-- The call does not create a user under a username that the store it runs on
already holds once `initDB` has run. -/
def Call.freshUsername (c : Call) (db : DB) : Bool :=
  match c.cmd with
  | .cmd_create_user req => !(usernames (initDB c.env db)).contains req.username
  | _ => true

/-- Every call of the sequence, run in order from `db`, satisfies
`Call.freshUsername` on the store it runs on. -/
def freshUsernames : List Call → DB → Bool
  | [], _ => true
  | c :: cs, db => c.freshUsername db && freshUsernames cs (c.run db)

/-- A request that creates a second user named `admin`. -/
def adminTwinReq : CreateUserReq :=
  { username := "admin", full_name := "Second", role := "viewer", password := "pw" }

/-- The array that `cmd_list_users` returns on a store. -/
def listUsers (env : Env) (db : DB) : List UserView :=
  match (fallbackInvoke env .cmd_list_users db).result with
  | .ok (.users l) => l
  | _ => []

/-- The store after two calls of `cmd_create_user` with `bobReq`: two active
users with the same username and password. -/
def twinDB : DB :=
  runCalls [⟨sampleEnv, .cmd_create_user bobReq⟩, ⟨sampleEnv2, .cmd_create_user bobReq⟩] DB.empty

/-- A string argument is absent, empty or made of white space only. -/
def isBlank : Option String → Bool
  | none => true
  | some u => u.data.all jsWhiteSpace

/-! ## Export (`export.js`)

The export functions are pure functions of the inspections handed to them.  A
text is a `String`; `Array.prototype.join` is `String.intercalate`. -/

/-- The double quote character. -/
def dquote : Char := Char.ofNat 34

/-- The backslash character. -/
def backslash : Char := Char.ofNat 92

/-- The line feed character. -/
def lineFeed : Char := Char.ofNat 10

/-- An inspection as the export functions read it: the fields of a stored
inspection, the progress snapshot possibly absent. -/
structure ExportInspection where
  id : String
  establishment : String
  grid_id : String
  inspection_type : String
  date_inspection : String
  status : String
  inspectors : List String
  created_by : Option String
  created_by_name : Option String
  created_at : String
  validated_by : JSVal
  validated_by_name : JSVal
  validated_at : JSVal
  progress : Option Progress
  deriving DecidableEq, Repr

/-- A stored inspection as an argument of the export functions. -/
def Inspection.toExport (i : Inspection) : ExportInspection :=
  { id := i.id, establishment := i.establishment, grid_id := i.grid_id,
    inspection_type := i.inspection_type, date_inspection := i.date_inspection,
    status := i.status, inspectors := i.inspectors, created_by := i.created_by,
    created_by_name := i.created_by_name, created_at := i.created_at,
    validated_by := i.validated_by, validated_by_name := i.validated_by_name,
    validated_at := i.validated_at, progress := some i.progress }

/-- An entry of the grid map handed to `exportToCSV`. -/
structure GridInfo where
  id : String
  name : String
  deriving DecidableEq, Repr

/-- The conversion `String(value)`. -/
def jsToString : JSVal → String
  | .undefined => "undefined"
  | .null => "null"
  | .bool true => "true"
  | .bool false => "false"
  | .num n => toString n
  | .str s => s

/-- The call `str.replace(/"/g, '""')`: every double quote is doubled. -/
def doubleQuotes (s : List Char) : List Char :=
  s.flatMap (fun c => if c = dquote then [dquote, dquote] else [c])

/-- The function `escapeCSV`. -/
def escapeCSV (value : JSVal) : String :=
  match value with
  | .null => ""
  | .undefined => ""
  | v =>
    let str := jsToString v
    if str.data.contains ',' || str.data.contains dquote || str.data.contains lineFeed then
      String.mk (dquote :: doubleQuotes str.data ++ [dquote])
    else str

/-- The function `getStatusLabel`, for a status that is not the name of a
property of `Object.prototype`. -/
def getStatusLabel (status : String) : String :=
  if status = "draft" then "Brouillon"
  else if status = "in_progress" then "En cours"
  else if status = "completed" then "Terminée"
  else if status = "validated" then "Validée"
  else if status = "archived" then "Archivée"
  else status

/-- The expression `x.progress || { total: 0, answered: 0, conforme: 0,
non_conforme: 0 }`. -/
def progressOrZero (p : Option Progress) : Progress :=
  match p with
  | some p => p
  | none => { total := 0, answered := 0, conforme := 0, non_conforme := 0 }

/-- The compliance rate that the three export functions compute. -/
def exportComplianceRate (progress : Progress) : Nat :=
  if progress.answered = 0 then 0
  else mathRound (mulDouble (divDouble progress.conforme progress.answered) 100)

/-- The completion rate that the two JSON export functions compute. -/
def exportCompletionRate (progress : Progress) : Nat :=
  if progress.total = 0 then 0
  else mathRound (mulDouble (divDouble progress.answered progress.total) 100)

/-- The header array of `exportToCSV`. -/
def csvHeaders : List String :=
  ["Établissement", "Grille", "Inspecteur(s)", "Date", "Statut", "Total critères",
   "Réponses", "Conforme", "Non-conforme", "% Conformité"]

/-- The expression `grid ? grid.name : insp.grid_id` with `grid = gridMap[insp.grid_id]`,
for a grid id that is not the name of a property of `Object.prototype`. -/
def gridNameOf (gridMap : StrMap GridInfo) (insp : ExportInspection) : String :=
  match gridMap insp.grid_id with
  | some grid => grid.name
  | none => insp.grid_id

/-- The array that `exportToCSV` builds for one inspection, each element as the
text that `join` makes of it; a count prints in decimal, as JavaScript prints
the integers below `10 ^ 21`. -/
def csvRow (gridMap : StrMap GridInfo) (insp : ExportInspection) : List String :=
  let gridName := gridNameOf gridMap insp
  let progress := progressOrZero insp.progress
  let complianceRate := exportComplianceRate progress
  [ escapeCSV (.str insp.establishment),
    escapeCSV (.str gridName),
    escapeCSV (.str (String.intercalate ", " insp.inspectors)),
    insp.date_inspection,
    getStatusLabel insp.status,
    toString progress.total,
    toString progress.answered,
    toString progress.conforme,
    toString progress.non_conforme,
    toString complianceRate ++ "%" ]

/-- The function `exportToCSV`; `none` is an absent (`null`, `undefined`) list. -/
def exportToCSV (inspections : Option (List ExportInspection)) (gridMap : StrMap GridInfo) :
    String :=
  match inspections with
  | none => ""
  | some l =>
    if l.length = 0 then ""
    else
      let rows := l.map (csvRow gridMap)
      String.intercalate "\n"
        (String.intercalate "," csvHeaders :: rows.map (fun row => String.intercalate "," row))

/-- A JSON value, as `JSON.stringify` walks it.  An object is the list of its
properties in creation order. -/
inductive Json where
  | null
  | bool (b : Bool)
  | num (n : Int)
  | str (s : String)
  | arr (items : List Json)
  | obj (fields : List (String × Json))

/-- Four hexadecimal digits, lower case. -/
def hex4 (n : Nat) : List Char :=
  List.replicate (4 - (Nat.toDigits 16 n).length) '0' ++ Nat.toDigits 16 n

/-- The escape of one character in a JSON string literal. -/
def quoteJSONChar (c : Char) : List Char :=
  if c = dquote then [backslash, dquote]
  else if c = backslash then [backslash, backslash]
  else if c.toNat = 8 then [backslash, 'b']
  else if c.toNat = 9 then [backslash, 't']
  else if c.toNat = 10 then [backslash, 'n']
  else if c.toNat = 12 then [backslash, 'f']
  else if c.toNat = 13 then [backslash, 'r']
  else if c.toNat < 32 then backslash :: 'u' :: hex4 c.toNat
  else [c]

/-- The JSON string literal of a string (`QuoteJSONString`). -/
def quoteJSON (s : String) : String :=
  String.mk (dquote :: s.data.flatMap quoteJSONChar ++ [dquote])

mutual
/-- The text of a JSON value at the given indentation, with a gap of two spaces
(`JSON.stringify(value, null, 2)`). -/
def Json.render (indent : String) : Json → String
  | .null => "null"
  | .bool true => "true"
  | .bool false => "false"
  | .num n => toString n
  | .str s => quoteJSON s
  | .arr items =>
    match Json.renderItems (indent ++ "  ") items with
    | [] => "[]"
    | texts =>
      "[\n" ++ indent ++ "  " ++ String.intercalate (",\n" ++ indent ++ "  ") texts
        ++ "\n" ++ indent ++ "]"
  | .obj fields =>
    match Json.renderFields (indent ++ "  ") fields with
    | [] => "\x7b\x7d"
    | texts =>
      "\x7b\n" ++ indent ++ "  " ++ String.intercalate (",\n" ++ indent ++ "  ") texts
        ++ "\n" ++ indent ++ "\x7d"
/-- The texts of the elements of an array. -/
def Json.renderItems (indent : String) : List Json → List String
  | [] => []
  | x :: xs => Json.render indent x :: Json.renderItems indent xs
/-- The texts of the properties of an object. -/
def Json.renderFields (indent : String) : List (String × Json) → List String
  | [] => []
  | (k, v) :: fs =>
    (quoteJSON k ++ ": " ++ Json.render indent v) :: Json.renderFields indent fs
end

/-- JavaScript truthiness of a JSON value. -/
def Json.truthy : Json → Bool
  | .null => false
  | .bool b => b
  | .num n => n != 0
  | .str s => s != ""
  | .arr _ => true
  | .obj _ => true

/-- A property value that may be `undefined` (`none`), which `JSON.stringify`
leaves out of an object. -/
def jsonOfJSVal : JSVal → Option Json
  | .undefined => none
  | .null => some .null
  | .bool b => some (.bool b)
  | .num n => some (.num n)
  | .str s => some (.str s)

/-- A string or `null` as a JSON value. -/
def jsonOfNullable : Option String → Json
  | some s => .str s
  | none => .null

/-- An object literal as `JSON.stringify` sees it: the properties whose value
is not `undefined`, in the order of the literal. -/
def jsonObject (fields : List (String × Option Json)) : Json :=
  .obj (fields.filterMap (fun f => f.2.map (fun v => (f.1, v))))

/-- The thirteen properties that `exportToJSON` and `exportInspectionReport`
copy from the inspection. -/
def inspectionFields (insp : ExportInspection) : List (String × Option Json) :=
  [ ("id", some (.str insp.id)),
    ("establishment", some (.str insp.establishment)),
    ("grid_id", some (.str insp.grid_id)),
    ("inspection_type", some (.str insp.inspection_type)),
    ("date_inspection", some (.str insp.date_inspection)),
    ("status", some (.str insp.status)),
    ("inspectors", some (.arr (insp.inspectors.map Json.str))),
    ("created_by", some (jsonOfNullable insp.created_by)),
    ("created_by_name", some (jsonOfNullable insp.created_by_name)),
    ("created_at", some (.str insp.created_at)),
    ("validated_by", jsonOfJSVal insp.validated_by),
    ("validated_by_name", jsonOfJSVal insp.validated_by_name),
    ("validated_at", jsonOfJSVal insp.validated_at) ]

/-- The `summary` record of `exportInspectionReport`. -/
def exportSummary (progress : Progress) : InspectionStats :=
  { total_criteria := progress.total,
    answered := progress.answered,
    pending := (progress.total : Int) - (progress.answered : Int),
    conforme := progress.conforme,
    non_conforme := progress.non_conforme,
    completion_rate := exportCompletionRate progress,
    compliance_rate := exportComplianceRate progress }

/-- The object that `exportToJSON` builds for one inspection; `responses` is
the second argument of `exportToJSON`, an object keyed by inspection id. -/
def exportEntry (responses : StrMap Json) (insp : ExportInspection) : Json :=
  let progress := progressOrZero insp.progress
  let inspecResponses := match responses insp.id with
    | some r => if r.truthy then r else .arr []
    | none => .arr []
  jsonObject (inspectionFields insp ++
    [ ("progress", some (jsonObject
        [ ("total_criteria", some (.num progress.total)),
          ("answered", some (.num progress.answered)),
          ("conforme", some (.num progress.conforme)),
          ("non_conforme", some (.num progress.non_conforme)),
          ("completion_rate", some (.num (exportCompletionRate progress))),
          ("compliance_rate", some (.num (exportComplianceRate progress))) ])),
      ("responses", some inspecResponses) ])

/-- The function `exportToJSON`; `none` is an absent list. -/
def exportToJSON (inspections : Option (List ExportInspection)) (responses : StrMap Json) :
    String :=
  match inspections with
  | none => Json.render "" (.arr [])
  | some l =>
    if l.length = 0 then Json.render "" (.arr [])
    else Json.render "" (.arr (l.map (exportEntry responses)))

/-- The function `exportInspectionReport`; `none` is a `null` inspection, and
responses that are not handed over (`none`) default to the empty array. -/
def exportInspectionReport (inspection : Option ExportInspection) (responses : Option Json) :
    String :=
  match inspection with
  | none => Json.render "" (jsonObject [])
  | some insp =>
    let summary := exportSummary (progressOrZero insp.progress)
    Json.render "" (jsonObject
      [ ("inspection", some (jsonObject (inspectionFields insp))),
        ("summary", some (jsonObject
          [ ("total_criteria", some (.num summary.total_criteria)),
            ("answered", some (.num summary.answered)),
            ("pending", some (.num summary.pending)),
            ("conforme", some (.num summary.conforme)),
            ("non_conforme", some (.num summary.non_conforme)),
            ("completion_rate", some (.num summary.completion_rate)),
            ("compliance_rate", some (.num summary.compliance_rate)) ])),
        ("responses", some (responses.getD (.arr []))) ])

/-- The inspection of the export tests. -/
def mockInspection : ExportInspection :=
  { id := "insp-1", establishment := "Pharmacy ABC", grid_id := "officine",
    inspection_type := "initiale", date_inspection := "2024-01-15", status := "completed",
    inspectors := ["Inspector 1", "Inspector 2"], created_by := some "user-1",
    created_by_name := some "John Doe", created_at := "2024-01-15 10:00:00",
    validated_by := .null, validated_by_name := .null, validated_at := .null,
    progress := some { total := 100, answered := 80, conforme := 60, non_conforme := 20 } }

/-- The grid map of the export tests. -/
def mockGridMap : StrMap GridInfo :=
  (StrMap.empty.set "officine" { id := "officine", name := "Pharmacie" }).set "grossiste"
    { id := "grossiste", name := "Grossiste" }

/-- The lines of a text: the pieces between its line feeds (`split('\n')`). -/
def linesOf (s : String) : List String := (s.data.splitOn lineFeed).map String.mk

/-- The text holds no line feed. -/
def NoLineFeed (s : String) : Prop := lineFeed ∉ s.data

/-- The inspection of the export tests with a quoted name in the establishment
and a date written with a comma, a date that `validateDateInspection` accepts. -/
def commaInspection : ExportInspection :=
  { mockInspection with
    establishment := String.mk ("Pharmacy ".data ++ dquote :: "ABC".data ++ dquote :: " & Co".data),
    date_inspection := "January 15, 2024" }

/-- The texts of an inspection that reach a row of `exportToCSV` hold no line
feed: establishment, grid name (or grid id), inspector names, date and status. -/
def CleanFields (gridMap : StrMap GridInfo) (insp : ExportInspection) : Prop :=
  NoLineFeed insp.establishment ∧ NoLineFeed (gridNameOf gridMap insp) ∧
  (∀ i ∈ insp.inspectors, NoLineFeed i) ∧ NoLineFeed insp.date_inspection ∧
  NoLineFeed insp.status

/-! ## Derived filters and sorts (`inspections.js`) -/

/-- The method `String.prototype.includes`: `t` occurs in `s` as a substring. -/
def jsIncludes (s t : String) : Bool := s.data.tails.any (fun tl => t.data.isPrefixOf tl)

/-- The function `filterInspectionsByStatus`; `none` is an absent (`null`,
`undefined`) status. -/
def filterInspectionsByStatus (inspections : List Inspection) (status : Option String) :
    List Inspection :=
  if falsyStr status then inspections
  else inspections.filter (fun i => some i.status == status)

/-- The function `filterInspectionsByGrid`. -/
def filterInspectionsByGrid (inspections : List Inspection) (gridId : Option String) :
    List Inspection :=
  if falsyStr gridId then inspections
  else inspections.filter (fun i => some i.grid_id == gridId)

/-- The function `filterInspectionsByEstablishment`.  The method
`String.prototype.toLowerCase`, the case mapping of Unicode, is the parameter
`toLowerCase`. -/
def filterInspectionsByEstablishment (toLowerCase : String → String)
    (inspections : List Inspection) (searchTerm : Option String) : List Inspection :=
  match searchTerm with
  | none => inspections
  | some s =>
    if !strTruthy s then inspections
    else
      let term := toLowerCase s
      inspections.filter (fun i => jsIncludes (toLowerCase i.establishment) term)

/-- The expression `statusOrder[status] || 0` of `sortInspectionsByStatus`, for
a status that is not the name of a property of `Object.prototype`. -/
def statusOrder (status : String) : Nat :=
  if status = "draft" then 1
  else if status = "in_progress" then 2
  else if status = "completed" then 3
  else if status = "validated" then 4
  else if status = "archived" then 5
  else 0

/-- The two arrays after a call of a sort function: the array that was handed
in, and the array that is returned. -/
structure SortOutcome where
  input : List Inspection
  result : List Inspection

/-- The function `sortInspectionsByStatus`: `sort` reorders in place the array
`sorted`, a copy of the argument made by the spread `[...inspections]`, and that
array is returned; the argument itself is not written. -/
def sortInspectionsByStatus (inspections : List Inspection) : SortOutcome :=
  let sorted := inspections
  { input := inspections,
    result := jsSort (fun a b => (statusOrder a.status : Int) - (statusOrder b.status : Int))
      sorted }

/-- Three inspections of the sample store in the statuses `completed`, `draft`
and `in_progress`. -/
def unsortedInspections : List Inspection :=
  [ { sampleInspection with id := "3", status := "completed" },
    { sampleInspection with id := "1", status := "draft", establishment := "Pharmacy ABC" },
    { sampleInspection with id := "2", status := "in_progress", grid_id := "grossiste" } ]

/-- A case mapping for examples: the letters `A` to `Z` are lowered. -/
def asciiLower (s : String) : String := String.mk (s.data.map Char.toLower)

/-! ## Validation (`validation.js`) -/

/-- The value a validator returns: `{ valid: true, value }` or
`{ valid: false, error }`. -/
inductive Validation where
  | valid (value : String)
  | invalid (error : String)
  deriving DecidableEq, Repr

/-- The property `length` of a string: its number of UTF-16 code units, two for
a code point above `0xFFFF`. -/
def jsLength (s : String) : Nat := (s.data.map (fun c => if c.toNat < 0x10000 then 1 else 2)).sum

/-- The character class `[a-zA-Z0-9._-]`. -/
def usernameChar (c : Char) : Bool :=
  (0x61 ≤ c.toNat && c.toNat ≤ 0x7A) || (0x41 ≤ c.toNat && c.toNat ≤ 0x5A) ||
  (0x30 ≤ c.toNat && c.toNat ≤ 0x39) || c.toNat == 0x2E || c.toNat == 0x5F || c.toNat == 0x2D

/-- The test of the regular expression `/^[a-zA-Z0-9._-]+$/`: at least one
character, and every character in the class. -/
def usernamePattern (s : String) : Bool := !s.data.isEmpty && s.data.all usernameChar

/-- The function `validateUsername`, on any JavaScript value. -/
def validateUsername (username : JSVal) : Validation :=
  match username with
  | .str s =>
    if !strTruthy s then .invalid usernameRequired
    else
      let trimmed := jsTrim s
      if jsLength trimmed < 3 then .invalid "Nom d\x27utilisateur minimum 3 caractères"
      else if jsLength trimmed > 50 then .invalid "Nom d\x27utilisateur maximum 50 caractères"
      else if !usernamePattern trimmed then .invalid "Caractères non autorisés"
      else .valid trimmed
  | _ => .invalid usernameRequired

/-! ## Notions of the cross-module statements -/

/-- An inspection handed to the export functions as an argument of the
functions of `kpi.js`. -/
def ExportInspection.toKpi (i : ExportInspection) : KpiInspection :=
  { status := some i.status, date_inspection := some i.date_inspection,
    created_at := some i.created_at, progress := i.progress }

/-- The `summary` object of `exportInspectionReport` as `JSON.stringify` sees it. -/
def summaryJson (st : InspectionStats) : Json :=
  jsonObject
    [ ("total_criteria", some (.num st.total_criteria)),
      ("answered", some (.num st.answered)),
      ("pending", some (.num st.pending)),
      ("conforme", some (.num st.conforme)),
      ("non_conforme", some (.num st.non_conforme)),
      ("completion_rate", some (.num st.completion_rate)),
      ("compliance_rate", some (.num st.compliance_rate)) ]

/-- The `progress` object of an entry of `exportToJSON`, given the progress
snapshot and the two rates. -/
def progressJson (p : Progress) (completionRate complianceRate : Nat) : Json :=
  jsonObject
    [ ("total_criteria", some (.num p.total)),
      ("answered", some (.num p.answered)),
      ("conforme", some (.num p.conforme)),
      ("non_conforme", some (.num p.non_conforme)),
      ("completion_rate", some (.num completionRate)),
      ("compliance_rate", some (.num complianceRate)) ]

/-- The progress snapshot is coherent: `conforme <= answered <= total`. -/
def Progress.Coherent (p : Progress) : Prop := p.conforme ≤ p.answered ∧ p.answered ≤ p.total

instance Progress.Coherent.decidable (p : Progress) : Decidable p.Coherent :=
  inferInstanceAs (Decidable (p.conforme ≤ p.answered ∧ p.answered ≤ p.total))

/-- The counts of a response collection: its entries, those whose `conforme`
is not `null`, those whose `conforme` is `true`, those whose `conforme` is
`false`. -/
def countsOf (r : NumObj Response) : Progress :=
  { total := r.length,
    answered := r.countP (fun e => e.2.conforme != JSVal.null),
    conforme := r.countP (fun e => e.2.conforme == JSVal.bool true),
    non_conforme := r.countP (fun e => e.2.conforme == JSVal.bool false) }

/-- The inspection ids are pairwise distinct, and every stored inspection has a
response collection whose counts are its progress snapshot. -/
def ProgressInSync (db : DB) : Prop :=
  (db.inspections.map (fun i => i.id)).Nodup ∧
  ∀ i ∈ db.inspections, ∃ r, db.responses i.id = some r ∧ i.progress = countsOf r

/-- The identifier that a `cmd_create_inspection` call draws is not the id of an
inspection of the store it runs on. -/
def Call.freshInspectionId (c : Call) (db : DB) : Bool :=
  match c.cmd with
  | .cmd_create_inspection _ _ => !(db.inspections.map (fun i => i.id)).contains c.env.newId
  | _ => true

/-- Every call of the sequence, run in order from `db`, satisfies
`Call.freshInspectionId` on the store it runs on. -/
def freshInspectionIds : List Call → DB → Bool
  | [], _ => true
  | c :: cs, db => c.freshInspectionId db && freshInspectionIds cs (c.run db)

/-- The value is `true`, `false` or `null`. -/
def triValued (v : JSVal) : Bool := v == .bool true || v == .bool false || v == .null

/-- The `conforme` argument of the call, when it is a `cmd_save_response`, is
`true`, `false` or `null`. -/
def Call.triValued (c : Call) : Bool :=
  match c.cmd with
  | .cmd_save_response _ _ conforme _ _ => InspectionOfficine.triValued conforme
  | _ => true

/-- Every stored inspection has `answered = conforme + non_conforme` and
`answered <= total` in its progress snapshot. -/
def ProgressBalanced (db : DB) : Prop :=
  ∀ i ∈ db.inspections,
    i.progress.answered = i.progress.conforme + i.progress.non_conforme ∧
    i.progress.answered ≤ i.progress.total

/-- Every stored response has a `conforme` that is `true`, `false` or `null`. -/
def ResponsesTriValued (db : DB) : Prop :=
  ∀ id r, db.responses id = some r → ∀ e ∈ r, triValued e.2.conforme = true

/-- The commands that write inspections or responses. -/
def Cmd.writesInspections : Cmd → Bool
  | .cmd_create_inspection _ _ => true
  | .cmd_save_response _ _ _ _ _ => true
  | .cmd_set_inspection_status _ _ _ => true
  | .cmd_delete_inspection _ => true
  | _ => false

/-- A sequence of calls on the empty store: an inspection is created, two of
its criteria are answered, its status is set, a second inspection is created and
deleted. -/
def sampleCalls : List Call :=
  [ ⟨sampleEnv, .cmd_create_inspection sampleReq none⟩,
    ⟨sampleEnv2, .cmd_save_response "uuid-0002" 1 (.bool true) "" none⟩,
    ⟨sampleEnv2, .cmd_save_response "uuid-0002" 2 .null "" none⟩,
    ⟨sampleEnv3, .cmd_set_inspection_status "uuid-0002" "completed" none⟩,
    ⟨sampleEnv2, .cmd_create_inspection sampleReq none⟩,
    ⟨sampleEnv3, .cmd_delete_inspection "uuid-0003"⟩ ]

/-! # Properties

## Authentication -/

theorem jsFind_credentials_none (username password : String) (users : List User) :
    jsFind (fun x => x.username == username && x.password == password && x.active) users = none ↔
      ¬ ∃ u ∈ users, credentialsMatch username password u := by
  simp [jsFind, List.find?_eq_none, credentialsMatch]

theorem jsFind_credentials_some (username password : String) (users : List User) (u : User)
    (h : jsFind (fun x => x.username == username && x.password == password && x.active) users
      = some u) : u ∈ users ∧ credentialsMatch username password u := by
  refine ⟨List.mem_of_find?_eq_some h, ?_⟩
  have := List.find?_some h
  simpa [credentialsMatch, and_assoc] using this

theorem initDB_of_users_ne_nil (env : Env) (db : DB) (h : db.users ≠ []) : initDB env db = db := by
  unfold initDB
  have : db.users.length ≠ 0 := by simpa using h
  simp [this]

theorem initDB_sessions (env : Env) (db : DB) : (initDB env db).sessions = db.sessions := by
  unfold initDB
  split <;> rfl

/-- One call binds at most the token it draws: a token that is bound after the
call was bound before it or is the value drawn by the call. -/
theorem sessions_step (env : Env) (cmd : Cmd) (db : DB) (t : String)
    (h : (fallbackInvoke env cmd db).db.sessions t ≠ none) :
    db.sessions t ≠ none ∨ t = env.newId := by
  cases cmd with
  | list_grids => exact Or.inl (by simpa [fallbackInvoke, list_grids, initDB_sessions] using h)
  | get_grid gridId =>
    left
    simp only [fallbackInvoke, get_grid] at h
    split at h <;> simpa [initDB_sessions] using h
  | cmd_login username password =>
    simp only [fallbackInvoke, cmd_login] at h
    split at h
    · exact Or.inl (by simpa [initDB_sessions] using h)
    · by_cases ht : t = env.newId
      · exact Or.inr ht
      · left
        simpa [addAuditLog, StrMap.set, ht, initDB_sessions] using h
  | cmd_logout token =>
    left
    simp only [fallbackInvoke, cmd_logout, StrMap.delete, initDB_sessions] at h
    split at h
    · exact absurd rfl h
    · exact h
  | cmd_validate_session token =>
    left
    simp only [fallbackInvoke, cmd_validate_session] at h
    split at h
    · simpa [initDB_sessions] using h
    · split at h
      · simpa [initDB_sessions] using h
      · split at h
        · simpa [initDB_sessions] using h
        · split at h <;> simpa [initDB_sessions] using h
  | cmd_list_users =>
    exact Or.inl (by simpa [fallbackInvoke, cmd_list_users, initDB_sessions] using h)
  | cmd_create_user req =>
    exact Or.inl (by
      simpa [fallbackInvoke, cmd_create_user, addAuditLog, initDB_sessions] using h)
  | cmd_update_user userId req =>
    exact Or.inl (by simpa [fallbackInvoke, cmd_update_user, initDB_sessions] using h)
  | cmd_change_password userId newPassword =>
    exact Or.inl (by simpa [fallbackInvoke, cmd_change_password, initDB_sessions] using h)
  | cmd_delete_user userId =>
    exact Or.inl (by simpa [fallbackInvoke, cmd_delete_user, initDB_sessions] using h)
  | cmd_create_inspection req session =>
    exact Or.inl (by
      simpa [fallbackInvoke, cmd_create_inspection, addAuditLog, initDB_sessions] using h)
  | cmd_list_inspections myOnly status session =>
    exact Or.inl (by simpa [fallbackInvoke, cmd_list_inspections, initDB_sessions] using h)
  | cmd_get_inspection inspectionId =>
    left
    simp only [fallbackInvoke, cmd_get_inspection] at h
    split at h <;> simpa [initDB_sessions] using h
  | cmd_get_responses inspectionId =>
    exact Or.inl (by simpa [fallbackInvoke, cmd_get_responses, initDB_sessions] using h)
  | cmd_save_response inspectionId criterionId conforme observation session =>
    exact Or.inl (by simpa [fallbackInvoke, cmd_save_response, initDB_sessions] using h)
  | cmd_set_inspection_status inspectionId status session =>
    exact Or.inl (by
      simpa [fallbackInvoke, cmd_set_inspection_status, addAuditLog, initDB_sessions] using h)
  | cmd_delete_inspection inspectionId =>
    exact Or.inl (by simpa [fallbackInvoke, cmd_delete_inspection, initDB_sessions] using h)
  | cmd_query_audit filter =>
    exact Or.inl (by simpa [fallbackInvoke, cmd_query_audit, initDB_sessions] using h)
  | cmd_count_audit => exact Or.inl (by simpa [fallbackInvoke, initDB_sessions] using h)
  | unknown name => exact Or.inl (by simpa [fallbackInvoke, initDB_sessions] using h)

/-- Every token that is bound after a run of calls was bound before the run or
is the value drawn by one of its calls. -/
theorem runCalls_sessions_drawn (calls : List Call) (db : DB) (t : String)
    (h : (runCalls calls db).sessions t ≠ none) :
    db.sessions t ≠ none ∨ ∃ c ∈ calls, c.env.newId = t := by
  induction calls generalizing db with
  | nil => exact Or.inl h
  | cons c cs ih =>
    rcases ih (c.run db) h with h1 | ⟨c2, hc2, ht⟩
    · rcases sessions_step c.env c.cmd db t h1 with h2 | h2
      · exact Or.inl h2
      · exact Or.inr ⟨c, List.mem_cons_self _ _, h2.symm⟩
    · exact Or.inr ⟨c2, List.mem_cons_of_mem _ hc2, ht⟩

/-- C1, as stated, fails on the store that holds no user: `fallbackInvoke` seeds
the administrator first, so the login `admin` / `admin123` succeeds although no
user of the store it was called on has that username and password. -/
theorem login_succeeds_on_empty_store :
    (fallbackInvoke sampleEnv (.cmd_login "admin" "admin123") DB.empty).succeeded = true ∧
      ¬ ∃ u ∈ DB.empty.users, credentialsMatch "admin" "admin123" u := by
  refine ⟨by decide, ?_⟩
  simp [DB.empty]

/-- C1, amended: `cmd_login` succeeds if and only if some user of the store after
its self-initialisation (`initDB`: the store itself when it already holds a
user) has exactly that username and password and is active.  On success it
returns the token drawn from the random source together with the view of such a
user, and the token is bound afterwards to that user id.  The token was not
bound beforehand: in a store reached from one without sessions by a run of
calls, a token can only be bound by the call that drew it, so the token of a
login whose draw no earlier call of the run drew is not bound in that store.
In every other case the call fails with `Identifiants incorrects`. -/
theorem login_iff_credentials (env : Env) (db : DB) (username password : String) :
    ((fallbackInvoke env (.cmd_login username password) db).succeeded = true ↔
        ∃ u ∈ (initDB env db).users, credentialsMatch username password u) ∧
    (db.users ≠ [] →
      ((fallbackInvoke env (.cmd_login username password) db).succeeded = true ↔
        ∃ u ∈ db.users, credentialsMatch username password u)) ∧
    ((fallbackInvoke env (.cmd_login username password) db).succeeded = true →
      ∃ u ∈ (initDB env db).users, credentialsMatch username password u ∧
        (fallbackInvoke env (.cmd_login username password) db).result =
          .ok (.session { token := env.newId, user := u.view }) ∧
        (fallbackInvoke env (.cmd_login username password) db).db.sessions env.newId
          = some u.id) ∧
    (∀ (db0 : DB) (earlier : List Call) (s : Session),
      (∀ t : String, db0.sessions t = none) → db = runCalls earlier db0 →
      (∀ c ∈ earlier, c.env.newId ≠ env.newId) →
      (fallbackInvoke env (.cmd_login username password) db).result = .ok (.session s) →
      db.sessions s.token = none) ∧
    ((fallbackInvoke env (.cmd_login username password) db).succeeded = false →
      (fallbackInvoke env (.cmd_login username password) db).result
        = .error "Identifiants incorrects") := by
  have key : ((fallbackInvoke env (.cmd_login username password) db).succeeded = true ↔
        ∃ u ∈ (initDB env db).users, credentialsMatch username password u) := by
    simp only [fallbackInvoke, cmd_login]
    cases hf : jsFind (fun x => x.username == username && x.password == password && x.active)
        (initDB env db).users with
    | none =>
      have := (jsFind_credentials_none username password _).1 hf
      simp [Outcome.succeeded, this]
    | some u =>
      have := jsFind_credentials_some username password _ u hf
      simp only [Outcome.succeeded, true_iff]
      exact ⟨u, this.1, this.2⟩
  refine ⟨key, ?_, ?_, ?_, ?_⟩
  · intro hne
    rw [key, initDB_of_users_ne_nil env db hne]
  · intro hs
    simp only [fallbackInvoke, cmd_login] at hs ⊢
    cases hf : jsFind (fun x => x.username == username && x.password == password && x.active)
        (initDB env db).users with
    | none => simp [hf, Outcome.succeeded] at hs
    | some u =>
      have := jsFind_credentials_some username password _ u hf
      refine ⟨u, this.1, this.2, ?_, ?_⟩
      · rfl
      · simp [addAuditLog, StrMap.set]
  · intro db0 earlier s h0 hrun hdraws hs
    have htok : s.token = env.newId := by
      simp only [fallbackInvoke, cmd_login] at hs
      cases hf : jsFind (fun x => x.username == username && x.password == password && x.active)
          (initDB env db).users with
      | none => simp [hf] at hs
      | some u =>
        simp only [hf, Except.ok.injEq, Ret.session.injEq] at hs
        rw [← hs]
    rw [htok, hrun]
    by_contra hb
    rcases runCalls_sessions_drawn earlier db0 env.newId hb with h1 | ⟨c, hc, hcd⟩
    · exact h1 (h0 env.newId)
    · exact hdraws c hc hcd
  · intro hs
    simp only [fallbackInvoke, cmd_login] at hs ⊢
    cases hf : jsFind (fun x => x.username == username && x.password == password && x.active)
        (initDB env db).users with
    | none => rfl
    | some u => simp [hf, Outcome.succeeded] at hs

/-- C1, amended, at the seeded store: the administrator logs in; and a second
login, whose draw differs from that of the first, returns a token that the
first login did not bind. -/
theorem login_iff_credentials_witness :
    ((initDB sampleEnv DB.empty).users ≠ [] ∧
      ((fallbackInvoke sampleEnv (.cmd_login "admin" "admin123")
          (initDB sampleEnv DB.empty)).succeeded = true ↔
        ∃ u ∈ (initDB sampleEnv DB.empty).users, credentialsMatch "admin" "admin123" u)) ∧
    ((∀ t : String, DB.empty.sessions t = none) ∧
      (∀ c ∈ [(⟨sampleEnv, .cmd_login "admin" "admin123"⟩ : Call)],
        c.env.newId ≠ sampleEnv2.newId) ∧
      (fallbackInvoke sampleEnv2 (.cmd_login "admin" "admin123")
        (runCalls [⟨sampleEnv, .cmd_login "admin" "admin123"⟩] DB.empty)).result
        = .ok (.session { token := "uuid-0003", user := (seedAdmin sampleEnv).view }) ∧
      (runCalls [⟨sampleEnv, .cmd_login "admin" "admin123"⟩] DB.empty).sessions "uuid-0003"
        = none) :=
  ⟨⟨by decide,
    (login_iff_credentials sampleEnv (initDB sampleEnv DB.empty) "admin" "admin123").2.1
      (by decide)⟩,
   fun _ => rfl, by simp [sampleEnv2, sampleEnv], by decide,
   (login_iff_credentials sampleEnv2
      (runCalls [⟨sampleEnv, .cmd_login "admin" "admin123"⟩] DB.empty) "admin" "admin123").2.2.2.1
      DB.empty [⟨sampleEnv, .cmd_login "admin" "admin123"⟩]
      { token := "uuid-0003", user := (seedAdmin sampleEnv).view }
      (fun _ => rfl) rfl (by simp [sampleEnv2, sampleEnv]) (by decide)⟩


theorem jsFind_id_of_mem (users : List User) (h : (users.map (fun u => u.id)).Nodup) (u : User)
    (hu : u ∈ users) : jsFind (fun x => x.id == u.id) users = some u := by
  induction users with
  | nil => simp at hu
  | cons x xs ih =>
    simp only [List.map_cons, List.nodup_cons] at h
    rcases List.mem_cons.1 hu with rfl | hmem
    · simp [jsFind]
    · have hne : x.id ≠ u.id := by
        intro heq
        exact h.1 (heq ▸ List.mem_map_of_mem (fun u => u.id) hmem)
      have := ih h.2 hmem
      simp only [jsFind] at this ⊢
      rw [List.find?_cons_of_neg _ (by simpa using hne)]
      exact this

theorem jsFind_id_some (users : List User) (uid : String) (u : User)
    (h : jsFind (fun x => x.id == uid) users = some u) : u ∈ users ∧ u.id = uid := by
  refine ⟨List.mem_of_find?_eq_some h, ?_⟩
  simpa using List.find?_some h

theorem initDB_users_of_nil (env : Env) (db : DB) (h : db.users = []) :
    (initDB env db).users =
      [ { id := env.seedId, username := "admin", full_name := "Administrateur",
          role := "admin", active := true, password := "admin123",
          created_at := env.seedCreated, updated_at := env.seedUpdated } ] := by
  simp [initDB, h]

theorem initDB_userIdsWF (env : Env) (db : DB) (hwf : UserIdsWF db.users)
    (hseed : env.seedId ≠ "") : UserIdsWF (initDB env db).users := by
  by_cases h : db.users = []
  · rw [initDB_users_of_nil env db h]
    simp [UserIdsWF, hseed]
  · rw [initDB_of_users_ne_nil env db h]
    exact hwf

theorem initDB_inspections (env : Env) (db : DB) :
    (initDB env db).inspections = db.inspections := by
  unfold initDB
  split <;> rfl

theorem initDB_responses (env : Env) (db : DB) : (initDB env db).responses = db.responses := by
  unfold initDB
  split <;> rfl

theorem initDB_audit (env : Env) (db : DB) : (initDB env db).audit = db.audit := by
  unfold initDB
  split <;> rfl

theorem validate_of_bound (db : DB) (token : String) (u : User) (hwf : UserIdsWF db.users)
    (hu : u ∈ db.users) (hb : db.sessions token = some u.id) (ha : u.active = true) :
    cmd_validate_session token db = ⟨db, .ok (.user u.view)⟩ := by
  have hne : strTruthy u.id = true := by simpa [strTruthy] using hwf.2 u hu
  simp [cmd_validate_session, hb, hne, jsFind_id_of_mem db.users hwf.1 u hu, ha]

/-- C2: round trip.  On a store whose user identifiers are distinct and
non-empty, whenever `cmd_login` succeeds with a session `s`, `cmd_validate_session`
on `s.token` in the resulting store succeeds and returns the user view `s.user`,
which is the view (public fields) of a user of the store with the given
credentials. -/
theorem validate_after_login (env envV : Env) (db : DB) (username password : String)
    (s : Session) (hwf : UserIdsWF db.users) (hseed : env.seedId ≠ "")
    (hlogin : (fallbackInvoke env (.cmd_login username password) db).result
      = .ok (.session s)) :
    (fallbackInvoke envV (.cmd_validate_session s.token)
        (fallbackInvoke env (.cmd_login username password) db).db).result
      = .ok (.user s.user) ∧
    ∃ u ∈ (initDB env db).users, credentialsMatch username password u ∧ s.user = u.view := by
  simp only [fallbackInvoke, cmd_login] at hlogin ⊢
  cases hf : jsFind (fun x => x.username == username && x.password == password && x.active)
      (initDB env db).users with
  | none => simp [hf] at hlogin
  | some u =>
    have hu := jsFind_credentials_some username password _ u hf
    simp only [hf, Except.ok.injEq, Ret.session.injEq] at hlogin
    subst hlogin
    have hwf1 := initDB_userIdsWF env db hwf hseed
    have hne : (initDB env db).users ≠ [] := List.ne_nil_of_mem hu.1
    refine ⟨?_, u, hu.1, hu.2, rfl⟩
    have hinit : initDB envV (addAuditLog
        { initDB env db with sessions := (initDB env db).sessions.set env.newId u.id }
        (.str u.id) (.str u.username) "LOGIN" "session" env.newId "" env.now1)
        = addAuditLog
        { initDB env db with sessions := (initDB env db).sessions.set env.newId u.id }
        (.str u.id) (.str u.username) "LOGIN" "session" env.newId "" env.now1 :=
      initDB_of_users_ne_nil _ _ (by simpa [addAuditLog] using hne)
    simp only [hinit]
    rw [validate_of_bound _ env.newId u (by simpa [addAuditLog] using hwf1)
      (by simpa [addAuditLog] using hu.1) (by simp [addAuditLog, StrMap.set]) hu.2.2.2]

/-- C2 at the store that holds no user: the seeded administrator logs in and the
token validates to the same view. -/
theorem validate_after_login_witness :
    UserIdsWF DB.empty.users ∧ sampleEnv.seedId ≠ "" ∧
    (fallbackInvoke sampleEnv (.cmd_validate_session "uuid-0002")
        (fallbackInvoke sampleEnv (.cmd_login "admin" "admin123") DB.empty).db).result
      = .ok (.user { id := "admin-0001", username := "admin", full_name := "Administrateur",
                     role := "admin", active := true, created_at := "2024-01-15 08:00:00",
                     updated_at := "2024-01-15 08:00:00" }) :=
  ⟨by simp [UserIdsWF, DB.empty], by decide,
    (validate_after_login sampleEnv sampleEnv DB.empty "admin" "admin123"
      { token := "uuid-0002",
        user := { id := "admin-0001", username := "admin", full_name := "Administrateur",
                  role := "admin", active := true, created_at := "2024-01-15 08:00:00",
                  updated_at := "2024-01-15 08:00:00" } }
      (by simp [UserIdsWF, DB.empty]) (by decide) (by decide)).1⟩


theorem validate_failure_message (token : String) (db : DB)
    (h : (cmd_validate_session token db).succeeded = false) :
    (cmd_validate_session token db).result = .error "Session invalide" := by
  unfold cmd_validate_session at h ⊢
  cases hs : db.sessions token with
  | none => rfl
  | some uid =>
    simp only [hs] at h ⊢
    by_cases ht : strTruthy uid = true
    · simp only [ht, Bool.not_true, Bool.false_eq_true, if_false] at h ⊢
      cases hf : jsFind (fun x => x.id == uid) db.users with
      | none => rfl
      | some u =>
        simp only [hf] at h ⊢
        by_cases ha : u.active = true
        · simp [ha, Outcome.succeeded] at h
        · simp [ha]
    · simp [ht]

theorem validate_success_inv (token : String) (db : DB)
    (h : (cmd_validate_session token db).succeeded = true) :
    ∃ u ∈ db.users, db.sessions token = some u.id ∧ u.active = true ∧
      (cmd_validate_session token db).result = .ok (.user u.view) := by
  unfold cmd_validate_session at h ⊢
  cases hs : db.sessions token with
  | none => simp [hs, Outcome.succeeded] at h
  | some uid =>
    simp only [hs] at h ⊢
    by_cases ht : strTruthy uid = true
    · simp only [ht, Bool.not_true, Bool.false_eq_true, if_false] at h ⊢
      cases hf : jsFind (fun x => x.id == uid) db.users with
      | none => simp [hf, Outcome.succeeded] at h
      | some u =>
        simp only [hf] at h ⊢
        have hu := jsFind_id_some db.users uid u hf
        by_cases ha : u.active = true
        · refine ⟨u, hu.1, by rw [hu.2], ha, ?_⟩
          simp [ha]
        · simp [ha, Outcome.succeeded] at h
    · simp [ht, Outcome.succeeded] at h

/-- C3: on a store whose user identifiers are distinct and non-empty (and, when
the store holds no user, the identifier drawn for the seeded administrator is
not the one the token is bound to), `cmd_validate_session` succeeds if and only
if the token is bound in the session mapping to the id of a user of the store
that is active; it then returns the view of that user, and in every other case
(token unbound, bound id matching no user, bound user inactive) it fails with
`Session invalide`. -/
theorem validate_session_iff (env : Env) (db : DB) (token : String)
    (hwf : UserIdsWF db.users)
    (hseed : db.users = [] → db.sessions token ≠ some env.seedId) :
    ((fallbackInvoke env (.cmd_validate_session token) db).succeeded = true ↔
      ∃ u ∈ db.users, db.sessions token = some u.id ∧ u.active = true) ∧
    (∀ u ∈ db.users, db.sessions token = some u.id → u.active = true →
      (fallbackInvoke env (.cmd_validate_session token) db).result = .ok (.user u.view)) ∧
    ((¬ ∃ u ∈ db.users, db.sessions token = some u.id ∧ u.active = true) →
      (fallbackInvoke env (.cmd_validate_session token) db).result
        = .error "Session invalide") := by
  have hpos : ∀ u ∈ db.users, db.sessions token = some u.id → u.active = true →
      fallbackInvoke env (.cmd_validate_session token) db = ⟨db, .ok (.user u.view)⟩ := by
    intro u hu hb ha
    simp only [fallbackInvoke]
    rw [initDB_of_users_ne_nil env db (List.ne_nil_of_mem hu)]
    exact validate_of_bound db token u hwf hu hb ha
  have hiff : ((fallbackInvoke env (.cmd_validate_session token) db).succeeded = true ↔
      ∃ u ∈ db.users, db.sessions token = some u.id ∧ u.active = true) := by
    constructor
    · intro h
      simp only [fallbackInvoke] at h
      obtain ⟨u, hu, hb, ha, -⟩ := validate_success_inv token _ h
      rw [initDB_sessions] at hb
      by_cases hnil : db.users = []
      · rw [initDB_users_of_nil env db hnil] at hu
        simp only [List.mem_singleton] at hu
        subst hu
        exact absurd hb (hseed hnil)
      · rw [initDB_of_users_ne_nil env db hnil] at hu
        exact ⟨u, hu, hb, ha⟩
    · rintro ⟨u, hu, hb, ha⟩
      rw [hpos u hu hb ha]
      rfl
  refine ⟨hiff, ?_, ?_⟩
  · intro u hu hb ha
    rw [hpos u hu hb ha]
  · intro hno
    have hf : (fallbackInvoke env (.cmd_validate_session token) db).succeeded = false := by
      cases hsucc : (fallbackInvoke env (.cmd_validate_session token) db).succeeded with
      | false => rfl
      | true => exact absurd (hiff.1 hsucc) hno
    simp only [fallbackInvoke] at hf ⊢
    exact validate_failure_message token _ hf

/-- C3 at a store with one active user: a token bound to that user validates, an
unbound token does not. -/
theorem validate_session_iff_witness :
    UserIdsWF sampleDB.users ∧
    (fallbackInvoke sampleEnv (.cmd_validate_session "tok")
        { sampleDB with sessions := StrMap.empty.set "tok" "uuid-0001" }).result
      = .ok (.user sampleUser.view) ∧
    (fallbackInvoke sampleEnv (.cmd_validate_session "other")
        { sampleDB with sessions := StrMap.empty.set "tok" "uuid-0001" }).result
      = .error "Session invalide" :=
  ⟨by simp [UserIdsWF, sampleDB, sampleUser],
   (validate_session_iff sampleEnv { sampleDB with sessions := StrMap.empty.set "tok" "uuid-0001" }
      "tok" (by simp [UserIdsWF, sampleDB, sampleUser]) (by simp [sampleDB])).2.1
      sampleUser (by simp [sampleDB]) (by decide) (by decide),
   (validate_session_iff sampleEnv { sampleDB with sessions := StrMap.empty.set "tok" "uuid-0001" }
      "other" (by simp [UserIdsWF, sampleDB, sampleUser]) (by simp [sampleDB])).2.2
      (by simp [sampleDB, StrMap.set, StrMap.empty])⟩

/-- C4, as stated, fails on the store that holds no user: `cmd_logout` leaves a
user there that was not there before (the administrator seeded by `initDB`). -/
theorem logout_changes_users_on_empty_store :
    (fallbackInvoke sampleEnv (.cmd_logout "tok") DB.empty).db.users ≠ DB.empty.users := by
  decide

/-- C4, amended: `cmd_logout` raises no error (also when the token is not
bound) and removes only the binding of that token: every other token binding,
the inspections, the responses and the audit entries are unchanged, and the
users are unchanged when the store already holds a user (on a store that holds
none the administrator is seeded).  Afterwards `cmd_validate_session` on that
token fails with `Session invalide`. -/
theorem logout_frame (env envV : Env) (db : DB) (token : String) :
    (fallbackInvoke env (.cmd_logout token) db).result = .ok .null ∧
    (fallbackInvoke env (.cmd_logout token) db).db.sessions token = none ∧
    (∀ t, t ≠ token →
      (fallbackInvoke env (.cmd_logout token) db).db.sessions t = db.sessions t) ∧
    (fallbackInvoke env (.cmd_logout token) db).db.users = (initDB env db).users ∧
    (db.users ≠ [] → (fallbackInvoke env (.cmd_logout token) db).db.users = db.users) ∧
    (fallbackInvoke env (.cmd_logout token) db).db.inspections = db.inspections ∧
    (fallbackInvoke env (.cmd_logout token) db).db.responses = db.responses ∧
    (fallbackInvoke env (.cmd_logout token) db).db.audit = db.audit ∧
    (fallbackInvoke envV (.cmd_validate_session token)
      (fallbackInvoke env (.cmd_logout token) db).db).result = .error "Session invalide" := by
  refine ⟨rfl, ?_, ?_, rfl, ?_, ?_, ?_, ?_, ?_⟩
  · simp [fallbackInvoke, cmd_logout, StrMap.delete]
  · intro t ht
    simp [fallbackInvoke, cmd_logout, StrMap.delete, ht, initDB_sessions]
  · intro hne
    simp [fallbackInvoke, cmd_logout, initDB_of_users_ne_nil env db hne]
  · simp [fallbackInvoke, cmd_logout, initDB_inspections]
  · simp [fallbackInvoke, cmd_logout, initDB_responses]
  · simp [fallbackInvoke, cmd_logout, initDB_audit]
  · simp only [fallbackInvoke, cmd_logout]
    have hs : (initDB envV { initDB env db with
        sessions := (initDB env db).sessions.delete token }).sessions token = none := by
      rw [initDB_sessions]
      simp [StrMap.delete]
    simp [cmd_validate_session, hs]

/-- C4, amended, at a store that holds a user: the users are unchanged. -/
theorem logout_frame_witness :
    sampleDB.users ≠ [] ∧
    (fallbackInvoke sampleEnv (.cmd_logout "tok") sampleDB).db.users = sampleDB.users :=
  ⟨by decide, (logout_frame sampleEnv sampleEnv sampleDB "tok").2.2.2.2.1 (by decide)⟩


/-! ## Seeding -/

theorem initDBTimes_of_users_ne_nil (envs : List Env) (db : DB) (h : db.users ≠ []) :
    initDBTimes envs db = db := by
  induction envs with
  | nil => rfl
  | cons e rest ih =>
    simp only [initDBTimes, List.foldl_cons] at ih ⊢
    rw [initDB_of_users_ne_nil e db h]
    exact ih

/-- C5: seeding is idempotent.  `N >= 1` successive calls of `initDB` on a store
with no users leave exactly one user, the administrator seeded by the first call
(username `admin`, role `admin`, active), and leave the rest of the store as it
was; on a store that already holds a user, `initDB` (once or repeatedly)
changes nothing. -/
theorem initDB_idempotent (N : Nat) (envs : List Env) (db : DB) (hN : 1 ≤ N)
    (hlen : envs.length = N) (hempty : db.users = []) :
    (∃ e ∈ envs, (initDBTimes envs db).users = [seedAdmin e]) ∧
    (∃ admin : User, (initDBTimes envs db).users = [admin] ∧ admin.username = "admin" ∧
      admin.role = "admin" ∧ admin.active = true) ∧
    (initDBTimes envs db).inspections = db.inspections ∧
    (initDBTimes envs db).responses = db.responses ∧
    (initDBTimes envs db).audit = db.audit ∧
    (initDBTimes envs db).sessions = db.sessions ∧
    (∀ (env : Env) (db2 : DB), db2.users ≠ [] →
      initDB env db2 = db2 ∧ initDBTimes envs db2 = db2) := by
  cases envs with
  | nil => simp at hlen; omega
  | cons e rest =>
    have hne : (initDB e db).users ≠ [] := by
      rw [initDB_users_of_nil e db hempty]
      simp
    have hstep : initDBTimes (e :: rest) db = initDB e db := by
      simp only [initDBTimes, List.foldl_cons]
      exact initDBTimes_of_users_ne_nil rest _ hne
    have husers : (initDB e db).users = [seedAdmin e] := initDB_users_of_nil e db hempty
    rw [hstep]
    refine ⟨⟨e, by simp, husers⟩, ⟨seedAdmin e, husers, rfl, rfl, rfl⟩, initDB_inspections e db,
      initDB_responses e db, initDB_audit e db, initDB_sessions e db, ?_⟩
    intro env db2 h2
    exact ⟨initDB_of_users_ne_nil env db2 h2, initDBTimes_of_users_ne_nil _ db2 h2⟩

/-- C5 with three calls on the empty store. -/
theorem initDB_idempotent_witness :
    (1 ≤ 3) ∧ [sampleEnv, sampleEnv, sampleEnv].length = 3 ∧ DB.empty.users = [] ∧
    ∃ admin : User, (initDBTimes [sampleEnv, sampleEnv, sampleEnv] DB.empty).users = [admin] ∧
      admin.username = "admin" ∧ admin.role = "admin" ∧ admin.active = true :=
  ⟨by decide, rfl, rfl,
    (initDB_idempotent 3 [sampleEnv, sampleEnv, sampleEnv] DB.empty (by decide) rfl rfl).2.1⟩

/-! ## Responses and progress -/

theorem jsFind_updateFirst {α : Type} (p : α → Bool) (f : α → α) (l : List α)
    (hp : ∀ x, p (f x) = p x) : jsFind p (updateFirst p f l) = (jsFind p l).map f := by
  induction l with
  | nil => rfl
  | cons x xs ih =>
    simp only [jsFind] at ih ⊢
    by_cases hx : p x = true
    · simp [updateFirst, hx, hp]
    · simp [updateFirst, hx, List.find?_cons_of_neg, ih]

theorem inspection_exists_iff (id : String) (l : List Inspection) :
    (∃ i ∈ l, i.id = id) ↔ ∃ i, jsFind (fun i => i.id == id) l = some i := by
  constructor
  · rintro ⟨i, hi, rfl⟩
    cases hf : jsFind (fun j => j.id == i.id) l with
    | some j => exact ⟨j, rfl⟩
    | none =>
      simp only [jsFind, List.find?_eq_none] at hf
      exact absurd (by simp) (hf i hi)
  · rintro ⟨i, hi⟩
    exact ⟨i, List.mem_of_find?_eq_some hi, by simpa using List.find?_some hi⟩

theorem save_response_db (env : Env) (db : DB) (id : String) (crit : Nat) (conforme : JSVal)
    (obs : String) (session : Option Session) :
    (fallbackInvoke env (.cmd_save_response id crit conforme obs session) db).db.responses id
      = some (NumObj.set crit (savedResponse env conforme obs session)
          ((db.responses id).getD [])) := by
  simp [fallbackInvoke, cmd_save_response, StrMap.set, initDB_responses]

theorem save_response_inspection (env : Env) (db : DB) (id : String) (crit : Nat)
    (conforme : JSVal) (obs : String) (session : Option Session) :
    jsFind (fun i => i.id == id)
      (fallbackInvoke env (.cmd_save_response id crit conforme obs session) db).db.inspections
    = (jsFind (fun i => i.id == id) db.inspections).map (fun insp =>
        { insp with
          status := if insp.status == "draft" then "in_progress" else insp.status,
          updated_at := env.now2,
          progress := computeProgress (NumObj.set crit
            (savedResponse env conforme obs session) ((db.responses id).getD [])) }) := by
  simp only [fallbackInvoke, cmd_save_response, initDB_inspections, initDB_responses]
  exact jsFind_updateFirst _ _ _ (fun x => rfl)

theorem get_inspection_result (env : Env) (db : DB) (id : String) (i : Inspection)
    (h : jsFind (fun i => i.id == id) db.inspections = some i) :
    (fallbackInvoke env (.cmd_get_inspection id) db).result = .ok (.inspection i) := by
  simp only [fallbackInvoke, cmd_get_inspection, initDB_inspections, h]

theorem get_responses_result (env : Env) (db : DB) (id : String) :
    (fallbackInvoke env (.cmd_get_responses id) db).result
      = .ok (.responses (((db.responses id).getD []).map (responseView env))) := by
  simp only [fallbackInvoke, cmd_get_responses, initDB_responses]

theorem countP_views (env : Env) (r : NumObj Response) (q : JSVal → Bool) :
    (r.map (responseView env)).countP (fun v => q v.conforme)
      = (r.filter (fun e => q e.2.conforme)).length := by
  rw [List.countP_map, List.countP_eq_length_filter]
  rfl

/-- C6: after `cmd_save_response` on an inspection that exists, the progress
snapshot of that inspection (as `cmd_get_inspection` returns it) counts the
entries that `cmd_get_responses` returns for it, the response collection after
the upsert: `total` is their number, `answered` the number whose `conforme` is
not `null`, `conforme` the number whose `conforme` is `true`, `non_conforme` the
number whose `conforme` is `false`. -/
theorem save_response_progress (env envG : Env) (db : DB) (id : String) (crit : Nat)
    (conforme : JSVal) (obs : String) (session : Option Session)
    (hex : ∃ i ∈ db.inspections, i.id = id) :
    ∃ (insp : Inspection) (views : List ResponseView),
      (fallbackInvoke envG (.cmd_get_inspection id)
        (fallbackInvoke env (.cmd_save_response id crit conforme obs session) db).db).result
        = .ok (.inspection insp) ∧
      (fallbackInvoke envG (.cmd_get_responses id)
        (fallbackInvoke env (.cmd_save_response id crit conforme obs session) db).db).result
        = .ok (.responses views) ∧
      insp.progress.total = views.length ∧
      insp.progress.answered = views.countP (fun v => v.conforme != JSVal.null) ∧
      insp.progress.conforme = views.countP (fun v => v.conforme == JSVal.bool true) ∧
      insp.progress.non_conforme = views.countP (fun v => v.conforme == JSVal.bool false) := by
  obtain ⟨i0, hi0⟩ := (inspection_exists_iff id db.inspections).1 hex
  have hfind := save_response_inspection env db id crit conforme obs session
  have hresp := save_response_db env db id crit conforme obs session
  rw [hi0] at hfind
  simp only [Option.map_some'] at hfind
  refine ⟨_, _, get_inspection_result envG _ id _ hfind, get_responses_result envG _ id,
    ?_, ?_, ?_, ?_⟩
  · simp [hresp, computeProgress]
  · rw [hresp, Option.getD_some, countP_views envG _ (fun c => c != JSVal.null)]
    rfl
  · rw [hresp, Option.getD_some, countP_views envG _ (fun c => c == JSVal.bool true)]
    rfl
  · rw [hresp, Option.getD_some, countP_views envG _ (fun c => c == JSVal.bool false)]
    rfl

/-- C6 on the sample store: one conforming answer gives the snapshot 1/1/1/0. -/
theorem save_response_progress_witness :
    (∃ i ∈ sampleInspDB.inspections, i.id = "insp-0001") ∧
    ∃ (insp : Inspection) (views : List ResponseView),
      (fallbackInvoke sampleEnv (.cmd_get_inspection "insp-0001")
        (fallbackInvoke sampleEnv
          (.cmd_save_response "insp-0001" 1 (.bool true) "OK" none) sampleInspDB).db).result
        = .ok (.inspection insp) ∧
      (fallbackInvoke sampleEnv (.cmd_get_responses "insp-0001")
        (fallbackInvoke sampleEnv
          (.cmd_save_response "insp-0001" 1 (.bool true) "OK" none) sampleInspDB).db).result
        = .ok (.responses views) ∧
      insp.progress.total = views.length ∧
      insp.progress.answered = views.countP (fun v => v.conforme != JSVal.null) ∧
      insp.progress.conforme = views.countP (fun v => v.conforme == JSVal.bool true) ∧
      insp.progress.non_conforme = views.countP (fun v => v.conforme == JSVal.bool false) :=
  ⟨⟨sampleInspection, by simp [sampleInspDB], rfl⟩,
    save_response_progress sampleEnv sampleEnv sampleInspDB "insp-0001" 1 (.bool true) "OK" none
      ⟨sampleInspection, by simp [sampleInspDB], rfl⟩⟩


theorem get_inspection_inv (env : Env) (db : DB) (id : String) (i : Inspection)
    (h : (fallbackInvoke env (.cmd_get_inspection id) db).result = .ok (.inspection i)) :
    jsFind (fun i => i.id == id) db.inspections = some i := by
  simp only [fallbackInvoke, cmd_get_inspection, initDB_inspections] at h
  cases hf : jsFind (fun i => i.id == id) db.inspections with
  | none => simp [hf] at h
  | some j =>
    simp only [hf, Except.ok.injEq, Ret.inspection.injEq] at h
    rw [h]

/-- C7: `cmd_save_response` on an existing inspection sets its status to
`in_progress` when the status was `draft` and leaves every other status (in
particular `in_progress`, `completed`, `validated`, `archived`) unchanged; a
second save leaves the status that the first one left, so a `draft` inspection
is `in_progress` after two saves. -/
theorem save_response_status (env env2 envG : Env) (db : DB) (id : String) (crit crit2 : Nat)
    (conforme conforme2 : JSVal) (obs obs2 : String) (session session2 : Option Session)
    (i0 : Inspection)
    (h0 : (fallbackInvoke envG (.cmd_get_inspection id) db).result = .ok (.inspection i0)) :
    ∃ i1 i2 : Inspection,
      (fallbackInvoke envG (.cmd_get_inspection id)
        (fallbackInvoke env (.cmd_save_response id crit conforme obs session) db).db).result
        = .ok (.inspection i1) ∧
      (fallbackInvoke envG (.cmd_get_inspection id)
        (fallbackInvoke env2 (.cmd_save_response id crit2 conforme2 obs2 session2)
          (fallbackInvoke env (.cmd_save_response id crit conforme obs session) db).db).db).result
        = .ok (.inspection i2) ∧
      (i0.status = "draft" → i1.status = "in_progress") ∧
      (i0.status ≠ "draft" → i1.status = i0.status) ∧
      (i0.status = "in_progress" ∨ i0.status = "completed" ∨ i0.status = "validated" ∨
        i0.status = "archived" → i1.status = i0.status) ∧
      i2.status = i1.status ∧
      (i0.status = "draft" → i2.status = "in_progress") := by
  have hf0 := get_inspection_inv envG db id i0 h0
  have hf1 := save_response_inspection env db id crit conforme obs session
  rw [hf0, Option.map_some'] at hf1
  have hf2 := save_response_inspection env2
    (fallbackInvoke env (.cmd_save_response id crit conforme obs session) db).db
    id crit2 conforme2 obs2 session2
  rw [hf1, Option.map_some'] at hf2
  refine ⟨_, _, get_inspection_result envG _ id _ hf1, get_inspection_result envG _ id _ hf2,
    ?_, ?_, ?_, ?_, ?_⟩
  · intro h
    simp [h]
  · intro h
    simp [h]
  · intro h
    rcases h with h | h | h | h <;> simp [h]
  · by_cases h : i0.status = "draft" <;> simp [h]
  · intro h
    simp [h]

/-- C7 on the sample store, whose inspection is a draft. -/
theorem save_response_status_witness :
    (fallbackInvoke sampleEnv (.cmd_get_inspection "insp-0001") sampleInspDB).result
      = .ok (.inspection sampleInspection) ∧
    ∃ i1 : Inspection,
      (fallbackInvoke sampleEnv (.cmd_get_inspection "insp-0001")
        (fallbackInvoke sampleEnv
          (.cmd_save_response "insp-0001" 1 (.bool true) "" none) sampleInspDB).db).result
        = .ok (.inspection i1) ∧ i1.status = "in_progress" := by
  refine ⟨by decide, ?_⟩
  obtain ⟨i1, _, h1, _, hd, _⟩ := save_response_status sampleEnv sampleEnv sampleEnv sampleInspDB
    "insp-0001" 1 1 (.bool true) (.bool true) "" "" none none sampleInspection (by decide)
  exact ⟨i1, h1, hd rfl⟩

/-! ### Integer-keyed objects -/

theorem NumObj.mem_set_self {α : Type} (k : Nat) (v : α) (r : NumObj α) :
    (k, v) ∈ NumObj.set k v r := by
  induction r with
  | nil => simp [NumObj.set]
  | cons e rest ih =>
    obtain ⟨k', v'⟩ := e
    unfold NumObj.set
    split
    · simp
    · split
      · simp
      · exact List.mem_cons_of_mem _ ih

theorem NumObj.mem_set {α : Type} (k : Nat) (v : α) (r : NumObj α) (e : Nat × α)
    (h : e ∈ NumObj.set k v r) : e = (k, v) ∨ e ∈ r := by
  induction r with
  | nil => simpa [NumObj.set] using h
  | cons e0 rest ih =>
    obtain ⟨k', v'⟩ := e0
    unfold NumObj.set at h
    split at h
    · rcases List.mem_cons.1 h with h | h
      · exact Or.inl h
      · exact Or.inr (List.mem_cons_of_mem _ h)
    · split at h
      · rcases List.mem_cons.1 h with h | h
        · exact Or.inl h
        · exact Or.inr h
      · rcases List.mem_cons.1 h with h | h
        · exact Or.inr (h ▸ List.mem_cons_self _ _)
        · rcases ih h with h | h
          · exact Or.inl h
          · exact Or.inr (List.mem_cons_of_mem _ h)

theorem NumObj.mem_set_of_ne {α : Type} (k : Nat) (v : α) (r : NumObj α) (e : Nat × α)
    (h : e ∈ r) (hne : e.1 ≠ k) : e ∈ NumObj.set k v r := by
  induction r with
  | nil => simp at h
  | cons e0 rest ih =>
    obtain ⟨k', v'⟩ := e0
    unfold NumObj.set
    split
    · rename_i hk
      rcases List.mem_cons.1 h with h | h
      · subst h
        exact absurd hk.symm hne
      · exact List.mem_cons_of_mem _ h
    · split
      · exact List.mem_cons_of_mem _ h
      · rcases List.mem_cons.1 h with h | h
        · exact h ▸ List.mem_cons_self _ _
        · exact List.mem_cons_of_mem _ (ih h)

theorem NumObj.keys_set_sorted {α : Type} (k : Nat) (v : α) (r : NumObj α)
    (h : (r.map Prod.fst).Sorted (fun a b => a < b)) :
    ((NumObj.set k v r).map Prod.fst).Sorted (fun a b => a < b) := by
  induction r with
  | nil => simp [NumObj.set]
  | cons e0 rest ih =>
    obtain ⟨k', v'⟩ := e0
    simp only [List.map_cons, List.sorted_cons] at h
    unfold NumObj.set
    split
    · rename_i hk
      subst hk
      simpa using h
    · split
      · rename_i hlt
        simp only [List.map_cons, List.sorted_cons, List.mem_cons, forall_eq_or_imp]
        exact ⟨⟨hlt, fun b hb => lt_trans hlt (h.1 b hb)⟩, h.1, h.2⟩
      · rename_i hne hnlt
        simp only [List.map_cons, List.sorted_cons]
        refine ⟨?_, ih h.2⟩
        intro b hb
        obtain ⟨e, he, rfl⟩ := List.mem_map.1 hb
        rcases NumObj.mem_set k v rest e he with rfl | hmem
        · simp only
          omega
        · exact h.1 e.1 (List.mem_map_of_mem _ hmem)

theorem NumObj.length_set_of_mem {α : Type} (k : Nat) (v : α) (r : NumObj α)
    (h : (r.map Prod.fst).Sorted (fun a b => a < b)) (hk : k ∈ r.map Prod.fst) :
    (NumObj.set k v r).length = r.length := by
  induction r with
  | nil => simp at hk
  | cons e0 rest ih =>
    obtain ⟨k', v'⟩ := e0
    simp only [List.map_cons, List.sorted_cons] at h
    simp only [List.map_cons, List.mem_cons] at hk
    unfold NumObj.set
    split
    · simp
    · split
      · rename_i hne hlt
        rcases hk with hk | hk
        · exact absurd hk hne
        · have := h.1 k hk
          omega
      · rename_i hne hnlt
        rcases hk with hk | hk
        · exact absurd hk hne
        · simp [ih h.2 hk]

theorem NumObj.eq_of_mem_of_sorted {α : Type} (r : NumObj α)
    (h : (r.map Prod.fst).Sorted (fun a b => a < b)) (e1 e2 : Nat × α) (h1 : e1 ∈ r)
    (h2 : e2 ∈ r) (hk : e1.1 = e2.1) : e1 = e2 := by
  induction r with
  | nil => simp at h1
  | cons e0 rest ih =>
    simp only [List.map_cons, List.sorted_cons] at h
    rcases List.mem_cons.1 h1 with g1 | g1 <;> rcases List.mem_cons.1 h2 with g2 | g2
    · rw [g1, g2]
    · have := h.1 e2.1 (List.mem_map_of_mem _ g2)
      rw [g1] at hk
      omega
    · have := h.1 e1.1 (List.mem_map_of_mem _ g1)
      rw [g2] at hk
      omega
    · exact ih h.2 g1 g2


/-! ### Sequences of saves -/

theorem SaveCall.run_responses (c : SaveCall) (db : DB) :
    (c.run db).responses = db.responses.set c.inspectionId
      (NumObj.set c.criterionId (savedResponse c.env c.conforme c.observation c.session)
        ((db.responses c.inspectionId).getD [])) := by
  simp [SaveCall.run, fallbackInvoke, cmd_save_response, initDB_responses]

theorem SaveCall.run_wf (c : SaveCall) (db : DB) (h : ResponsesWF db) :
    ResponsesWF (c.run db) := by
  intro id r hr
  rw [SaveCall.run_responses] at hr
  simp only [StrMap.set] at hr
  split at hr
  · rename_i hid
    simp only [Option.some.injEq] at hr
    subst hr
    apply NumObj.keys_set_sorted
    cases hold : db.responses c.inspectionId with
    | none => simp
    | some r0 => exact h c.inspectionId r0 hold
  · exact h id r hr

theorem runSaves_wf (calls : List SaveCall) (db : DB) (h : ResponsesWF db) :
    ResponsesWF (runSaves calls db) := by
  induction calls generalizing db with
  | nil => exact h
  | cons c cs ih => exact ih (c.run db) (c.run_wf db h)

theorem runSaves_append (pre post : List SaveCall) (db : DB) :
    runSaves (pre ++ post) db = runSaves post (runSaves pre db) := by
  simp [runSaves, List.foldl_append]

theorem getResponses_eq (env : Env) (id : String) (db : DB) :
    getResponses env id db = ((db.responses id).getD []).map (responseView env) := by
  simp [getResponses, get_responses_result]

theorem runSaves_keeps_entry (later : List SaveCall) (db : DB) (id : String) (e : Nat × Response)
    (he : e ∈ (db.responses id).getD [])
    (hl : ∀ c ∈ later, ¬ (c.inspectionId = id ∧ c.criterionId = e.1)) :
    e ∈ ((runSaves later db).responses id).getD [] := by
  induction later generalizing db with
  | nil => exact he
  | cons c cs ih =>
    apply ih (c.run db)
    · rw [SaveCall.run_responses]
      simp only [StrMap.set]
      split
      · rename_i hid
        have hne : e.1 ≠ c.criterionId := by
          intro heq
          exact hl c (List.mem_cons_self _ _) ⟨hid.symm, heq.symm⟩
        simp only [Option.getD_some]
        apply NumObj.mem_set_of_ne _ _ _ _ _ hne
        rw [← hid]
        exact he
      · exact he
    · intro c2 hc2
      exact hl c2 (List.mem_cons_of_mem _ hc2)

/-- C8: at most one response exists per (inspection, criterion) pair.  Starting
from a store whose response collections list each key once (ascending, as the
entries of a JavaScript object with integer keys are), after any sequence of
`cmd_save_response` calls `cmd_get_responses` returns, for every inspection, no
two entries with the same criterion id; after a sequence in which `c` is the
most recent save for its pair, there is an entry for the criterion of `c` and
every such entry carries the `conforme` value and the observation of `c`; and a
further save for a criterion that already has an entry does not change the
number of entries. -/
theorem one_response_per_criterion (pre later : List SaveCall) (c : SaveCall) (db : DB)
    (envG : Env) (hwf : ResponsesWF db)
    (hlast : ∀ c2 ∈ later,
      ¬ (c2.inspectionId = c.inspectionId ∧ c2.criterionId = c.criterionId)) :
    (∀ (calls : List SaveCall) (id : String),
      ((getResponses envG id (runSaves calls db)).map (fun v => v.criterion_id)).Nodup) ∧
    (∃ v ∈ getResponses envG c.inspectionId (runSaves (pre ++ c :: later) db),
      v.criterion_id = c.criterionId) ∧
    (∀ v ∈ getResponses envG c.inspectionId (runSaves (pre ++ c :: later) db),
      v.criterion_id = c.criterionId →
        v.conforme = c.conforme ∧ v.observation = c.observation) ∧
    (∀ (calls : List SaveCall) (c3 : SaveCall),
      (∃ v ∈ getResponses envG c3.inspectionId (runSaves calls db),
        v.criterion_id = c3.criterionId) →
      (getResponses envG c3.inspectionId (c3.run (runSaves calls db))).length
        = (getResponses envG c3.inspectionId (runSaves calls db)).length) := by
  have hsorted : ∀ (calls : List SaveCall) (id : String),
      ((((runSaves calls db).responses id).getD []).map Prod.fst).Sorted (fun a b => a < b) := by
    intro calls id
    cases hr : (runSaves calls db).responses id with
    | none => simp
    | some r => exact runSaves_wf calls db hwf id r hr
  have hentry : (c.criterionId, savedResponse c.env c.conforme c.observation c.session) ∈
      ((runSaves (pre ++ c :: later) db).responses c.inspectionId).getD [] := by
    have : pre ++ c :: later = pre ++ ([c] ++ later) := by simp
    rw [this, runSaves_append, runSaves_append]
    apply runSaves_keeps_entry later _ c.inspectionId _ _ hlast
    simp only [runSaves, List.foldl_cons, List.foldl_nil]
    rw [SaveCall.run_responses]
    simp only [StrMap.set, if_true, Option.getD_some]
    exact NumObj.mem_set_self _ _ _
  refine ⟨?_, ?_, ?_, ?_⟩
  · intro calls id
    rw [getResponses_eq, List.map_map]
    have h := hsorted calls id
    have hn : ((((runSaves calls db).responses id).getD []).map Prod.fst).Nodup :=
      List.Pairwise.imp (fun hab => Nat.ne_of_lt hab) h
    exact hn
  · rw [getResponses_eq]
    exact ⟨_, List.mem_map_of_mem _ hentry, rfl⟩
  · intro v hv hk
    rw [getResponses_eq] at hv
    obtain ⟨e, he, rfl⟩ := List.mem_map.1 hv
    have heq := NumObj.eq_of_mem_of_sorted _ (hsorted _ c.inspectionId) e _ he hentry hk
    subst heq
    simp only [responseView, savedResponse, strTruthy, true_and]
    by_cases ho : c.observation = ""
    · simp [ho]
    · simp [ho]
  · intro calls c3 hex
    rw [getResponses_eq, getResponses_eq, List.length_map, List.length_map,
      SaveCall.run_responses]
    simp only [StrMap.set, if_true, Option.getD_some]
    apply NumObj.length_set_of_mem _ _ _ (hsorted calls c3.inspectionId)
    obtain ⟨v, hv, hk⟩ := hex
    rw [getResponses_eq] at hv
    obtain ⟨e, he, rfl⟩ := List.mem_map.1 hv
    exact hk ▸ List.mem_map_of_mem Prod.fst he


theorem sampleInspDB_wf : ResponsesWF sampleInspDB := by
  intro id r hr
  simp only [sampleInspDB, StrMap.set, StrMap.empty] at hr
  split at hr
  · simp only [Option.some.injEq] at hr
    subst hr
    simp
  · simp at hr

/-- C8 on the sample store: criterion 1 is saved twice, then criterion 2; the
entry of criterion 1 carries the second save. -/
theorem one_response_per_criterion_witness :
    ResponsesWF sampleInspDB ∧
    (∀ c2 ∈ [sampleSave 2 (.bool true) "x"],
      ¬ (c2.inspectionId = (sampleSave 1 (.bool false) "Updated").inspectionId ∧
         c2.criterionId = (sampleSave 1 (.bool false) "Updated").criterionId)) ∧
    (∀ v ∈ getResponses sampleEnv "insp-0001"
        (runSaves ([sampleSave 1 (.bool true) "First"] ++
          sampleSave 1 (.bool false) "Updated" :: [sampleSave 2 (.bool true) "x"]) sampleInspDB),
      v.criterion_id = 1 → v.conforme = .bool false ∧ v.observation = "Updated") :=
  ⟨sampleInspDB_wf, by simp [sampleSave],
    (one_response_per_criterion [sampleSave 1 (.bool true) "First"]
      [sampleSave 2 (.bool true) "x"] (sampleSave 1 (.bool false) "Updated") sampleInspDB
      sampleEnv sampleInspDB_wf (by simp [sampleSave])).2.2.1⟩

/-! ## Inspection lifecycle -/

/-- C9, as stated, fails for an actor whose display name is empty.  The user
`bob` is created through `cmd_create_user` with an empty `full_name` and logs
in; the inspection that `cmd_create_inspection` then stores for that session has
creator name `null`, not the (empty) name of the actor. -/
theorem create_inspection_empty_name_is_null :
    (fallbackInvoke sampleEnv2 (.cmd_login "bob" "pw") bobDB).result
      = .ok (.session bobSession) ∧
    bobSession.user.full_name = "" ∧
    (fallbackInvoke sampleEnv3 (.cmd_create_inspection sampleReq (some bobSession))
      (fallbackInvoke sampleEnv2 (.cmd_login "bob" "pw") bobDB).db).result
      = .ok (.id "uuid-0004") ∧
    ∀ i ∈ (fallbackInvoke sampleEnv3 (.cmd_create_inspection sampleReq (some bobSession))
        (fallbackInvoke sampleEnv2 (.cmd_login "bob" "pw") bobDB).db).db.inspections,
      i.id = "uuid-0004" →
        i.created_by_name = none ∧ i.created_by_name ≠ some bobSession.user.full_name := by
  decide

/-- C9, amended: `cmd_create_inspection` returns an identifier (the one drawn
from the random source) and appends to the stored inspections, which are
otherwise unchanged, one inspection with that id whose status is `draft`, whose
grid id, establishment, date, type and inspector list are those of the request,
whose creator id and creator name are the id and the full name of the actor
when these are non-empty strings and `null` when no actor is supplied or the
field is empty, whose validator fields are `null`, whose progress snapshot is
all zero, and whose response collection is empty. -/
theorem create_inspection_spec (env envG : Env) (db : DB) (req : CreateInspectionReq)
    (session : Option Session) :
    ∃ insp : Inspection,
      (fallbackInvoke env (.cmd_create_inspection req session) db).result = .ok (.id insp.id) ∧
      (fallbackInvoke env (.cmd_create_inspection req session) db).db.inspections
        = db.inspections ++ [insp] ∧
      insp.id = env.newId ∧ insp.status = "draft" ∧ insp.grid_id = req.grid_id ∧
      insp.establishment = req.establishment ∧ insp.date_inspection = req.date_inspection ∧
      insp.inspection_type = req.inspection_type ∧ insp.inspectors = req.inspectors ∧
      (session = none → insp.created_by = none ∧ insp.created_by_name = none) ∧
      (∀ s, session = some s →
        insp.created_by = (if s.user.id = "" then none else some s.user.id) ∧
        insp.created_by_name
          = (if s.user.full_name = "" then none else some s.user.full_name)) ∧
      insp.validated_by = .null ∧ insp.validated_by_name = .null ∧ insp.validated_at = .null ∧
      insp.progress = { total := 0, answered := 0, conforme := 0, non_conforme := 0 } ∧
      (fallbackInvoke env (.cmd_create_inspection req session) db).db.responses insp.id
        = some [] ∧
      getResponses envG insp.id (fallbackInvoke env (.cmd_create_inspection req session) db).db
        = [] := by
  refine ⟨newInspection env req session, rfl, ?_, rfl, rfl, rfl, rfl, rfl, rfl, rfl, ?_, ?_,
    rfl, rfl, rfl, rfl, ?_, ?_⟩
  · simp [fallbackInvoke, cmd_create_inspection, addAuditLog, initDB_inspections]
  · intro h
    subst h
    exact ⟨rfl, rfl⟩
  · intro s h
    subst h
    simp only [newInspection, sessionUserId, sessionFullName, Option.map_some', orNull,
      strTruthy]
    constructor
    · by_cases hid : s.user.id = "" <;> simp [hid]
    · by_cases hn : s.user.full_name = "" <;> simp [hn]
  · simp [fallbackInvoke, cmd_create_inspection, addAuditLog, StrMap.set]
  · rw [getResponses_eq]
    simp [fallbackInvoke, cmd_create_inspection, addAuditLog, StrMap.set]

/-- C9, amended, without an actor: creator id and name are `null`. -/
theorem create_inspection_spec_witness :
    ∃ insp : Inspection,
      (fallbackInvoke sampleEnv (.cmd_create_inspection sampleReq none) sampleDB).db.inspections
        = sampleDB.inspections ++ [insp] ∧
      insp.created_by = none ∧ insp.created_by_name = none := by
  obtain ⟨insp, _, h2, _, _, _, _, _, _, _, h10, _⟩ :=
    create_inspection_spec sampleEnv sampleEnv sampleDB sampleReq none
  exact ⟨insp, h2, h10 rfl⟩


theorem localeCompare_le_zero (a b : String) : localeCompare a b ≤ 0 ↔ a ≤ b := by
  unfold localeCompare
  by_cases h1 : a < b
  · simp [h1, le_of_lt h1]
  · by_cases h2 : a = b
    · simp [h2]
    · simp only [h1, h2, if_false]
      constructor
      · intro h
        omega
      · intro h
        exact absurd (lt_of_le_of_ne h h2) h1

theorem creator_test_iff (myOnly : Bool) (session : Option Session) (cb : Option String) :
    (myOnly && (ofNullable cb != ofOptional (sessionUserId session))) = false ↔
      (myOnly = true → ∃ s, session = some s ∧ cb = some s.user.id) := by
  cases myOnly
  · simp
  · cases session with
    | none => cases cb <;> simp [ofNullable, ofOptional, sessionUserId]
    | some s => cases cb <;> simp [ofNullable, ofOptional, sessionUserId]

theorem status_test_iff (status : Option String) (cur : String) :
    (match status with
      | some s => strTruthy s && cur != s
      | none => false) = false ↔
      (∀ st, status = some st → st ≠ "" → cur = st) := by
  cases status with
  | none => simp
  | some s =>
    by_cases hs : s = ""
    · simp [strTruthy, hs]
    · simp [strTruthy, hs]

theorem listKeeps_iff (myOnly : Bool) (status : Option String) (session : Option Session)
    (i : Inspection) :
    listKeeps myOnly status session i = true ↔
      (myOnly = true → ∃ s, session = some s ∧ i.created_by = some s.user.id) ∧
      (∀ st, status = some st → st ≠ "" → i.status = st) := by
  rw [← creator_test_iff, ← status_test_iff]
  unfold listKeeps
  cases h1 : (myOnly && (ofNullable i.created_by != ofOptional (sessionUserId session)))
  · cases h2 : (match status with
      | some s => strTruthy s && i.status != s
      | none => false)
    · simp
    · simp
  · simp

/-- C10: `cmd_list_inspections` never fails and returns exactly the stored
inspections that pass both filters, each as often as it is stored: with
`myOnly` set, those whose creator id is the id of the actor (none when the
actor is absent); with a status given (a non-empty string), those whose status
is exactly that string.  The result is ordered by `updated_at` descending: each
element has an `updated_at` at least that of every later element, in the
lexicographic order of strings. -/
theorem list_inspections_spec (env : Env) (db : DB) (myOnly : Bool) (status : Option String)
    (session : Option Session) :
    (fallbackInvoke env (.cmd_list_inspections myOnly status session) db).result
      = .ok (.inspections (listInspections env myOnly status session db)) ∧
    (listInspections env myOnly status session db).Perm
      (db.inspections.filter (listKeeps myOnly status session)) ∧
    (∀ i, i ∈ listInspections env myOnly status session db ↔
      i ∈ db.inspections ∧
      (myOnly = true → ∃ s, session = some s ∧ i.created_by = some s.user.id) ∧
      (∀ st, status = some st → st ≠ "" → i.status = st)) ∧
    (myOnly = true → session = none → listInspections env myOnly status session db = []) ∧
    (listInspections env myOnly status session db).Pairwise
      (fun a b => b.updated_at ≤ a.updated_at) ∧
    (∀ k (h : k + 1 < (listInspections env myOnly status session db).length),
      ((listInspections env myOnly status session db).get ⟨k + 1, h⟩).updated_at ≤
        ((listInspections env myOnly status session db).get ⟨k, by omega⟩).updated_at) := by
  have hl : listInspections env myOnly status session db
      = jsSort (fun a b => localeCompare b.updated_at a.updated_at)
          (db.inspections.filter (listKeeps myOnly status session)) := by
    simp [listInspections, fallbackInvoke, cmd_list_inspections, initDB_inspections]
  have hperm : (listInspections env myOnly status session db).Perm
      (db.inspections.filter (listKeeps myOnly status session)) := by
    rw [hl]
    exact List.perm_insertionSort _ _
  have hmem : ∀ i, i ∈ listInspections env myOnly status session db ↔
      i ∈ db.inspections ∧
      (myOnly = true → ∃ s, session = some s ∧ i.created_by = some s.user.id) ∧
      (∀ st, status = some st → st ≠ "" → i.status = st) := by
    intro i
    rw [hperm.mem_iff, List.mem_filter, listKeeps_iff]
  have hsorted : (listInspections env myOnly status session db).Pairwise
      (fun a b => b.updated_at ≤ a.updated_at) := by
    rw [hl]
    haveI : IsTotal Inspection (fun a b => localeCompare b.updated_at a.updated_at ≤ 0) :=
      ⟨fun a b => by
        simp only [localeCompare_le_zero]
        exact (le_total b.updated_at a.updated_at)⟩
    haveI : IsTrans Inspection (fun a b => localeCompare b.updated_at a.updated_at ≤ 0) :=
      ⟨fun a b c hab hbc => by
        simp only [localeCompare_le_zero] at hab hbc ⊢
        exact le_trans hbc hab⟩
    have hs := List.sorted_insertionSort
      (fun a b : Inspection => localeCompare b.updated_at a.updated_at ≤ 0)
      (db.inspections.filter (listKeeps myOnly status session))
    exact List.Pairwise.imp (fun h => (localeCompare_le_zero _ _).1 h) hs
  refine ⟨?_, hperm, hmem, ?_, hsorted, ?_⟩
  · simp [listInspections, fallbackInvoke, cmd_list_inspections]
  · intro hm hs
    apply List.eq_nil_iff_forall_not_mem.2
    intro i hi
    obtain ⟨s, hs2, -⟩ := ((hmem i).1 hi).2.1 hm
    rw [hs] at hs2
    exact absurd hs2 (by simp)
  · intro k h
    exact List.pairwise_iff_get.1 hsorted ⟨k, by omega⟩ ⟨k + 1, h⟩ (by simp [Fin.lt_def])

/-- C10 on a store with two inspections: without an actor the list of own
inspections is empty. -/
theorem list_inspections_spec_witness :
    listInspections sampleEnv true none none
      { sampleDB with inspections := [sampleInspection, sampleInspection2] } = [] :=
  (list_inspections_spec sampleEnv
    { sampleDB with inspections := [sampleInspection, sampleInspection2] } true none none).2.2.2.1
    rfl rfl


/-! ### Status changes -/

theorem set_status_inspection (env : Env) (db : DB) (id status : String)
    (session : Option Session) :
    jsFind (fun i => i.id == id)
      (fallbackInvoke env (.cmd_set_inspection_status id status session) db).db.inspections
    = (jsFind (fun i => i.id == id) db.inspections).map (fun insp =>
        if status == "validated" then
          { insp with status := status, updated_at := env.now1,
                      validated_by := ofOptional (sessionUserId session),
                      validated_by_name := ofOptional (sessionFullName session),
                      validated_at := .str env.now2 }
        else { insp with status := status, updated_at := env.now1 }) := by
  simp only [fallbackInvoke, cmd_set_inspection_status, addAuditLog, initDB_inspections]
  apply jsFind_updateFirst
  intro x
  split <;> rfl

/-- C11: `cmd_set_inspection_status` enforces no transition graph and always
logs.  For every existing inspection, whatever its current status and whatever
the new status, the status of the inspection afterwards is the new status; and
for every inspection id, stored or not, the command returns `null` and prepends
exactly one audit entry, whose action code is `SET_STATUS_` followed by the
new status uppercased by `toUpperCase`, whose entity type is `inspection` and
whose entity id is the given id. -/
theorem set_status_overwrites_and_logs (env envG : Env) (db : DB) (id status : String)
    (session : Option Session) :
    (∀ i0 : Inspection,
      (fallbackInvoke envG (.cmd_get_inspection id) db).result = .ok (.inspection i0) →
      ∃ i1 : Inspection,
        (fallbackInvoke envG (.cmd_get_inspection id)
          (fallbackInvoke env (.cmd_set_inspection_status id status session) db).db).result
          = .ok (.inspection i1) ∧ i1.status = status) ∧
    (fallbackInvoke env (.cmd_set_inspection_status id status session) db).result = .ok .null ∧
    ∃ e : AuditEntry,
      (fallbackInvoke env (.cmd_set_inspection_status id status session) db).db.audit
        = e :: db.audit ∧
      e.action = "SET_STATUS_" ++ env.toUpperCase status ∧ e.entity_type = "inspection" ∧
      e.entity_id = id ∧ e.id = db.audit.length + 1 := by
  refine ⟨?_, rfl, ?_⟩
  · intro i0 h0
    have hf0 := get_inspection_inv envG db id i0 h0
    have hf1 := set_status_inspection env db id status session
    rw [hf0, Option.map_some'] at hf1
    refine ⟨_, get_inspection_result envG _ id _ hf1, ?_⟩
    split <;> rfl
  · simp only [fallbackInvoke, cmd_set_inspection_status, addAuditLog, initDB_audit]
    exact ⟨_, rfl, rfl, rfl, rfl, rfl⟩

/-- C11 on the sample store: the draft inspection is archived directly. -/
theorem set_status_overwrites_and_logs_witness :
    (fallbackInvoke sampleEnv (.cmd_get_inspection "insp-0001") sampleInspDB).result
      = .ok (.inspection sampleInspection) ∧
    ∃ i1 : Inspection,
      (fallbackInvoke sampleEnv (.cmd_get_inspection "insp-0001")
        (fallbackInvoke sampleEnv
          (.cmd_set_inspection_status "insp-0001" "archived" none) sampleInspDB).db).result
        = .ok (.inspection i1) ∧ i1.status = "archived" :=
  ⟨by decide,
    (set_status_overwrites_and_logs sampleEnv sampleEnv sampleInspDB "insp-0001" "archived"
      none).1 sampleInspection (by decide)⟩

/-- C12: on an existing inspection, `cmd_set_inspection_status` with the new
status `validated` sets the validator id and the validator name to the id and
the full name of the actor (to `undefined` when no actor is supplied) and sets
the validation timestamp to the time of the call; with any other new status, in
particular `archived`, the validator id, the validator name and the validation
timestamp stay exactly as they were. -/
theorem set_status_validator (env envG : Env) (db : DB) (id status : String)
    (session : Option Session) (i0 : Inspection)
    (h0 : (fallbackInvoke envG (.cmd_get_inspection id) db).result = .ok (.inspection i0)) :
    ∃ i1 : Inspection,
      (fallbackInvoke envG (.cmd_get_inspection id)
        (fallbackInvoke env (.cmd_set_inspection_status id status session) db).db).result
        = .ok (.inspection i1) ∧
      (status = "validated" →
        (∀ s : Session, session = some s →
          i1.validated_by = .str s.user.id ∧ i1.validated_by_name = .str s.user.full_name) ∧
        (session = none →
          i1.validated_by = .undefined ∧ i1.validated_by_name = .undefined) ∧
        i1.validated_at = .str env.now2) ∧
      (status ≠ "validated" →
        i1.validated_by = i0.validated_by ∧ i1.validated_by_name = i0.validated_by_name ∧
        i1.validated_at = i0.validated_at) := by
  have hf0 := get_inspection_inv envG db id i0 h0
  have hf1 := set_status_inspection env db id status session
  rw [hf0, Option.map_some'] at hf1
  refine ⟨_, get_inspection_result envG _ id _ hf1, ?_, ?_⟩
  · intro hv
    subst hv
    refine ⟨?_, ?_, ?_⟩
    · intro s hs
      subst hs
      exact ⟨rfl, rfl⟩
    · intro hs
      subst hs
      exact ⟨rfl, rfl⟩
    · rfl
  · intro hv
    simp [hv]

/-- C12 on a validated inspection: archiving it keeps the validator. -/
theorem set_status_validator_witness :
    (fallbackInvoke sampleEnv (.cmd_get_inspection "insp-0001") validatedDB).result
      = .ok (.inspection validatedInspection) ∧
    ∃ i1 : Inspection,
      (fallbackInvoke sampleEnv2 (.cmd_get_inspection "insp-0001")
        (fallbackInvoke sampleEnv2
          (.cmd_set_inspection_status "insp-0001" "archived" none) validatedDB).db).result
        = .ok (.inspection i1) ∧
      i1.validated_by = .str "uuid-0001" ∧ i1.validated_by_name = .str "Alice Martin" ∧
      i1.validated_at = .str "2024-01-15 08:00:02" := by
  refine ⟨by decide, ?_⟩
  obtain ⟨i1, h1, -, h3⟩ := set_status_validator sampleEnv2 sampleEnv2 validatedDB "insp-0001"
    "archived" none validatedInspection (by decide)
  exact ⟨i1, h1, h3 (by decide)⟩

/-! ### Deletion -/

/-- C13: after `cmd_delete_inspection` the store holds no inspection with the
given id and no response collection for it (`cmd_get_inspection` returns
`undefined`, `cmd_get_responses` returns the empty array), while the inspections
with another id are all kept, unchanged and in order, and the response
collection of every other id is unchanged. -/
theorem delete_inspection_spec (env envG : Env) (db : DB) (id : String) :
    (fallbackInvoke env (.cmd_delete_inspection id) db).result = .ok .null ∧
    (∀ i ∈ (fallbackInvoke env (.cmd_delete_inspection id) db).db.inspections, i.id ≠ id) ∧
    (fallbackInvoke env (.cmd_delete_inspection id) db).db.responses id = none ∧
    (fallbackInvoke envG (.cmd_get_inspection id)
      (fallbackInvoke env (.cmd_delete_inspection id) db).db).result = .ok .undefined ∧
    getResponses envG id (fallbackInvoke env (.cmd_delete_inspection id) db).db = [] ∧
    (fallbackInvoke env (.cmd_delete_inspection id) db).db.inspections
      = db.inspections.filter (fun i => i.id != id) ∧
    (∀ i, i.id ≠ id →
      (i ∈ (fallbackInvoke env (.cmd_delete_inspection id) db).db.inspections ↔
        i ∈ db.inspections)) ∧
    (∀ id2, id2 ≠ id →
      (fallbackInvoke env (.cmd_delete_inspection id) db).db.responses id2
        = db.responses id2) := by
  have hins : (fallbackInvoke env (.cmd_delete_inspection id) db).db.inspections
      = db.inspections.filter (fun i => i.id != id) := by
    simp [fallbackInvoke, cmd_delete_inspection, initDB_inspections]
  have hresp : (fallbackInvoke env (.cmd_delete_inspection id) db).db.responses
      = db.responses.delete id := by
    simp [fallbackInvoke, cmd_delete_inspection, initDB_responses]
  refine ⟨rfl, ?_, ?_, ?_, ?_, hins, ?_, ?_⟩
  · intro i hi
    rw [hins] at hi
    simpa using (List.mem_filter.1 hi).2
  · simp [hresp, StrMap.delete]
  · have hnone : jsFind (fun i => i.id == id)
        (fallbackInvoke env (.cmd_delete_inspection id) db).db.inspections = none := by
      rw [hins]
      simp [jsFind, List.find?_eq_none]
    simp only [fallbackInvoke, cmd_get_inspection, initDB_inspections] at hnone ⊢
    rw [hnone]
  · rw [getResponses_eq, hresp]
    simp [StrMap.delete]
  · intro i hne
    rw [hins, List.mem_filter]
    simp [hne]
  · intro id2 hne
    simp [hresp, StrMap.delete, hne]

/-- C13 on the sample store: another id keeps its (absent) collection and the
sample inspection is gone. -/
theorem delete_inspection_spec_witness :
    (fallbackInvoke sampleEnv (.cmd_delete_inspection "insp-0001") sampleInspDB).db.responses
      "insp-0002" = sampleInspDB.responses "insp-0002" :=
  (delete_inspection_spec sampleEnv sampleEnv sampleInspDB "insp-0001").2.2.2.2.2.2.2
    "insp-0002" (by decide)

/-- C14: the bare `cmd_delete_inspection` appends no audit entry.  On every
seeded store (a store that holds a user) the audit log, the users and the
session mapping are the same before and after the command. -/
theorem delete_inspection_no_audit (env : Env) (db : DB) (id : String)
    (hseeded : db.users ≠ []) :
    (fallbackInvoke env (.cmd_delete_inspection id) db).db.audit = db.audit ∧
    (fallbackInvoke env (.cmd_delete_inspection id) db).db.users = db.users ∧
    (fallbackInvoke env (.cmd_delete_inspection id) db).db.sessions = db.sessions := by
  simp [fallbackInvoke, cmd_delete_inspection, initDB_of_users_ne_nil env db hseeded]

/-- C14 on the sample store. -/
theorem delete_inspection_no_audit_witness :
    sampleInspDB.users ≠ [] ∧
    (fallbackInvoke sampleEnv (.cmd_delete_inspection "insp-0001") sampleInspDB).db.audit
      = sampleInspDB.audit :=
  ⟨by decide, (delete_inspection_no_audit sampleEnv sampleInspDB "insp-0001" (by decide)).1⟩


/-! ## Audit log -/

theorem audit_step (env : Env) (cmd : Cmd) (db : DB) :
    (fallbackInvoke env cmd db).db.audit = db.audit ∨
    ∃ e : AuditEntry, (fallbackInvoke env cmd db).db.audit = e :: db.audit ∧
      e.id = db.audit.length + 1 := by
  cases cmd with
  | list_grids => exact Or.inl (by simp [fallbackInvoke, list_grids, initDB_audit])
  | get_grid gridId =>
    left
    simp only [fallbackInvoke, get_grid]
    split <;> exact initDB_audit env db
  | cmd_login username password =>
    simp only [fallbackInvoke, cmd_login]
    split
    · exact Or.inl (initDB_audit env db)
    · right
      simp only [addAuditLog, initDB_audit]
      exact ⟨_, rfl, rfl⟩
  | cmd_logout token => exact Or.inl (by simp [fallbackInvoke, cmd_logout, initDB_audit])
  | cmd_validate_session token =>
    left
    simp only [fallbackInvoke, cmd_validate_session]
    split
    · exact initDB_audit env db
    · split
      · exact initDB_audit env db
      · split
        · exact initDB_audit env db
        · split <;> exact initDB_audit env db
  | cmd_list_users => exact Or.inl (by simp [fallbackInvoke, cmd_list_users, initDB_audit])
  | cmd_create_user req =>
    right
    simp only [fallbackInvoke, cmd_create_user, addAuditLog, initDB_audit]
    exact ⟨_, rfl, rfl⟩
  | cmd_update_user userId req =>
    exact Or.inl (by simp [fallbackInvoke, cmd_update_user, initDB_audit])
  | cmd_change_password userId newPassword =>
    exact Or.inl (by simp [fallbackInvoke, cmd_change_password, initDB_audit])
  | cmd_delete_user userId =>
    exact Or.inl (by simp [fallbackInvoke, cmd_delete_user, initDB_audit])
  | cmd_create_inspection req session =>
    right
    simp only [fallbackInvoke, cmd_create_inspection, addAuditLog, initDB_audit]
    exact ⟨_, rfl, rfl⟩
  | cmd_list_inspections myOnly status session =>
    exact Or.inl (by simp [fallbackInvoke, cmd_list_inspections, initDB_audit])
  | cmd_get_inspection inspectionId =>
    left
    simp only [fallbackInvoke, cmd_get_inspection]
    split <;> exact initDB_audit env db
  | cmd_get_responses inspectionId =>
    exact Or.inl (by simp [fallbackInvoke, cmd_get_responses, initDB_audit])
  | cmd_save_response inspectionId criterionId conforme observation session =>
    exact Or.inl (by simp [fallbackInvoke, cmd_save_response, initDB_audit])
  | cmd_set_inspection_status inspectionId status session =>
    right
    simp only [fallbackInvoke, cmd_set_inspection_status, addAuditLog, initDB_audit]
    exact ⟨_, rfl, rfl⟩
  | cmd_delete_inspection inspectionId =>
    exact Or.inl (by simp [fallbackInvoke, cmd_delete_inspection, initDB_audit])
  | cmd_query_audit filter =>
    exact Or.inl (by simp [fallbackInvoke, cmd_query_audit, initDB_audit])
  | cmd_count_audit => exact Or.inl (by simp [fallbackInvoke, initDB_audit])
  | unknown name => exact Or.inl (by simp [fallbackInvoke, initDB_audit])

theorem auditNumbered_cons (audit : List AuditEntry) (e : AuditEntry)
    (h : AuditNumbered audit) (he : e.id = audit.length + 1) : AuditNumbered (e :: audit) := by
  intro i hi
  cases i with
  | zero => simpa using he
  | succ j =>
    simp only [List.length_cons] at hi
    have := h j (by omega)
    simp only [List.get_eq_getElem, List.getElem_cons_succ, List.length_cons] at this ⊢
    omega

theorem runCalls_auditNumbered (calls : List Call) (db : DB) (h : AuditNumbered db.audit) :
    AuditNumbered (runCalls calls db).audit := by
  induction calls generalizing db with
  | nil => exact h
  | cons c cs ih =>
    apply ih (c.run db)
    rcases audit_step c.env c.cmd db with heq | ⟨e, heq, hid⟩
    · simp only [Call.run]
      rw [heq]
      exact h
    · simp only [Call.run]
      rw [heq]
      exact auditNumbered_cons db.audit e h hid

theorem runCalls_audit_suffix (calls : List Call) (db : DB) :
    db.audit <:+ (runCalls calls db).audit := by
  induction calls generalizing db with
  | nil => exact List.suffix_refl _
  | cons c cs ih =>
    refine List.IsSuffix.trans ?_ (ih (c.run db))
    rcases audit_step c.env c.cmd db with heq | ⟨e, heq, -⟩
    · simp only [Call.run]
      rw [heq]
    · simp only [Call.run]
      rw [heq]
      exact List.suffix_cons e db.audit

/-- C20: audit log ordering invariant.  In every store reached from a store with
an empty audit log by a sequence of dispatcher commands, the entry at position
`i` of the audit log (the head is position 0) has sequence id `length - i`, so
the ids decrease strictly from the head (newest first, no id used twice); the
log of every intermediate store is a suffix of the log of every later store;
and a single command, on any store, either leaves the log as it is or puts
exactly one entry in front of it, with the next sequence id. -/
theorem audit_log_numbered (calls later : List Call) (db : DB) (hempty : db.audit = []) :
    AuditNumbered (runCalls calls db).audit ∧
    ((runCalls calls db).audit.map (fun e => e.id)).Pairwise (fun a b => b < a) ∧
    (runCalls calls db).audit <:+ (runCalls (calls ++ later) db).audit ∧
    (∀ (env : Env) (cmd : Cmd) (db2 : DB),
      (fallbackInvoke env cmd db2).db.audit = db2.audit ∨
      ∃ e : AuditEntry, (fallbackInvoke env cmd db2).db.audit = e :: db2.audit ∧
        e.id = db2.audit.length + 1) := by
  have hnum : AuditNumbered (runCalls calls db).audit := by
    apply runCalls_auditNumbered
    rw [hempty]
    intro i hi
    simp at hi
  refine ⟨hnum, ?_, ?_, audit_step⟩
  · rw [List.pairwise_map, List.pairwise_iff_get]
    intro i j hij
    have hi := hnum i.1 i.2
    have hj := hnum j.1 j.2
    have hlt : i.1 < j.1 := hij
    have hjl := j.2
    rw [hi, hj]
    omega
  · have : runCalls (calls ++ later) db = runCalls later (runCalls calls db) := by
      simp [runCalls, List.foldl_append]
    rw [this]
    exact runCalls_audit_suffix later _

/-- C20 on the empty store: a login, a logout and a status change leave two
entries, numbered 2 and 1 from the head. -/
theorem audit_log_numbered_witness :
    DB.empty.audit = [] ∧
    AuditNumbered (runCalls
      [⟨sampleEnv, .cmd_login "admin" "admin123"⟩, ⟨sampleEnv, .cmd_logout "uuid-0002"⟩,
       ⟨sampleEnv, .cmd_set_inspection_status "insp-0001" "completed" none⟩] DB.empty).audit ∧
    ((runCalls
      [⟨sampleEnv, .cmd_login "admin" "admin123"⟩, ⟨sampleEnv, .cmd_logout "uuid-0002"⟩,
       ⟨sampleEnv, .cmd_set_inspection_status "insp-0001" "completed" none⟩]
      DB.empty).audit.map (fun e => e.id)) = [2, 1] :=
  ⟨rfl, (audit_log_numbered _ [] DB.empty rfl).1, by decide⟩


/-! ## Binary64 arithmetic: monotonicity -/

theorem div_le_div_of_cross (a b c d : Nat) (hb : 0 < b) (hd : 0 < d) (h : a * d ≤ c * b) :
    a / b ≤ c / d := by
  rw [Nat.le_div_iff_mul_le hd]
  have h1 : a / b * b ≤ a := Nat.div_mul_le_self a b
  have h2 : a / b * d * b ≤ c * b := by
    calc a / b * d * b = a / b * b * d := by ring
      _ ≤ a * d := Nat.mul_le_mul_right d h1
      _ ≤ c * b := h
  exact Nat.le_of_mul_le_mul_right h2 hb

theorem roundNearestEven_ge (n d : Nat) : n / d ≤ roundNearestEven n d := by
  unfold roundNearestEven
  split
  · exact le_refl _
  · split
    · exact Nat.le_succ _
    · split
      · exact le_refl _
      · exact Nat.le_succ _

theorem roundNearestEven_le (n d : Nat) : roundNearestEven n d ≤ n / d + 1 := by
  unfold roundNearestEven
  split
  · exact Nat.le_succ _
  · split
    · exact le_refl _
    · split
      · exact Nat.le_succ _
      · exact le_refl _

theorem roundNearestEven_mono (n1 d1 n2 d2 : Nat) (h1 : 0 < d1) (h2 : 0 < d2)
    (h : n1 * d2 ≤ n2 * d1) : roundNearestEven n1 d1 ≤ roundNearestEven n2 d2 := by
  have hq : n1 / d1 ≤ n2 / d2 := div_le_div_of_cross n1 d1 n2 d2 h1 h2 h
  rcases Nat.lt_or_eq_of_le hq with hlt | heq
  · calc roundNearestEven n1 d1 ≤ n1 / d1 + 1 := roundNearestEven_le n1 d1
      _ ≤ n2 / d2 := hlt
      _ ≤ roundNearestEven n2 d2 := roundNearestEven_ge n2 d2
  · have e1 : d1 * (n1 / d1) + n1 % d1 = n1 := Nat.div_add_mod n1 d1
    have e2 : d2 * (n2 / d2) + n2 % d2 = n2 := Nat.div_add_mod n2 d2
    have hr : n1 % d1 * d2 ≤ n2 % d2 * d1 := by
      have : (d1 * (n1 / d1) + n1 % d1) * d2 ≤ (d2 * (n2 / d2) + n2 % d2) * d1 := by
        rw [e1, e2]
        exact h
      rw [heq] at this
      nlinarith
    unfold roundNearestEven
    rw [heq]
    by_cases ha : 2 * (n1 % d1) < d1
    · simp only [ha, if_true]
      exact roundNearestEven_ge n2 d2
    · simp only [ha, if_false]
      by_cases hb : d1 < 2 * (n1 % d1)
      · have hb2 : d2 < 2 * (n2 % d2) := by
          by_contra hc
          have hc2 : 2 * (n2 % d2) ≤ d2 := Nat.le_of_not_lt hc
          nlinarith
        have hb3 : ¬ 2 * (n2 % d2) < d2 := by omega
        simp [hb, hb2, hb3]
      · have heq1 : 2 * (n1 % d1) = d1 := by omega
        simp only [hb, if_false]
        have hge : d2 ≤ 2 * (n2 % d2) := by
          by_contra hc
          have hc2 : 2 * (n2 % d2) < d2 := Nat.lt_of_not_le hc
          nlinarith
        have hb3 : ¬ 2 * (n2 % d2) < d2 := by omega
        simp only [hb3, if_false]
        by_cases hb2 : d2 < 2 * (n2 % d2)
        · simp only [hb2, if_true]
          split <;> omega
        · simp only [hb2, if_false]
          exact le_refl _

theorem roundNearestEven_exact (m d : Nat) (hd : 0 < d) : roundNearestEven (m * d) d = m := by
  unfold roundNearestEven
  simp [Nat.mul_mod_left, Nat.mul_div_cancel _ hd, hd]

theorem roundNearestEven_lower (n d L : Nat) (hd : 0 < d) (h : L * d ≤ n) :
    L ≤ roundNearestEven n d := by
  have := roundNearestEven_mono (L * d) d n d hd hd (Nat.mul_le_mul_right d h)
  rwa [roundNearestEven_exact L d hd] at this

theorem roundNearestEven_upper (n d U : Nat) (hd : 0 < d) (h : n ≤ U * d) :
    roundNearestEven n d ≤ U := by
  have := roundNearestEven_mono n d (U * d) d hd hd (Nat.mul_le_mul_right d h)
  rwa [roundNearestEven_exact U d hd] at this

theorem scaleUp_spec (fuel n d k : Nat)
    (hex : ∃ j, k ≤ j ∧ j < k + fuel ∧ 2 ^ 52 * d ≤ n * 2 ^ j)
    (hprev : ∀ j, j < k → ¬ 2 ^ 52 * d ≤ n * 2 ^ j) :
    2 ^ 52 * d ≤ n * 2 ^ scaleUp fuel n d k ∧
    ∀ j, j < scaleUp fuel n d k → ¬ 2 ^ 52 * d ≤ n * 2 ^ j := by
  induction fuel generalizing k with
  | zero =>
    obtain ⟨j, h1, h2, -⟩ := hex
    omega
  | succ f ih =>
    unfold scaleUp
    by_cases hc : 2 ^ 52 * d ≤ n * 2 ^ k
    · rw [if_pos hc]
      exact ⟨hc, hprev⟩
    · rw [if_neg hc]
      apply ih
      · obtain ⟨j, h1, h2, h3⟩ := hex
        have hjk : j ≠ k := fun hjk => hc (hjk ▸ h3)
        exact ⟨j, by omega, by omega, h3⟩
      · intro j hj
        rcases Nat.lt_or_eq_of_le (Nat.le_of_lt_succ hj) with h | h
        · exact hprev j h
        · exact h ▸ hc

theorem le_two_pow_self (d : Nat) : d ≤ 2 ^ d := Nat.le_of_lt (Nat.lt_two_pow d)

theorem scaleUp_bounds (n d : Nat) (hn : 0 < n) (hsmall : n < 2 ^ 53 * d) :
    2 ^ 52 * d ≤ n * 2 ^ scaleUp (d + 53) n d 0 ∧
    n * 2 ^ scaleUp (d + 53) n d 0 < 2 ^ 53 * d := by
  have hex : ∃ j, 0 ≤ j ∧ j < 0 + (d + 53) ∧ 2 ^ 52 * d ≤ n * 2 ^ j := by
    refine ⟨52 + d, Nat.zero_le _, by omega, ?_⟩
    rw [Nat.pow_add]
    calc 2 ^ 52 * d ≤ 2 ^ 52 * 2 ^ d := Nat.mul_le_mul_left _ (le_two_pow_self d)
      _ = 1 * (2 ^ 52 * 2 ^ d) := (Nat.one_mul _).symm
      _ ≤ n * (2 ^ 52 * 2 ^ d) := Nat.mul_le_mul_right _ hn
  obtain ⟨h1, h2⟩ := scaleUp_spec (d + 53) n d 0 hex (fun j hj => absurd hj (Nat.not_lt_zero j))
  refine ⟨h1, ?_⟩
  cases hk : scaleUp (d + 53) n d 0 with
  | zero => simpa using hsmall
  | succ k =>
    have := h2 k (by omega)
    have hlt : n * 2 ^ k < 2 ^ 52 * d := Nat.lt_of_not_le this
    rw [Nat.pow_succ]
    have he : n * (2 ^ k * 2) = 2 * (n * 2 ^ k) := by ring
    omega

theorem toDouble_small_eq (n d : Nat) (hn : n ≠ 0) (hsmall : n < 2 ^ 53 * d) :
    toDouble n d
      = ⟨roundNearestEven (n * 2 ^ scaleUp (d + 53) n d 0) d, scaleUp (d + 53) n d 0⟩ := by
  unfold toDouble
  rw [if_neg hn, if_pos hsmall]

theorem toDouble_mantissa (n d : Nat) (hn : 0 < n) (hd : 0 < d) (hsmall : n < 2 ^ 53 * d) :
    2 ^ 52 ≤ (toDouble n d).num ∧ (toDouble n d).num ≤ 2 ^ 53 := by
  rw [toDouble_small_eq n d (Nat.pos_iff_ne_zero.1 hn) hsmall]
  obtain ⟨h1, h2⟩ := scaleUp_bounds n d hn hsmall
  exact ⟨roundNearestEven_lower _ _ _ hd h1, roundNearestEven_upper _ _ _ hd (Nat.le_of_lt h2)⟩

theorem toDouble_mono (n1 d1 n2 d2 : Nat) (hd1 : 0 < d1) (hd2 : 0 < d2)
    (h : n1 * d2 ≤ n2 * d1) (hsmall : n2 < 2 ^ 53 * d2) :
    (toDouble n1 d1).num * 2 ^ (toDouble n2 d2).exp
      ≤ (toDouble n2 d2).num * 2 ^ (toDouble n1 d1).exp := by
  by_cases hn1 : n1 = 0
  · simp [toDouble, hn1]
  have hn1p : 0 < n1 := Nat.pos_of_ne_zero hn1
  have hn2p : 0 < n2 := by
    rcases Nat.eq_zero_or_pos n2 with h0 | h0
    · subst h0
      have : 0 < n1 * d2 := Nat.mul_pos hn1p hd2
      omega
    · exact h0
  have hsmall1 : n1 < 2 ^ 53 * d1 := by
    by_contra hc
    have hc2 : 2 ^ 53 * d1 ≤ n1 := Nat.le_of_not_lt hc
    nlinarith
  obtain ⟨a1, b1⟩ := scaleUp_bounds n1 d1 hn1p hsmall1
  obtain ⟨a2, b2⟩ := scaleUp_bounds n2 d2 hn2p hsmall
  have m1u := roundNearestEven_upper _ _ _ hd1 (Nat.le_of_lt b1)
  have m2l := roundNearestEven_lower _ _ _ hd2 a2
  rw [toDouble_small_eq n1 d1 hn1 hsmall1,
    toDouble_small_eq n2 d2 (Nat.pos_iff_ne_zero.1 hn2p) hsmall]
  simp only
  generalize scaleUp (d1 + 53) n1 d1 0 = k1 at *
  generalize scaleUp (d2 + 53) n2 d2 0 = k2 at *
  rcases Nat.lt_trichotomy k1 k2 with hk | hk | hk
  · exfalso
    obtain ⟨t, rfl⟩ : ∃ t, k2 = k1 + 1 + t := ⟨k2 - (k1 + 1), by omega⟩
    have hp : 2 ^ (k1 + 1 + t) = 2 * 2 ^ k1 * 2 ^ t := by rw [Nat.pow_add, Nat.pow_succ]; ring
    rw [hp] at a2 b2
    have ht : 1 ≤ 2 ^ t := Nat.one_le_two_pow
    have hX : 2 ^ 52 * (d1 * d2) ≤ n2 * d1 * 2 ^ k1 := by
      calc 2 ^ 52 * (d1 * d2) = (2 ^ 52 * d1) * d2 := by ring
        _ ≤ (n1 * 2 ^ k1) * d2 := Nat.mul_le_mul_right _ a1
        _ = (n1 * d2) * 2 ^ k1 := by ring
        _ ≤ (n2 * d1) * 2 ^ k1 := Nat.mul_le_mul_right _ h
    have hY : (n2 * d1 * 2 ^ k1) * (2 * 2 ^ t) < 2 ^ 53 * (d1 * d2) := by
      calc (n2 * d1 * 2 ^ k1) * (2 * 2 ^ t) = (n2 * (2 * 2 ^ k1 * 2 ^ t)) * d1 := by ring
        _ < (2 ^ 53 * d2) * d1 := Nat.mul_lt_mul_of_pos_right b2 hd1
        _ = 2 ^ 53 * (d1 * d2) := by ring
    have hZ : (n2 * d1 * 2 ^ k1) * 2 ≤ (n2 * d1 * 2 ^ k1) * (2 * 2 ^ t) :=
      Nat.mul_le_mul_left _ (by omega)
    omega
  · subst hk
    exact Nat.mul_le_mul_right _
      (roundNearestEven_mono _ _ _ _ hd1 hd2 (by nlinarith [Nat.two_pow_pos k1]))
  · obtain ⟨t, rfl⟩ : ∃ t, k1 = k2 + 1 + t := ⟨k1 - (k2 + 1), by omega⟩
    have hp : 2 ^ (k2 + 1 + t) = 2 * 2 ^ k2 * 2 ^ t := by rw [Nat.pow_add, Nat.pow_succ]; ring
    rw [hp]
    have ht : 1 ≤ 2 ^ t := Nat.one_le_two_pow
    have hk2 : 0 < 2 ^ k2 := Nat.two_pow_pos k2
    calc roundNearestEven (n1 * (2 * 2 ^ k2 * 2 ^ t)) d1 * 2 ^ k2
        ≤ 2 ^ 53 * 2 ^ k2 := Nat.mul_le_mul_right _ (by rw [← hp]; exact m1u)
      _ = 2 ^ 52 * (2 * 2 ^ k2 * 1) := by norm_num; ring
      _ ≤ 2 ^ 52 * (2 * 2 ^ k2 * 2 ^ t) :=
          Nat.mul_le_mul_left _ (Nat.mul_le_mul_left _ ht)
      _ ≤ roundNearestEven (n2 * 2 ^ k2) d2 * (2 * 2 ^ k2 * 2 ^ t) :=
          Nat.mul_le_mul_right _ m2l

theorem toDouble_ratio_small (c a : Nat) (ha : 0 < a) (hle : c ≤ a) :
    (toDouble c a).num * 100 < 2 ^ 53 * 2 ^ (toDouble c a).exp := by
  by_cases hc : c = 0
  · simp [toDouble, hc]
  have hcp : 0 < c := Nat.pos_of_ne_zero hc
  have hsmall : c < 2 ^ 53 * a := by omega
  obtain ⟨h1, h2⟩ := scaleUp_bounds c a hcp hsmall
  have hm := roundNearestEven_upper _ _ _ ha (Nat.le_of_lt h2)
  rw [toDouble_small_eq c a hc hsmall]
  simp only
  generalize scaleUp (a + 53) c a 0 = k at *
  have hk : 2 ^ 52 ≤ 2 ^ k := by
    have : 2 ^ 52 * a ≤ 2 ^ k * a := by
      calc 2 ^ 52 * a ≤ c * 2 ^ k := h1
        _ ≤ a * 2 ^ k := Nat.mul_le_mul_right _ hle
        _ = 2 ^ k * a := Nat.mul_comm _ _
    exact Nat.le_of_mul_le_mul_right this ha
  calc roundNearestEven (c * 2 ^ k) a * 100 ≤ 2 ^ 53 * 100 := Nat.mul_le_mul_right _ hm
    _ < 2 ^ 53 * 2 ^ 52 := by norm_num
    _ ≤ 2 ^ 53 * 2 ^ k := Nat.mul_le_mul_left _ hk

theorem mathRound_mono (x y : Double) (h : x.num * 2 ^ y.exp ≤ y.num * 2 ^ x.exp) :
    mathRound x ≤ mathRound y := by
  unfold mathRound
  apply div_le_div_of_cross
  · exact Nat.mul_pos (by decide) (Nat.two_pow_pos _)
  · exact Nat.mul_pos (by decide) (Nat.two_pow_pos _)
  · nlinarith [h]

theorem percentOf_mono (c1 a1 c2 a2 : Nat) (ha1 : 0 < a1) (ha2 : 0 < a2)
    (h : c1 * a2 ≤ c2 * a1) (hle : c2 ≤ a2) : percentOf c1 a1 ≤ percentOf c2 a2 := by
  unfold percentOf mulDouble divDouble
  apply mathRound_mono
  have hxy := toDouble_mono c1 a1 c2 a2 ha1 ha2 h (by omega)
  apply toDouble_mono _ _ _ _ (Nat.two_pow_pos _) (Nat.two_pow_pos _)
  · nlinarith [hxy]
  · exact toDouble_ratio_small c2 a2 ha2 hle



/-! ### Binary64 arithmetic: distance to the exact quotient -/

theorem roundNearestEven_error (n d : Nat) (hd : 0 < d) :
    2 * (roundNearestEven n d * d) ≤ 2 * n + d ∧ 2 * n ≤ 2 * (roundNearestEven n d * d) + d := by
  have e1 : d * (n / d) + n % d = n := Nat.div_add_mod n d
  have hr : n % d < d := Nat.mod_lt n hd
  have hs : (n / d + 1) * d = d * (n / d) + d := by ring
  have hq : n / d * d = d * (n / d) := Nat.mul_comm _ _
  unfold roundNearestEven
  split
  · rw [hq]; omega
  · split
    · rw [hs]; omega
    · split
      · rw [hq]; omega
      · rw [hs]; omega

theorem mathRound_divDouble_exact (s n : Nat) (hn : 0 < n) (hs : s < 2 ^ 52) :
    mathRound (divDouble s n) = (2 * s + n) / (2 * n) := by
  unfold divDouble
  by_cases hs0 : s = 0
  · subst hs0
    have : n / (2 * n) = 0 := Nat.div_eq_of_lt (by omega)
    simp [toDouble, mathRound, this]
  have hsp : 0 < s := Nat.pos_of_ne_zero hs0
  have hsmall : s < 2 ^ 53 * n := by nlinarith
  obtain ⟨h1, h2⟩ := scaleUp_bounds s n hsp hsmall
  obtain ⟨e1, e2⟩ := roundNearestEven_error (s * 2 ^ scaleUp (n + 53) s n 0) n hn
  rw [toDouble_small_eq s n hs0 hsmall]
  unfold mathRound
  simp only
  generalize scaleUp (n + 53) s n 0 = k at *
  generalize roundNearestEven (s * 2 ^ k) n = m at *
  have hnk : n < 2 ^ k := by
    have : 2 ^ 52 * n < 2 ^ 52 * 2 ^ k := by
      calc 2 ^ 52 * n ≤ s * 2 ^ k := h1
        _ < 2 ^ 52 * 2 ^ k := Nat.mul_lt_mul_of_pos_right hs (Nat.two_pow_pos k)
    exact Nat.lt_of_mul_lt_mul_left this
  obtain ⟨j, rfl⟩ : ∃ j, k = j + 1 := ⟨k - 1, by
    rcases Nat.eq_zero_or_pos k with h0 | h0
    · subst h0; simp at hnk; omega
    · omega⟩
  have hE1 : (2 * s + n) / (2 * n) * (2 * n) ≤ 2 * s + n := Nat.div_mul_le_self _ _
  have hE2 : 2 * s + n < ((2 * s + n) / (2 * n) + 1) * (2 * n) :=
    (Nat.div_lt_iff_lt_mul (by omega)).1 (Nat.lt_succ_self _)
  generalize (2 * s + n) / (2 * n) = E at *
  have hp : 2 ^ (j + 1) = 2 * 2 ^ j := by rw [Nat.pow_succ]; ring
  rw [hp] at e1 e2 hnk h1 h2 ⊢
  generalize 2 ^ j = P at *
  apply Nat.div_eq_of_lt_le
  · have key : n * (4 * (E * P)) ≤ n * (2 * m + 2 * P + 1) := by nlinarith
    have := Nat.le_of_mul_le_mul_left key hn
    have e3 : E * (2 * (2 * P)) = 4 * (E * P) := by ring
    omega
  · have key : n * (2 * m + 2 * P) < n * ((E + 1) * (2 * (2 * P))) := by nlinarith
    exact Nat.lt_of_mul_lt_mul_left key

theorem two_step_upper (a c E m1 m2 X Y : Nat)
    (e1 : 2 * (m1 * a) ≤ 2 * (c * X) + a)
    (f1 : 2 * (m2 * X) ≤ 2 * (m1 * 100 * Y) + X)
    (hE2 : 200 * c + a < (E + 1) * (2 * a))
    (hB : 200 * (a * Y) + 2 * (a * X) < 2 * (X * Y)) :
    (2 * m2 + Y) * (a * X) < (E + 1) * (2 * Y) * (a * X) := by
  have U1 : 2 * (m2 * X) * a ≤ (2 * (m1 * 100 * Y) + X) * a := Nat.mul_le_mul_right a f1
  have U2 : 2 * (m1 * a) * (100 * Y) ≤ (2 * (c * X) + a) * (100 * Y) :=
    Nat.mul_le_mul_right _ e1
  have U3 : (200 * c + a + 1) * (X * Y) ≤ (E + 1) * (2 * a) * (X * Y) :=
    Nat.mul_le_mul_right _ hE2
  nlinarith [U1, U2, U3, hB]

theorem two_step_lower (a c E m1 m2 X Y s : Nat)
    (e2 : 2 * (c * X) ≤ 2 * (m1 * a) + a)
    (f2 : 2 * (m1 * 100 * Y) ≤ 2 * (m2 * X) + X)
    (hE1 : E * (2 * a) + s ≤ 200 * c + a)
    (hB : 200 * (a * Y) + 2 * (a * X) < 2 * (X * Y)) :
    E * (2 * Y) * (a * X) + s * (X * Y) ≤ (2 * m2 + Y) * (a * X) + X * Y := by
  have U1 : 2 * (m1 * 100 * Y) * a ≤ (2 * (m2 * X) + X) * a := Nat.mul_le_mul_right a f2
  have U2 : 2 * (c * X) * (100 * Y) ≤ (2 * (m1 * a) + a) * (100 * Y) :=
    Nat.mul_le_mul_right _ e2
  have U3 : (E * (2 * a) + s) * (X * Y) ≤ (200 * c + a) * (X * Y) :=
    Nat.mul_le_mul_right _ hE1
  nlinarith [U1, U2, U3, hB]

theorem percentOf_zero (a : Nat) : percentOf 0 a = 0 := by
  simp [percentOf, mulDouble, divDouble, toDouble, mathRound]

theorem percentOf_bounds (c a : Nat) (ha : 0 < a) (hc : c ≤ 2 ^ 43) :
    percentOf c a ≤ (200 * c + a) / (2 * a) ∧
    (200 * c + a) / (2 * a) ≤ percentOf c a + 1 ∧
    ((200 * c + a) % (2 * a) ≠ 0 → percentOf c a = (200 * c + a) / (2 * a)) := by
  by_cases hc0 : c = 0
  · subst hc0
    have h0 : (200 * 0 + a) / (2 * a) = 0 := by
      rw [Nat.mul_zero, Nat.zero_add]
      exact Nat.div_eq_of_lt (by omega)
    rw [percentOf_zero, h0]
    simp
  have hcp : 0 < c := Nat.pos_of_ne_zero hc0
  have hsmall1 : c < 2 ^ 53 * a := by omega
  obtain ⟨h1, h2⟩ := scaleUp_bounds c a hcp hsmall1
  obtain ⟨e1, e2⟩ := roundNearestEven_error (c * 2 ^ scaleUp (a + 53) c a 0) a ha
  have hml := roundNearestEven_lower _ _ _ ha h1
  have hmu := roundNearestEven_upper _ _ _ ha (Nat.le_of_lt h2)
  unfold percentOf mulDouble divDouble
  rw [toDouble_small_eq c a hc0 hsmall1]
  simp only
  generalize scaleUp (a + 53) c a 0 = k1 at *
  generalize hm1 : roundNearestEven (c * 2 ^ k1) a = m1 at *
  have hXa : 512 * a ≤ 2 ^ k1 := by
    have : 2 ^ 43 * (512 * a) ≤ 2 ^ 43 * 2 ^ k1 := by
      calc 2 ^ 43 * (512 * a) = 2 ^ 52 * a := by ring
        _ ≤ c * 2 ^ k1 := h1
        _ ≤ 2 ^ 43 * 2 ^ k1 := Nat.mul_le_mul_right _ hc
    exact Nat.le_of_mul_le_mul_left this (Nat.two_pow_pos 43)
  have hXpos : 0 < 2 ^ k1 := Nat.two_pow_pos k1
  have hn2 : m1 * 100 ≠ 0 := by
    have : 0 < m1 := Nat.lt_of_lt_of_le (Nat.two_pow_pos 52) hml
    omega
  have hsmall2 : m1 * 100 < 2 ^ 53 * 2 ^ k1 := by
    calc m1 * 100 ≤ 2 ^ 53 * 100 := Nat.mul_le_mul_right _ hmu
      _ < 2 ^ 53 * 512 := by norm_num
      _ ≤ 2 ^ 53 * 2 ^ k1 := Nat.mul_le_mul_left _ (by omega)
  obtain ⟨g1, g2⟩ := scaleUp_bounds (m1 * 100) (2 ^ k1) (Nat.pos_of_ne_zero hn2) hsmall2
  obtain ⟨f1, f2⟩ := roundNearestEven_error
    (m1 * 100 * 2 ^ scaleUp (2 ^ k1 + 53) (m1 * 100) (2 ^ k1) 0) (2 ^ k1) hXpos
  rw [toDouble_small_eq _ _ hn2 hsmall2]
  unfold mathRound
  simp only
  generalize scaleUp (2 ^ k1 + 53) (m1 * 100) (2 ^ k1) 0 = k2 at *
  generalize roundNearestEven (m1 * 100 * 2 ^ k2) (2 ^ k1) = m2 at *
  generalize 2 ^ k1 = X at *
  generalize 2 ^ k2 = Y at *
  have hXY : X ≤ 200 * Y := by
    have : 2 ^ 52 * X ≤ 2 ^ 52 * (200 * Y) := by
      calc 2 ^ 52 * X ≤ m1 * 100 * Y := g1
        _ ≤ 2 ^ 53 * 100 * Y := Nat.mul_le_mul_right _ (Nat.mul_le_mul_right _ hmu)
        _ = 2 ^ 52 * (200 * Y) := by ring
    exact Nat.le_of_mul_le_mul_left this (Nat.two_pow_pos 52)
  have hYpos : 0 < Y := by omega
  have b1 : 200 * a < X := by omega
  have b2 : 2 * a < Y := by omega
  have hB : 200 * (a * Y) + 2 * (a * X) < 2 * (X * Y) := by
    have p1 : 200 * a * Y < X * Y := Nat.mul_lt_mul_of_pos_right b1 hYpos
    have p2 : 2 * a * X < Y * X := Nat.mul_lt_mul_of_pos_right b2 hXpos
    have q1 : 200 * a * Y = 200 * (a * Y) := by ring
    have q2 : 2 * a * X = 2 * (a * X) := by ring
    have q3 : Y * X = X * Y := Nat.mul_comm _ _
    omega
  have hE1 : (200 * c + a) / (2 * a) * (2 * a) ≤ 200 * c + a := Nat.div_mul_le_self _ _
  have hE2 : 200 * c + a < ((200 * c + a) / (2 * a) + 1) * (2 * a) :=
    (Nat.div_lt_iff_lt_mul (by omega)).1 (Nat.lt_succ_self _)
  have hE3 : (200 * c + a) % (2 * a) ≠ 0 →
      (200 * c + a) / (2 * a) * (2 * a) + 1 ≤ 200 * c + a := by
    intro hne
    have h3 := Nat.div_add_mod (200 * c + a) (2 * a)
    have hpos : 0 < (200 * c + a) % (2 * a) := Nat.pos_of_ne_zero hne
    have h4 : (200 * c + a) / (2 * a) * (2 * a) = 2 * a * ((200 * c + a) / (2 * a)) :=
      Nat.mul_comm _ _
    omega
  generalize (200 * c + a) / (2 * a) = E at *
  generalize (200 * c + a) % (2 * a) = tie at *
  clear h1 h2 hml hmu g1 g2 hXa hsmall1 hsmall2 hXY b1 b2 hm1 hn2 hc
  have hpos2 : 0 < 2 * Y := by omega
  have hAX : 0 < a * X := Nat.mul_pos ha hXpos
  have upper : 2 * m2 + Y < (E + 1) * (2 * Y) :=
    Nat.lt_of_mul_lt_mul_right (two_step_upper a c E m1 m2 X Y e1 f1 hE2 hB)
  have lower1 : E * (2 * Y) ≤ 2 * m2 + Y + 2 * Y := by
    have k0 := two_step_lower a c E m1 m2 X Y 0 e2 f2 (by omega) hB
    have k1 : X * Y ≤ 2 * Y * (a * X) := by
      calc X * Y = 1 * (X * Y) := (Nat.one_mul _).symm
        _ ≤ (2 * a) * (X * Y) := Nat.mul_le_mul_right _ (by omega)
        _ = 2 * Y * (a * X) := by ring
    have key : E * (2 * Y) * (a * X) ≤ (2 * m2 + Y + 2 * Y) * (a * X) := by
      have e4 : (2 * m2 + Y + 2 * Y) * (a * X) = (2 * m2 + Y) * (a * X) + 2 * Y * (a * X) := by
        ring
      omega
    exact Nat.le_of_mul_le_mul_right key hAX
  refine ⟨?_, ?_, ?_⟩
  · exact Nat.le_of_lt_succ ((Nat.div_lt_iff_lt_mul hpos2).2 upper)
  · have : E ≤ (2 * m2 + Y + 2 * Y) / (2 * Y) := (Nat.le_div_iff_mul_le hpos2).2 lower1
    have e3 : (2 * m2 + Y + 2 * Y) / (2 * Y) = (2 * m2 + Y) / (2 * Y) + 1 :=
      Nat.add_div_right _ hpos2
    omega
  · intro hne
    have hlt := hE3 hne
    apply Nat.div_eq_of_lt_le
    · have k0 := two_step_lower a c E m1 m2 X Y 1 e2 f2 (by omega) hB
      have key : E * (2 * Y) * (a * X) ≤ (2 * m2 + Y) * (a * X) := by omega
      exact Nat.le_of_mul_le_mul_right key hAX
    · exact upper


theorem percentOf_roundHalfUp (c a : Nat) (ha : 0 < a) (hc : c ≤ 2 ^ 43) :
    percentOf c a ≤ roundHalfUp (100 * c) a ∧
    roundHalfUp (100 * c) a ≤ percentOf c a + 1 ∧
    (¬ ExactHalf (100 * c) a → percentOf c a = roundHalfUp (100 * c) a) := by
  have e : 2 * (100 * c) + a = 200 * c + a := by ring
  unfold roundHalfUp ExactHalf
  rw [e]
  exact percentOf_bounds c a ha hc

theorem mathRound_divDouble_roundHalfUp (s n : Nat) (hn : 0 < n) (hs : s < 2 ^ 52) :
    mathRound (divDouble s n) = roundHalfUp s n :=
  mathRound_divDouble_exact s n hn hs

/-! ## KPI -/

theorem answered_length (r : NumObj Response) :
    ((r.map Prod.snd).filter (fun v => v.conforme != JSVal.null)).length
      = r.countP (fun e => e.2.conforme != JSVal.null) := by
  induction r with
  | nil => rfl
  | cons e rest ih =>
    by_cases h : e.2.conforme = JSVal.null
    · simp [h, List.countP_cons, ih]
    · simpa [h, List.countP_cons] using ih

theorem conforme_length (r : NumObj Response) :
    (((r.map Prod.snd).filter (fun v => v.conforme != JSVal.null)).filter
        (fun v => v.conforme == JSVal.bool true)).length
      = r.countP (fun e => e.2.conforme == JSVal.bool true) := by
  induction r with
  | nil => rfl
  | cons e rest ih =>
    by_cases h : e.2.conforme = JSVal.bool true
    · simpa [h, List.countP_cons] using ih
    · by_cases h2 : e.2.conforme = JSVal.null
      · simpa [h, h2, List.countP_cons] using ih
      · simpa [h, h2, List.countP_cons] using ih

theorem compliance_rate_eq (r : NumObj Response) :
    calculateComplianceRate (some r)
      = if r.countP (fun e => e.2.conforme != JSVal.null) = 0 then 0
        else percentOf (r.countP (fun e => e.2.conforme == JSVal.bool true))
          (r.countP (fun e => e.2.conforme != JSVal.null)) := by
  unfold calculateComplianceRate
  simp only [answered_length, conforme_length, percentOf]
  by_cases hl : r.length = 0
  · have : r = [] := List.length_eq_zero.1 hl
    subst this
    simp
  · simp only [hl, if_false]

/-- C15 as written fails on an exact half: of 40 answered criteria with 23
conforming, the exact percentage is 57.5, which a half rounded up makes 58, and
`calculateComplianceRate` returns 57.  The quotient `23 / 40` is the double
`5179139571476070 / 2 ^ 53`, just under 0.575; its product with 100 rounds to the
double `8092405580431359 / 2 ^ 47`, which is 57.49999999999999, and `Math.round`
of that is 57. -/
theorem compliance_rate_half_not_up :
    tieResponses.countP (fun e => e.2.conforme != JSVal.null) = 40 ∧
    tieResponses.countP (fun e => e.2.conforme == JSVal.bool true) = 23 ∧
    ExactHalf (100 * 23) 40 ∧
    roundHalfUp (100 * 23) 40 = 58 ∧
    divDouble 23 40 = ⟨5179139571476070, 53⟩ ∧
    mulDouble (divDouble 23 40) 100 = ⟨8092405580431359, 47⟩ ∧
    calculateComplianceRate (some tieResponses) = 57 := by
  decide

/-- C15, amended: `calculateComplianceRate` is 0 when the response collection is
absent, empty or without an answered entry; otherwise it is
`Math.round((c / a) * 100)` computed in binary64 as the code computes it (the
division rounded, the product by 100 rounded, then `Math.round`), `a` being the
number of entries whose `conforme` is not `null` and `c` the number whose
`conforme` is `true`.  Unanswered entries do not affect the result: dropping
them gives the same rate.  Two conforming and one non-conforming answer give 67;
one conforming, one unanswered and one non-conforming give 50.  For a collection
of at most `2 ^ 43` entries with an answered one, the rate is the exact
percentage `100 * c / a` with a half rounded up, or one less; it is the former
whenever the exact percentage is not half-way between two integers. -/
theorem compliance_rate_spec (r : NumObj Response) :
    calculateComplianceRate none = 0 ∧
    calculateComplianceRate (some []) = 0 ∧
    (r.countP (fun e => e.2.conforme != JSVal.null) = 0 →
      calculateComplianceRate (some r) = 0) ∧
    (r.countP (fun e => e.2.conforme != JSVal.null) ≠ 0 →
      calculateComplianceRate (some r)
        = mathRound (mulDouble (divDouble (r.countP (fun e => e.2.conforme == JSVal.bool true))
            (r.countP (fun e => e.2.conforme != JSVal.null))) 100)) ∧
    calculateComplianceRate (some (r.filter (fun e => e.2.conforme != JSVal.null)))
      = calculateComplianceRate (some r) ∧
    calculateComplianceRate
      (some [(1, verdict (.bool true)), (2, verdict (.bool true)), (3, verdict (.bool false))])
      = 67 ∧
    calculateComplianceRate
      (some [(1, verdict (.bool true)), (2, verdict .null), (3, verdict (.bool false))])
      = 50 ∧
    (r.countP (fun e => e.2.conforme != JSVal.null) ≠ 0 → r.length ≤ 2 ^ 43 →
      calculateComplianceRate (some r)
        ≤ roundHalfUp (100 * r.countP (fun e => e.2.conforme == JSVal.bool true))
            (r.countP (fun e => e.2.conforme != JSVal.null)) ∧
      roundHalfUp (100 * r.countP (fun e => e.2.conforme == JSVal.bool true))
            (r.countP (fun e => e.2.conforme != JSVal.null))
        ≤ calculateComplianceRate (some r) + 1 ∧
      (¬ ExactHalf (100 * r.countP (fun e => e.2.conforme == JSVal.bool true))
            (r.countP (fun e => e.2.conforme != JSVal.null)) →
        calculateComplianceRate (some r)
          = roundHalfUp (100 * r.countP (fun e => e.2.conforme == JSVal.bool true))
              (r.countP (fun e => e.2.conforme != JSVal.null)))) := by
  refine ⟨rfl, rfl, ?_, ?_, ?_, by decide, by decide, ?_⟩
  · intro h
    rw [compliance_rate_eq, if_pos h]
  · intro h
    rw [compliance_rate_eq, if_neg h]
    rfl
  · rw [compliance_rate_eq, compliance_rate_eq]
    have h1 : (r.filter (fun e => e.2.conforme != JSVal.null)).countP
        (fun e => e.2.conforme != JSVal.null)
        = r.countP (fun e => e.2.conforme != JSVal.null) := by
      rw [List.countP_filter]
      congr 1
      funext e
      simp
    have h2 : (r.filter (fun e => e.2.conforme != JSVal.null)).countP
        (fun e => e.2.conforme == JSVal.bool true)
        = r.countP (fun e => e.2.conforme == JSVal.bool true) := by
      rw [List.countP_filter]
      congr 1
      funext e
      by_cases h : e.2.conforme = JSVal.bool true <;> simp [h]
    rw [h1, h2]
  · intro ha hlen
    have hc : r.countP (fun e => e.2.conforme == JSVal.bool true) ≤ r.length :=
      List.countP_le_length _
    rw [compliance_rate_eq, if_neg ha]
    exact percentOf_roundHalfUp _ _ (Nat.pos_of_ne_zero ha) (by omega)

/-- C15 on a collection where every entry is unanswered, where the rate is 0, and
on two conforming answers of three, where it is the exact percentage rounded. -/
theorem compliance_rate_spec_witness :
    ([(1, verdict .null), (2, verdict .null)].countP
      (fun e : Nat × Response => e.2.conforme != JSVal.null) = 0 ∧
    calculateComplianceRate (some [(1, verdict .null), (2, verdict .null)]) = 0) ∧
    (¬ ExactHalf (100 * 2) 3 ∧
    calculateComplianceRate
      (some [(1, verdict (.bool true)), (2, verdict (.bool true)), (3, verdict (.bool false))])
      = roundHalfUp (100 * 2) 3) :=
  ⟨⟨by decide, (compliance_rate_spec [(1, verdict .null), (2, verdict .null)]).2.2.1
    (by decide)⟩,
   ⟨by decide, ((compliance_rate_spec
      [(1, verdict (.bool true)), (2, verdict (.bool true)), (3, verdict (.bool false))]
      ).2.2.2.2.2.2.2 (by decide) (by decide)).2.2 (by decide)⟩⟩

theorem NumObj.set_perm {α : Type} (k : Nat) (v : α) (r : NumObj α)
    (hk : k ∉ r.map Prod.fst) : (NumObj.set k v r).Perm ((k, v) :: r) := by
  induction r with
  | nil => simp [NumObj.set]
  | cons e rest ih =>
    obtain ⟨k2, v2⟩ := e
    simp only [List.map_cons, List.mem_cons, not_or] at hk
    unfold NumObj.set
    rw [if_neg hk.1]
    split
    · exact List.Perm.refl _
    · exact ((ih hk.2).cons (k2, v2)).trans (List.Perm.swap _ _ _)

/-- C16: the compliance rate is monotonic.  For every response collection `r`
and every criterion id `k` not in `r`, recording for `k` an answer whose
`conforme` is `true` does not lower `calculateComplianceRate`, and recording one
whose `conforme` is `false` does not raise it. -/
theorem compliance_rate_monotone (r : NumObj Response) (k : Nat) (v : Response)
    (hk : k ∉ r.map Prod.fst) :
    (v.conforme = JSVal.bool true →
      calculateComplianceRate (some r) ≤ calculateComplianceRate (some (NumObj.set k v r))) ∧
    (v.conforme = JSVal.bool false →
      calculateComplianceRate (some (NumObj.set k v r)) ≤ calculateComplianceRate (some r)) := by
  have hperm := NumObj.set_perm k v r hk
  have hca : r.countP (fun e => e.2.conforme == JSVal.bool true)
      ≤ r.countP (fun e => e.2.conforme != JSVal.null) := by
    apply List.countP_mono_left
    intro e _ he
    have : e.2.conforme = JSVal.bool true := by simpa using he
    simp [this]
  constructor
  · intro hv
    rw [compliance_rate_eq, compliance_rate_eq, hperm.countP_eq, hperm.countP_eq,
      List.countP_cons, List.countP_cons]
    simp only [hv]
    by_cases ha : r.countP (fun e => e.2.conforme != JSVal.null) = 0
    · simp [ha]
    · simp only [ha, if_false]
      have hpos : 0 < r.countP (fun e => e.2.conforme != JSVal.null) := Nat.pos_of_ne_zero ha
      simp only [beq_self_eq_true, if_true, bne_iff_ne, ne_eq, not_false_eq_true,
        decide_True, reduceCtorEq, Nat.add_eq_zero, one_ne_zero, and_false]
      apply percentOf_mono _ _ _ _ hpos (by omega) (by nlinarith) (by omega)
  · intro hv
    rw [compliance_rate_eq, compliance_rate_eq, hperm.countP_eq, hperm.countP_eq,
      List.countP_cons, List.countP_cons]
    simp only [hv]
    by_cases ha : r.countP (fun e => e.2.conforme != JSVal.null) = 0
    · have hc : r.countP (fun e => e.2.conforme == JSVal.bool true) = 0 := by omega
      simp only [ha, hc]
      decide
    · simp only [ha, if_false]
      have hpos : 0 < r.countP (fun e => e.2.conforme != JSVal.null) := Nat.pos_of_ne_zero ha
      have e1 : ((JSVal.bool false != JSVal.null) = true) := by decide
      have e2 : ((JSVal.bool false == JSVal.bool true) = false) := by decide
      simp only [e1, e2, if_true, Nat.add_eq_zero, one_ne_zero, and_false, if_false,
        Bool.false_eq_true, Nat.add_zero]
      apply percentOf_mono _ _ _ _ (by omega) hpos (by nlinarith) hca

/-- C16 on the collection of the test: a third conforming answer raises 50 to
67, a third non-conforming one lowers it to 33. -/
theorem compliance_rate_monotone_witness :
    (3 ∉ [(1, verdict (.bool true)), (2, verdict (.bool false))].map Prod.fst) ∧
    calculateComplianceRate (some [(1, verdict (.bool true)), (2, verdict (.bool false))])
      ≤ calculateComplianceRate (some (NumObj.set 3 (verdict (.bool true))
          [(1, verdict (.bool true)), (2, verdict (.bool false))])) ∧
    calculateComplianceRate (some (NumObj.set 3 (verdict (.bool false))
          [(1, verdict (.bool true)), (2, verdict (.bool false))]))
      ≤ calculateComplianceRate (some [(1, verdict (.bool true)), (2, verdict (.bool false))]) ∧
    calculateComplianceRate (some (NumObj.set 3 (verdict (.bool true))
          [(1, verdict (.bool true)), (2, verdict (.bool false))])) = 67 ∧
    calculateComplianceRate (some (NumObj.set 3 (verdict (.bool false))
          [(1, verdict (.bool true)), (2, verdict (.bool false))])) = 33 :=
  ⟨by decide,
    (compliance_rate_monotone [(1, verdict (.bool true)), (2, verdict (.bool false))] 3
      (verdict (.bool true)) (by decide)).1 rfl,
    (compliance_rate_monotone [(1, verdict (.bool true)), (2, verdict (.bool false))] 3
      (verdict (.bool false)) (by decide)).2 rfl,
    by decide, by decide⟩

theorem inspection_stats_eq (insp : KpiInspection) :
    calculateInspectionStats (some insp)
      = some { total_criteria := (insp.progress.getD ⟨0, 0, 0, 0⟩).total,
               answered := (insp.progress.getD ⟨0, 0, 0, 0⟩).answered,
               pending := ((insp.progress.getD ⟨0, 0, 0, 0⟩).total : Int)
                 - ((insp.progress.getD ⟨0, 0, 0, 0⟩).answered : Int),
               conforme := (insp.progress.getD ⟨0, 0, 0, 0⟩).conforme,
               non_conforme := (insp.progress.getD ⟨0, 0, 0, 0⟩).non_conforme,
               completion_rate :=
                 if (insp.progress.getD ⟨0, 0, 0, 0⟩).total = 0 then 0
                 else percentOf (insp.progress.getD ⟨0, 0, 0, 0⟩).answered
                   (insp.progress.getD ⟨0, 0, 0, 0⟩).total,
               compliance_rate :=
                 if (insp.progress.getD ⟨0, 0, 0, 0⟩).answered = 0 then 0
                 else percentOf (insp.progress.getD ⟨0, 0, 0, 0⟩).conforme
                   (insp.progress.getD ⟨0, 0, 0, 0⟩).answered } := by
  cases hp : insp.progress <;> simp [calculateInspectionStats, hp, percentOf]

/-- C17 as written fails on an exact half.  With 23 criteria answered of 40 the
exact completion is 57.5 percent, which rounds to 58, and the code returns 57
(the double product is 57.49999999999999); with 29 conforming of 200 answered
the exact compliance is 14.5 percent, which rounds to 15, and the code returns
14 (the double product is 14.499999999999998). -/
theorem inspection_stats_half_not_up :
    ExactHalf (100 * 23) 40 ∧ roundHalfUp (100 * 23) 40 = 58 ∧
    mulDouble (divDouble 23 40) 100 = ⟨8092405580431359, 47⟩ ∧
    calculateInspectionStats (some (progressOnly 40 23 23 0))
      = some { total_criteria := 40, answered := 23, pending := 17, conforme := 23,
               non_conforme := 0, completion_rate := 57, compliance_rate := 100 } ∧
    ExactHalf (100 * 29) 200 ∧ roundHalfUp (100 * 29) 200 = 15 ∧
    mulDouble (divDouble 29 200) 100 = ⟨8162774324609023, 49⟩ ∧
    calculateInspectionStats (some (progressOnly 200 200 29 171))
      = some { total_criteria := 200, answered := 200, pending := 0, conforme := 29,
               non_conforme := 171, completion_rate := 100, compliance_rate := 14 } := by
  decide

/-- C17, amended: `calculateInspectionStats` returns `null` when no inspection is
given.  Otherwise, with `p` the progress snapshot of the inspection (all zeros
when it has none), it returns `total_criteria = p.total`, `answered =
p.answered`, `conforme = p.conforme`, `non_conforme = p.non_conforme`,
`pending = p.total - p.answered`, `completion_rate =
Math.round((p.answered / p.total) * 100)` (0 when `p.total = 0`) and
`compliance_rate = Math.round((p.conforme / p.answered) * 100)` (0 when
`p.answered = 0`), both computed in binary64 as the code computes them.  The
snapshot 100 / 80 / 60 gives compliance 75, completion 80 and pending 20.  Each
rate whose numerator is at most `2 ^ 43` and whose denominator is not 0 is the
exact percentage with a half rounded up, or one less; it is the former whenever
the exact percentage is not half-way between two integers. -/
theorem inspection_stats_spec (insp : KpiInspection) :
    calculateInspectionStats none = none ∧
    (∃ st : InspectionStats, calculateInspectionStats (some insp) = some st ∧
      st.total_criteria = (insp.progress.getD ⟨0, 0, 0, 0⟩).total ∧
      st.answered = (insp.progress.getD ⟨0, 0, 0, 0⟩).answered ∧
      st.conforme = (insp.progress.getD ⟨0, 0, 0, 0⟩).conforme ∧
      st.non_conforme = (insp.progress.getD ⟨0, 0, 0, 0⟩).non_conforme ∧
      st.pending = ((insp.progress.getD ⟨0, 0, 0, 0⟩).total : Int)
        - ((insp.progress.getD ⟨0, 0, 0, 0⟩).answered : Int) ∧
      st.completion_rate =
        (if (insp.progress.getD ⟨0, 0, 0, 0⟩).total = 0 then 0
         else mathRound (mulDouble (divDouble (insp.progress.getD ⟨0, 0, 0, 0⟩).answered
           (insp.progress.getD ⟨0, 0, 0, 0⟩).total) 100)) ∧
      st.compliance_rate =
        (if (insp.progress.getD ⟨0, 0, 0, 0⟩).answered = 0 then 0
         else mathRound (mulDouble (divDouble (insp.progress.getD ⟨0, 0, 0, 0⟩).conforme
           (insp.progress.getD ⟨0, 0, 0, 0⟩).answered) 100)) ∧
      ((insp.progress.getD ⟨0, 0, 0, 0⟩).total ≠ 0 →
        (insp.progress.getD ⟨0, 0, 0, 0⟩).answered ≤ 2 ^ 43 →
        st.completion_rate
          ≤ roundHalfUp (100 * (insp.progress.getD ⟨0, 0, 0, 0⟩).answered)
              (insp.progress.getD ⟨0, 0, 0, 0⟩).total ∧
        roundHalfUp (100 * (insp.progress.getD ⟨0, 0, 0, 0⟩).answered)
              (insp.progress.getD ⟨0, 0, 0, 0⟩).total
          ≤ st.completion_rate + 1 ∧
        (¬ ExactHalf (100 * (insp.progress.getD ⟨0, 0, 0, 0⟩).answered)
              (insp.progress.getD ⟨0, 0, 0, 0⟩).total →
          st.completion_rate
            = roundHalfUp (100 * (insp.progress.getD ⟨0, 0, 0, 0⟩).answered)
                (insp.progress.getD ⟨0, 0, 0, 0⟩).total)) ∧
      ((insp.progress.getD ⟨0, 0, 0, 0⟩).answered ≠ 0 →
        (insp.progress.getD ⟨0, 0, 0, 0⟩).conforme ≤ 2 ^ 43 →
        st.compliance_rate
          ≤ roundHalfUp (100 * (insp.progress.getD ⟨0, 0, 0, 0⟩).conforme)
              (insp.progress.getD ⟨0, 0, 0, 0⟩).answered ∧
        roundHalfUp (100 * (insp.progress.getD ⟨0, 0, 0, 0⟩).conforme)
              (insp.progress.getD ⟨0, 0, 0, 0⟩).answered
          ≤ st.compliance_rate + 1 ∧
        (¬ ExactHalf (100 * (insp.progress.getD ⟨0, 0, 0, 0⟩).conforme)
              (insp.progress.getD ⟨0, 0, 0, 0⟩).answered →
          st.compliance_rate
            = roundHalfUp (100 * (insp.progress.getD ⟨0, 0, 0, 0⟩).conforme)
                (insp.progress.getD ⟨0, 0, 0, 0⟩).answered))) ∧
    (insp.progress = none →
      calculateInspectionStats (some insp)
        = some { total_criteria := 0, answered := 0, pending := 0, conforme := 0,
                 non_conforme := 0, completion_rate := 0, compliance_rate := 0 }) ∧
    calculateInspectionStats (some (progressOnly 100 80 60 20))
      = some { total_criteria := 100, answered := 80, pending := 20, conforme := 60,
               non_conforme := 20, completion_rate := 80, compliance_rate := 75 } := by
  refine ⟨rfl, ?_, ?_, by decide⟩
  · refine ⟨_, inspection_stats_eq insp, rfl, rfl, rfl, rfl, rfl, rfl, rfl, ?_, ?_⟩
    · intro ht hx
      simp only [if_neg ht]
      exact percentOf_roundHalfUp _ _ (Nat.pos_of_ne_zero ht) hx
    · intro ha hx
      simp only [if_neg ha]
      exact percentOf_roundHalfUp _ _ (Nat.pos_of_ne_zero ha) hx
  · intro hp
    simp [calculateInspectionStats, hp]

/-- C17 on an inspection without a progress snapshot. -/
theorem inspection_stats_spec_witness :
    calculateInspectionStats
      (some { status := none, date_inspection := none, created_at := none, progress := none })
      = some { total_criteria := 0, answered := 0, pending := 0, conforme := 0,
               non_conforme := 0, completion_rate := 0, compliance_rate := 0 } :=
  (inspection_stats_spec
    { status := none, date_inspection := none, created_at := none, progress := none }).2.2.1 rfl


/-! ### Objects enumerated in creation order -/

theorem StrObj.get_update {β : Type} (key s : String) (f : Option β → β) (o : StrObj β) :
    StrObj.get s (StrObj.update key f o)
      = if s = key then some (f (StrObj.get key o)) else StrObj.get s o := by
  induction o with
  | nil =>
    by_cases h : s = key
    · simp [StrObj.get, StrObj.update, List.lookup, h]
    · have hne : (s == key) = false := by simpa using h
      simp [StrObj.get, StrObj.update, List.lookup, h, hne]
  | cons e rest ih =>
    obtain ⟨k, v⟩ := e
    simp only [StrObj.get] at ih ⊢
    by_cases hk : k = key
    · subst hk
      by_cases h : s = k
      · simp [StrObj.update, List.lookup, h]
      · have hne : (s == k) = false := by simpa using h
        simp [StrObj.update, List.lookup, h, hne]
    · by_cases h : s = key
      · subst h
        have hne : (s == k) = false := by simpa using fun h2 : s = k => hk h2.symm
        simp [StrObj.update, List.lookup, hk, hne, ih]
      · by_cases h2 : s = k
        · simp [StrObj.update, List.lookup, hk, h, h2]
        · have hne : (s == k) = false := by simpa using h2
          simp [StrObj.update, List.lookup, hk, h, hne, ih]

theorem StrObj.keys_update {β : Type} (key : String) (f : Option β → β) (o : StrObj β) :
    (StrObj.update key f o).map Prod.fst
      = if key ∈ o.map Prod.fst then o.map Prod.fst else o.map Prod.fst ++ [key] := by
  induction o with
  | nil => simp [StrObj.update]
  | cons e rest ih =>
    obtain ⟨k, v⟩ := e
    by_cases hk : k = key
    · simp [StrObj.update, hk]
    · have hk2 : ¬ key = k := fun h => hk h.symm
      simp only [StrObj.update, hk, if_false, List.map_cons, ih, List.mem_cons, hk2, false_or]
      split <;> simp

theorem StrObj.nodup_update {β : Type} (key : String) (f : Option β → β) (o : StrObj β)
    (h : (o.map Prod.fst).Nodup) : ((StrObj.update key f o).map Prod.fst).Nodup := by
  rw [StrObj.keys_update]
  split
  · exact h
  · rename_i hk
    rw [List.nodup_append]
    refine ⟨h, by simp, ?_⟩
    intro a ha hb
    simp only [List.mem_singleton] at hb
    exact hk (hb ▸ ha)

theorem StrObj.get_of_mem {β : Type} (o : StrObj β) (h : (o.map Prod.fst).Nodup)
    (e : String × β) (he : e ∈ o) : StrObj.get e.1 o = some e.2 := by
  induction o with
  | nil => simp at he
  | cons e0 rest ih =>
    obtain ⟨k, v⟩ := e0
    simp only [List.map_cons, List.nodup_cons] at h
    simp only [StrObj.get] at ih ⊢
    rcases List.mem_cons.1 he with heq | hmem
    · subst heq
      simp [List.lookup]
    · have hne : (e.1 == k) = false := by
        have : e.1 ≠ k := fun hk => h.1 (hk ▸ List.mem_map_of_mem Prod.fst hmem)
        simpa using this
      simp [List.lookup, hne, ih h.2 hmem]

theorem StrObj.mem_keys_iff {β : Type} (o : StrObj β) (s : String) :
    s ∈ o.map Prod.fst ↔ (StrObj.get s o).isSome = true := by
  induction o with
  | nil => simp [StrObj.get, List.lookup]
  | cons e0 rest ih =>
    obtain ⟨k, v⟩ := e0
    simp only [StrObj.get] at ih ⊢
    by_cases h : s = k
    · simp [List.lookup, h]
    · have hne : (s == k) = false := by simpa using h
      simp [List.lookup, hne, h, ih]

/-! ### Aggregation -/

theorem aggregateStep_eq (acc : AggregateAcc) (insp : KpiInspection) :
    aggregateStep acc insp
      = { byStatus := bumpCount (propertyKey insp.status) acc.byStatus,
          totalCriteria := acc.totalCriteria + (progressOf insp).total,
          totalConforme := acc.totalConforme + (progressOf insp).conforme,
          totalNonConforme := acc.totalNonConforme + (progressOf insp).non_conforme,
          totalComplianceRates := acc.totalComplianceRates ++ [complianceRateOf insp] } := by
  simp [aggregateStep, complianceRateOf, inspection_stats_eq, progressOf]

theorem aggregate_foldl (l : List KpiInspection) (acc : AggregateAcc) :
    l.foldl aggregateStep acc
      = { byStatus := l.foldl (fun b i => bumpCount (propertyKey i.status) b) acc.byStatus,
          totalCriteria := acc.totalCriteria + (l.map (fun i => (progressOf i).total)).sum,
          totalConforme := acc.totalConforme + (l.map (fun i => (progressOf i).conforme)).sum,
          totalNonConforme :=
            acc.totalNonConforme + (l.map (fun i => (progressOf i).non_conforme)).sum,
          totalComplianceRates := acc.totalComplianceRates ++ l.map complianceRateOf } := by
  induction l generalizing acc with
  | nil => simp
  | cons x xs ih =>
    rw [List.foldl_cons, ih, aggregateStep_eq]
    simp [Nat.add_assoc]

theorem foldl_add_eq_sum (l : List Nat) (a : Nat) :
    l.foldl (fun x y => x + y) a = a + l.sum := by
  induction l generalizing a with
  | nil => simp
  | cons x xs ih => simp [ih, Nat.add_assoc]

theorem get_bumpCount (key s : String) (b : StrObj Nat) :
    StrObj.get s (bumpCount key b)
      = if s = key then some ((StrObj.get key b).getD 0 + 1) else StrObj.get s b := by
  rw [bumpCount, StrObj.get_update]
  split
  · cases h : StrObj.get key b with
    | none => simp
    | some n =>
      by_cases hn : n = 0
      · simp [hn]
      · simp [hn]
  · rfl

theorem get_count_foldl (l : List KpiInspection) (b : StrObj Nat) (s : String) :
    StrObj.get s (l.foldl (fun b i => bumpCount (propertyKey i.status) b) b)
      = if l.countP (fun i => propertyKey i.status == s) = 0 then StrObj.get s b
        else some ((StrObj.get s b).getD 0 + l.countP (fun i => propertyKey i.status == s)) := by
  induction l generalizing b with
  | nil => simp
  | cons x xs ih =>
    rw [List.foldl_cons, ih, get_bumpCount, List.countP_cons]
    by_cases hx : propertyKey x.status = s
    · subst hx
      simp only [beq_self_eq_true, if_true]
      by_cases hc : List.countP (fun i => propertyKey i.status == propertyKey x.status) xs = 0
      · simp [hc]
      · simp [hc]
        omega
    · have hx2 : ¬ s = propertyKey x.status := fun h => hx h.symm
      simp [hx, hx2]

theorem nodup_count_foldl (l : List KpiInspection) (b : StrObj Nat)
    (h : (b.map Prod.fst).Nodup) :
    ((l.foldl (fun b i => bumpCount (propertyKey i.status) b) b).map Prod.fst).Nodup := by
  induction l generalizing b with
  | nil => exact h
  | cons x xs ih => exact ih _ (StrObj.nodup_update _ _ _ h)

/-- C18: `aggregateInspectionStats` returns the all-zero summary, with no status
count, for an absent or empty list.  For a non-empty list it returns the length
of the list as `total_inspections`; as `by_status` an object that has, for each
status borne by some inspection, one property, whose value is the number of
inspections with that status; as `total_criteria`, `total_conforme` and
`total_non_conforme` the sums of the progress `total`, `conforme` and
`non_conforme` of the inspections; and as `average_compliance_rate` the value
`Math.round(s / n)`, where `s` is the sum of the compliance rates that
`calculateInspectionStats` gives for the inspections one by one (0 for an
inspection with nothing answered) and `n` their number, the quotient being the
binary64 one; for `s` below `2 ^ 52` this is the exact mean `s / n` with a half
rounded up.  This is the unweighted mean of the rates, not the ratio of the
sums: rates 100 (1 of 1) and 0 (0 of 3) give 50, where the ratio of the sums
(1 of 4) is 25. -/
theorem aggregate_stats_spec (l : List KpiInspection) (hne : l ≠ []) :
    aggregateInspectionStats none = zeroSummary ∧
    aggregateInspectionStats (some []) = zeroSummary ∧
    (aggregateInspectionStats (some l)).total_inspections = l.length ∧
    (∀ s : String, StrObj.get s (aggregateInspectionStats (some l)).by_status
      = if l.countP (fun i => propertyKey i.status == s) = 0 then none
        else some (l.countP (fun i => propertyKey i.status == s))) ∧
    ((aggregateInspectionStats (some l)).by_status.map Prod.fst).Nodup ∧
    (aggregateInspectionStats (some l)).total_criteria
      = (l.map (fun i => (progressOf i).total)).sum ∧
    (aggregateInspectionStats (some l)).total_conforme
      = (l.map (fun i => (progressOf i).conforme)).sum ∧
    (aggregateInspectionStats (some l)).total_non_conforme
      = (l.map (fun i => (progressOf i).non_conforme)).sum ∧
    (aggregateInspectionStats (some l)).average_compliance_rate
      = mathRound (divDouble (l.map complianceRateOf).sum l.length) ∧
    ((l.map complianceRateOf).sum < 2 ^ 52 →
      (aggregateInspectionStats (some l)).average_compliance_rate
        = roundHalfUp (l.map complianceRateOf).sum l.length) ∧
    (∀ i ∈ l, (progressOf i).answered = 0 → complianceRateOf i = 0) ∧
    ((aggregateInspectionStats (some [progressOnly 1 1 1 0, progressOnly 3 3 0 3])).average_compliance_rate
        = 50 ∧ percentOf (1 + 0) (1 + 3) = 25) := by
  have hlen : l.length ≠ 0 := by simpa using hne
  have hpos : 0 < l.length := Nat.pos_of_ne_zero hlen
  have havg : (aggregateInspectionStats (some l)).average_compliance_rate
      = mathRound (divDouble (l.map complianceRateOf).sum l.length) := by
    simp [aggregateInspectionStats, hlen, aggregate_foldl, foldl_add_eq_sum, hpos]
  refine ⟨rfl, rfl, ?_, ?_, ?_, ?_, ?_, ?_, havg, ?_, ?_, by decide⟩
  · simp [aggregateInspectionStats, hlen]
  · intro s
    simp only [aggregateInspectionStats, hlen, if_false, aggregate_foldl]
    rw [get_count_foldl]
    simp [StrObj.get]
  · simp only [aggregateInspectionStats, hlen, if_false, aggregate_foldl]
    exact nodup_count_foldl l [] (by simp)
  · simp [aggregateInspectionStats, hlen, aggregate_foldl]
  · simp [aggregateInspectionStats, hlen, aggregate_foldl]
  · simp [aggregateInspectionStats, hlen, aggregate_foldl]
  · intro hs
    rw [havg]
    exact mathRound_divDouble_roundHalfUp _ _ hpos hs
  · intro i _ h0
    simp only [progressOf] at h0
    simp [complianceRateOf, inspection_stats_eq, h0]

/-- C18 on the two inspections of the test: rates 80 and 90 average to 85. -/
theorem aggregate_stats_spec_witness :
    [{ progressOnly 100 100 80 20 with status := some "completed" },
     { progressOnly 100 100 90 10 with status := some "completed" }] ≠ [] ∧
    (aggregateInspectionStats (some
      [{ progressOnly 100 100 80 20 with status := some "completed" },
       { progressOnly 100 100 90 10 with status := some "completed" }])).average_compliance_rate
      = 85 ∧
    (aggregateInspectionStats (some
      [{ progressOnly 100 100 80 20 with status := some "completed" },
       { progressOnly 100 100 90 10 with status := some "completed" }])).total_inspections
      = 2 :=
  ⟨by decide, by decide,
    (aggregate_stats_spec
      [{ progressOnly 100 100 80 20 with status := some "completed" },
       { progressOnly 100 100 90 10 with status := some "completed" }] (by decide)).2.2.1⟩


/-! ### Trend -/

theorem get_pushByDate (date s : String) (insp : KpiInspection)
    (g : StrObj (List KpiInspection)) :
    StrObj.get s (pushByDate date insp g)
      = if s = date then some ((StrObj.get date g).getD [] ++ [insp]) else StrObj.get s g := by
  rw [pushByDate, StrObj.get_update]
  split
  · cases h : StrObj.get date g <;> simp
  · rfl

theorem get_group_foldl (l : List KpiInspection) (g : StrObj (List KpiInspection))
    (d : String) :
    StrObj.get d (l.foldl (fun byDate insp => pushByDate (groupingDate insp) insp byDate) g)
      = if l.filter (fun i => groupingDate i == d) = [] then StrObj.get d g
        else some ((StrObj.get d g).getD [] ++ l.filter (fun i => groupingDate i == d)) := by
  induction l generalizing g with
  | nil => simp
  | cons x xs ih =>
    rw [List.foldl_cons, ih, get_pushByDate]
    by_cases hx : groupingDate x = d
    · subst hx
      by_cases hc : xs.filter (fun i => groupingDate i == groupingDate x) = []
      · simp [hc]
      · simp [hc]
    · have hx2 : ¬ d = groupingDate x := fun h => hx h.symm
      simp [hx, hx2]

theorem nodup_group_foldl (l : List KpiInspection) (g : StrObj (List KpiInspection))
    (h : (g.map Prod.fst).Nodup) :
    ((l.foldl (fun byDate insp => pushByDate (groupingDate insp) insp byDate) g).map
      Prod.fst).Nodup := by
  induction l generalizing g with
  | nil => exact h
  | cons x xs ih => exact ih _ (StrObj.nodup_update _ _ _ h)

theorem get_groupByDate (l : List KpiInspection) (d : String) :
    StrObj.get d (groupByDate l)
      = if l.filter (fun i => groupingDate i == d) = [] then none
        else some (l.filter (fun i => groupingDate i == d)) := by
  rw [groupByDate, get_group_foldl]
  simp [StrObj.get]

theorem mem_groupByDate (l : List KpiInspection) (e : String × List KpiInspection)
    (he : e ∈ groupByDate l) : e.2 = l.filter (fun i => groupingDate i == e.1) := by
  have hnd : ((groupByDate l).map Prod.fst).Nodup := nodup_group_foldl l [] (by simp)
  have hget := StrObj.get_of_mem (groupByDate l) hnd e he
  rw [get_groupByDate] at hget
  split at hget
  · simp at hget
  · simpa using hget.symm

theorem orderedInsert_congr {α : Type} (r s : α → α → Prop) [DecidableRel r] [DecidableRel s]
    (a : α) (l : List α) (h : ∀ b ∈ l, (r a b ↔ s a b)) :
    l.orderedInsert r a = l.orderedInsert s a := by
  induction l with
  | nil => rfl
  | cons b t ih =>
    have hb := h b (List.mem_cons_self _ _)
    have ht := ih (fun c hc => h c (List.mem_cons_of_mem _ hc))
    by_cases hr : r a b
    · have hs : s a b := hb.1 hr
      simp [List.orderedInsert, hr, hs]
    · have hs : ¬ s a b := fun x => hr (hb.2 x)
      simp [List.orderedInsert, hr, hs, ht]

theorem insertionSort_congr {α : Type} (r s : α → α → Prop) [DecidableRel r] [DecidableRel s]
    (l : List α) (h : ∀ a ∈ l, ∀ b ∈ l, (r a b ↔ s a b)) :
    l.insertionSort r = l.insertionSort s := by
  induction l with
  | nil => rfl
  | cons a t ih =>
    have ht := ih (fun x hx y hy => h x (List.mem_cons_of_mem _ hx) y (List.mem_cons_of_mem _ hy))
    simp only [List.insertionSort]
    rw [ht]
    apply orderedInsert_congr
    intro b hb
    have hb2 : b ∈ t := (List.perm_insertionSort s t).mem_iff.1 hb
    exact h a (List.mem_cons_self _ _) b (List.mem_cons_of_mem _ hb2)

theorem mem_keys_groupByDate (l : List KpiInspection) (d : String) :
    d ∈ (groupByDate l).map Prod.fst ↔ ∃ i ∈ l, groupingDate i = d := by
  rw [StrObj.mem_keys_iff, get_groupByDate]
  by_cases hf : l.filter (fun i => groupingDate i == d) = []
  · simp only [hf, if_true, Option.isSome_none, Bool.false_eq_true, false_iff]
    rintro ⟨i, hi, hd⟩
    have : i ∈ l.filter (fun i => groupingDate i == d) :=
      List.mem_filter.2 ⟨hi, by simpa using hd⟩
    rw [hf] at this
    simp at this
  · simp only [hf, if_false, Option.isSome_some, true_iff]
    obtain ⟨i, hi⟩ := List.exists_mem_of_ne_nil _ hf
    have := List.mem_filter.1 hi
    exact ⟨i, this.1, by simpa using this.2⟩

/-- The sorted entries of `byDate` under a comparator that is total and
transitive: no entry is followed by one that it compares greater than. -/
theorem trend_sorted_collation (collation : String → String → Int)
    (htot : ∀ a b : String, collation a b ≤ 0 ∨ collation b a ≤ 0)
    (htrans : ∀ a b c : String, collation a b ≤ 0 → collation b c ≤ 0 → collation a c ≤ 0)
    (l : List KpiInspection) :
    (jsSort (fun a b : String × List KpiInspection => collation a.1 b.1)
      (groupByDate l)).Pairwise (fun a b => collation a.1 b.1 ≤ 0) := by
  haveI : IsTotal (String × List KpiInspection) (fun a b => collation a.1 b.1 ≤ 0) :=
    ⟨fun a b => htot a.1 b.1⟩
  haveI : IsTrans (String × List KpiInspection) (fun a b => collation a.1 b.1 ≤ 0) :=
    ⟨fun a b c hab hbc => htrans a.1 b.1 c.1 hab hbc⟩
  exact List.sorted_insertionSort
    (fun a b : String × List KpiInspection => collation a.1 b.1 ≤ 0) (groupByDate l)

/-- The sorted entries of `byDate` under a comparator that agrees with the
lexicographic order on the grouping dates at hand: the keys are strictly
ascending in that order. -/
theorem trend_sorted_lexicographic (collation : String → String → Int)
    (l : List KpiInspection)
    (hagree : ∀ i ∈ l, ∀ j ∈ l,
      (collation (groupingDate i) (groupingDate j) ≤ 0 ↔ groupingDate i ≤ groupingDate j)) :
    (jsSort (fun a b : String × List KpiInspection => collation a.1 b.1)
      (groupByDate l)).Pairwise (fun a b => a.1 < b.1) := by
  have hnd : ((groupByDate l).map Prod.fst).Nodup := nodup_group_foldl l [] (by simp)
  have hkey : ∀ e ∈ groupByDate l, ∃ i ∈ l, groupingDate i = e.1 := fun e he =>
    (mem_keys_groupByDate l e.1).1 (List.mem_map_of_mem Prod.fst he)
  have hcongr : jsSort (fun a b : String × List KpiInspection => collation a.1 b.1)
      (groupByDate l)
      = (groupByDate l).insertionSort (fun a b => a.1 ≤ b.1) := by
    unfold jsSort
    apply insertionSort_congr
    intro a ha b hb
    obtain ⟨i, hi, hia⟩ := hkey a ha
    obtain ⟨j, hj, hjb⟩ := hkey b hb
    have := hagree i hi j hj
    rw [hia, hjb] at this
    exact this
  rw [hcongr]
  haveI : IsTotal (String × List KpiInspection) (fun a b => a.1 ≤ b.1) :=
    ⟨fun a b => le_total a.1 b.1⟩
  haveI : IsTrans (String × List KpiInspection) (fun a b => a.1 ≤ b.1) :=
    ⟨fun a b c hab hbc => le_trans hab hbc⟩
  have hs := List.sorted_insertionSort
    (fun a b : String × List KpiInspection => a.1 ≤ b.1) (groupByDate l)
  have hperm := List.perm_insertionSort
    (fun a b : String × List KpiInspection => a.1 ≤ b.1) (groupByDate l)
  have hnd2 : ((List.insertionSort
      (fun a b : String × List KpiInspection => a.1 ≤ b.1)
      (groupByDate l)).map Prod.fst).Nodup := (hperm.map Prod.fst).nodup_iff.2 hnd
  have hne : (List.insertionSort
      (fun a b : String × List KpiInspection => a.1 ≤ b.1)
      (groupByDate l)).Pairwise (fun a b => a.1 ≠ b.1) := by
    rw [List.Nodup, List.pairwise_map] at hnd2
    exact hnd2
  exact List.Pairwise.imp₂ (fun a b h1 h2 => lt_of_le_of_ne h1 h2) hs hne

/-- C19 counterexample: two inspections dated `March 1, 2024` and
`april 1, 2024`.  The sort of `calculateTrendData` follows `localeCompare`, whose
collation puts `april` before `March`: the point of `april 1, 2024` comes first,
although `March 1, 2024` is the smaller string in the lexicographic order (`M`
is before `a`), so the dates of the points are not in ascending lexicographic
order.  The same holds with every comparator that, like `localeCompare`, gives
a positive number on `March 1, 2024` and `april 1, 2024`. -/
theorem trend_order_follows_collation :
    caseBlindCompare "March 1, 2024" "april 1, 2024" = 1 ∧
    (calculateTrendData caseBlindCompare (some trendMixedCase)).map (fun pt => pt.date)
      = ["april 1, 2024", "March 1, 2024"] ∧
    "March 1, 2024" < "april 1, 2024" ∧
    ¬ ((calculateTrendData caseBlindCompare (some trendMixedCase)).map
        (fun pt => pt.date)).Pairwise (fun a b => a < b) ∧
    (∀ collation : String → String → Int,
      0 < collation "March 1, 2024" "april 1, 2024" →
      (calculateTrendData collation (some trendMixedCase)).map (fun pt => pt.date)
        = ["april 1, 2024", "March 1, 2024"]) := by
  have hlt : "March 1, 2024" < "april 1, 2024" := by
    rw [String.lt_iff_toList_lt]
    decide
  have hd : (calculateTrendData caseBlindCompare (some trendMixedCase)).map (fun pt => pt.date)
      = ["april 1, 2024", "March 1, 2024"] := by decide
  refine ⟨by decide, hd, hlt, ?_, ?_⟩
  · rw [hd]
    intro h
    have h2 : "april 1, 2024" < "March 1, 2024" := by
      simpa using h
    exact lt_asymm hlt h2
  · intro collation hc
    have hg : groupByDate trendMixedCase
        = [("March 1, 2024",
              [{ progressOnly 100 100 80 20 with date_inspection := some "March 1, 2024" }]),
           ("april 1, 2024",
              [{ progressOnly 100 100 90 10 with date_inspection := some "april 1, 2024" }])] := by
      decide
    have hn : ¬ collation "March 1, 2024" "april 1, 2024" ≤ 0 := not_le.2 hc
    have hT : calculateTrendData collation (some trendMixedCase)
        = (jsSort (fun a b : String × List KpiInspection => collation a.1 b.1)
            (groupByDate trendMixedCase)).map (fun e =>
              { date := e.1,
                compliance_rate := (aggregateInspectionStats (some e.2)).average_compliance_rate,
                total_inspections := e.2.length }) := rfl
    rw [hT, hg]
    simp only [jsSort, List.insertionSort, List.orderedInsert, hn, if_false, List.map_cons,
      List.map_nil]

/-- C19, as the code has it: `calculateTrendData` returns the empty list for an
absent or empty input.  For a non-empty list it returns exactly one point per
distinct grouping date (the inspection date, or the creation time when the date
is absent or empty): the dates of the points are pairwise distinct, and a date
occurs among them if and only if it is the grouping date of an input
inspection.  The points are in the order of `localeCompare`: when that
comparator is total and transitive, no point is followed by one whose date it
compares greater than; and when it agrees with the lexicographic order of
strings on the grouping dates of the input, as it does on ISO dates, the dates
of the points are strictly ascending in the lexicographic order.  The
inspection count of a point is the number of input inspections with that
grouping date, and its compliance rate is the `average_compliance_rate` that
`aggregateInspectionStats` gives for those inspections, taken in input order. -/
theorem trend_data_spec (collation : String → String → Int) (l : List KpiInspection)
    (hne : l ≠ []) :
    calculateTrendData collation none = [] ∧
    calculateTrendData collation (some []) = [] ∧
    ((calculateTrendData collation (some l)).map (fun pt => pt.date)).Nodup ∧
    ((∀ a b : String, collation a b ≤ 0 ∨ collation b a ≤ 0) →
      (∀ a b c : String, collation a b ≤ 0 → collation b c ≤ 0 → collation a c ≤ 0) →
      ((calculateTrendData collation (some l)).map (fun pt => pt.date)).Pairwise
        (fun a b => collation a b ≤ 0)) ∧
    ((∀ i ∈ l, ∀ j ∈ l,
        (collation (groupingDate i) (groupingDate j) ≤ 0 ↔ groupingDate i ≤ groupingDate j)) →
      ((calculateTrendData collation (some l)).map (fun pt => pt.date)).Pairwise
        (fun a b => a < b)) ∧
    (∀ d : String, d ∈ (calculateTrendData collation (some l)).map (fun pt => pt.date) ↔
      ∃ i ∈ l, groupingDate i = d) ∧
    (∀ pt ∈ calculateTrendData collation (some l),
      pt.total_inspections = l.countP (fun i => groupingDate i == pt.date) ∧
      pt.compliance_rate
        = (aggregateInspectionStats
            (some (l.filter (fun i => groupingDate i == pt.date)))).average_compliance_rate) ∧
    (∀ (i : KpiInspection) (d : String), i.date_inspection = some d → d ≠ "" →
      groupingDate i = d) ∧
    (∀ (i : KpiInspection) (c : String), i.date_inspection = none → i.created_at = some c →
      groupingDate i = c) := by
  have hlen : l.length ≠ 0 := by simpa using hne
  have hT : calculateTrendData collation (some l)
      = (jsSort (fun a b : String × List KpiInspection => collation a.1 b.1)
          (groupByDate l)).map (fun e =>
            { date := e.1,
              compliance_rate := (aggregateInspectionStats (some e.2)).average_compliance_rate,
              total_inspections := e.2.length }) := by
    simp [calculateTrendData, hlen]
  have hperm : (jsSort (fun a b : String × List KpiInspection => collation a.1 b.1)
      (groupByDate l)).Perm (groupByDate l) := List.perm_insertionSort _ _
  have hcomp : ((fun pt : TrendPoint => pt.date) ∘ fun e : String × List KpiInspection =>
      ({ date := e.1,
         compliance_rate := (aggregateInspectionStats (some e.2)).average_compliance_rate,
         total_inspections := e.2.length } : TrendPoint)) = Prod.fst := rfl
  have hnd : ((groupByDate l).map Prod.fst).Nodup := nodup_group_foldl l [] (by simp)
  refine ⟨rfl, rfl, ?_, ?_, ?_, ?_, ?_, ?_, ?_⟩
  · rw [hT, List.map_map, hcomp]
    exact (hperm.map Prod.fst).nodup_iff.2 hnd
  · intro htot htrans
    rw [hT, List.map_map, List.pairwise_map]
    exact trend_sorted_collation collation htot htrans l
  · intro hagree
    rw [hT, List.map_map, List.pairwise_map]
    exact trend_sorted_lexicographic collation l hagree
  · intro d
    rw [hT, List.map_map, hcomp, (hperm.map Prod.fst).mem_iff]
    exact mem_keys_groupByDate l d
  · intro pt hpt
    rw [hT] at hpt
    obtain ⟨e, he, rfl⟩ := List.mem_map.1 hpt
    have hmem : e ∈ groupByDate l := hperm.mem_iff.1 he
    have := mem_groupByDate l e hmem
    simp only
    rw [List.countP_eq_length_filter, ← this]
    exact ⟨rfl, rfl⟩
  · intro i d hd hd2
    simp [groupingDate, hd, strTruthy, hd2]
  · intro i c hd hc
    simp [groupingDate, hd, hc, propertyKey]

/-- C19 on the inspections of the grouping test, whose dates are ISO dates: the
comparator agrees with the lexicographic order on them, the dates of the points
are strictly ascending, and the point of `2024-01-15` counts two inspections. -/
theorem trend_data_spec_witness :
    trendSample ≠ [] ∧
    ((calculateTrendData caseBlindCompare (some trendSample)).map (fun pt => pt.date)).Pairwise
      (fun a b => a < b) ∧
    (∀ pt ∈ calculateTrendData caseBlindCompare (some trendSample), pt.date = "2024-01-15" →
      pt.total_inspections = 2 ∧ pt.compliance_rate = 85) := by
  have h := trend_data_spec caseBlindCompare trendSample (by decide)
  have hle : ∀ a b : String, (a ≤ b ↔ ¬ b.toList < a.toList) := fun a b => by
    rw [← String.lt_iff_toList_lt]
    exact not_lt.symm
  refine ⟨by decide, h.2.2.2.2.1 ?_, ?_⟩
  · intro i hi j hj
    rw [hle]
    simp only [trendSample, List.mem_cons, List.mem_singleton, List.not_mem_nil, or_false]
      at hi hj
    rcases hi with rfl | rfl | rfl <;> rcases hj with rfl | rfl | rfl <;> decide
  · intro pt hpt hd
    have h5 := h.2.2.2.2.2.2.1 pt hpt
    rw [hd] at h5
    refine ⟨h5.1.trans (by decide), h5.2.trans (by decide)⟩

/-! ## Dispatcher: unknown commands, roles, audit coverage, usernames -/

/-- C25: the dispatch of a name that the `switch` does not handle returns `null`
and does not throw.  On a store that already holds a user it leaves the whole
store as it was.  `updateInspectionMeta` dispatches `cmd_update_inspection_meta`,
which is not a handled name: it returns nothing, changes no inspection, and on a
store that holds a user changes nothing. -/
theorem unknown_command_returns_null (env : Env) (name : String) (db : DB)
    (_hname : name ∉ handledNames) :
    (fallbackInvoke env (.unknown name) db).result = .ok .null ∧
    (db.users ≠ [] → (fallbackInvoke env (.unknown name) db).db = db) ∧
    "cmd_update_inspection_meta" ∉ handledNames ∧
    (∀ (inspectionId : String) (metadata : JSVal) (session : Option Session),
      (updateInspectionMeta env inspectionId metadata session db).result = .ok .undefined ∧
      (updateInspectionMeta env inspectionId metadata session db).db.inspections
        = db.inspections ∧
      (db.users ≠ [] → (updateInspectionMeta env inspectionId metadata session db).db = db)) := by
  refine ⟨rfl, ?_, by decide, ?_⟩
  · intro h
    simp only [fallbackInvoke]
    exact initDB_of_users_ne_nil env db h
  · intro inspectionId metadata session
    refine ⟨rfl, ?_, ?_⟩
    · simp only [updateInspectionMeta, fallbackInvoke]
      exact initDB_inspections env db
    · intro h
      simp only [updateInspectionMeta, fallbackInvoke]
      exact initDB_of_users_ne_nil env db h

/-- C25 on the sample store, with the name that `updateInspectionMeta` dispatches. -/
theorem unknown_command_returns_null_witness :
    "cmd_update_inspection_meta" ∉ handledNames ∧ sampleDB.users ≠ [] ∧
    (fallbackInvoke sampleEnv (.unknown "cmd_update_inspection_meta") sampleDB).db = sampleDB :=
  ⟨by decide, by decide,
    (unknown_command_returns_null sampleEnv "cmd_update_inspection_meta" sampleDB
      (by decide)).2.1 (by decide)⟩

/-- C26: for every role value, `isAdmin`, `canManageUsers` and
`canValidateInspections` are true exactly on `admin` and `lead_inspector`, and
`canCreateInspections` is true exactly on `admin`, `lead_inspector` and
`inspector`.  Hence a role that one of the first three allows may also create
inspections, and `viewer` is allowed by none of the four. -/
theorem role_predicates (role : JSVal) :
    (isAdmin role = true ↔ role = .str "admin" ∨ role = .str "lead_inspector") ∧
    (canManageUsers role = true ↔ role = .str "admin" ∨ role = .str "lead_inspector") ∧
    (canValidateInspections role = true ↔
      role = .str "admin" ∨ role = .str "lead_inspector") ∧
    (canCreateInspections role = true ↔
      role = .str "admin" ∨ role = .str "lead_inspector" ∨ role = .str "inspector") ∧
    (isAdmin role = true ∨ canManageUsers role = true ∨ canValidateInspections role = true →
      canCreateInspections role = true) ∧
    (isAdmin (.str "viewer") = false ∧ canManageUsers (.str "viewer") = false ∧
      canValidateInspections (.str "viewer") = false ∧
      canCreateInspections (.str "viewer") = false) := by
  have h2 : ∀ r : JSVal,
      includesStr ["admin", "lead_inspector"] r = true ↔
        r = .str "admin" ∨ r = .str "lead_inspector" := by
    intro r
    cases r <;> simp [includesStr]
  have h3 : ∀ r : JSVal,
      includesStr ["admin", "lead_inspector", "inspector"] r = true ↔
        r = .str "admin" ∨ r = .str "lead_inspector" ∨ r = .str "inspector" := by
    intro r
    cases r <;> simp [includesStr]
  refine ⟨h2 role, h2 role, h2 role, h3 role, ?_, by decide⟩
  intro h
  have : role = .str "admin" ∨ role = .str "lead_inspector" := by
    rcases h with h | h | h <;> exact (h2 role).1 h
  exact (h3 role).2 (by tauto)

/-- C26 on the role `lead_inspector`, which `isAdmin` allows and which may
therefore create inspections. -/
theorem role_predicates_witness :
    isAdmin (.str "lead_inspector") = true ∧
    canCreateInspections (.str "lead_inspector") = true :=
  ⟨by decide, (role_predicates (.str "lead_inspector")).2.2.2.2.1 (Or.inl (by decide))⟩

/-- C21, amended: for every store (a seeded one in particular) and every call
of the dispatcher, the audit log afterwards is the log before with exactly one
entry prepended when the call is a `cmd_login` that succeeds, a
`cmd_create_user`, a `cmd_create_inspection` or a `cmd_set_inspection_status`,
and it is the log before, unchanged, for every other call: `cmd_logout`,
`cmd_update_user`, `cmd_change_password`, `cmd_delete_user`,
`cmd_save_response` and `cmd_delete_inspection` write no audit entry. -/
theorem audit_only_on_logging_commands (env : Env) (cmd : Cmd) (db : DB) :
    (writesAudit env cmd db = true →
      ∃ e : AuditEntry, (fallbackInvoke env cmd db).db.audit = e :: db.audit) ∧
    (writesAudit env cmd db = false → (fallbackInvoke env cmd db).db.audit = db.audit) := by
  cases cmd with
  | cmd_login username password =>
    simp only [writesAudit, fallbackInvoke, cmd_login]
    cases jsFind (fun x => x.username == username && x.password == password && x.active)
        (initDB env db).users with
    | none => simp [Outcome.succeeded, initDB_audit]
    | some u => simp [Outcome.succeeded, addAuditLog, initDB_audit]
  | cmd_create_user req =>
    simp [writesAudit, fallbackInvoke, cmd_create_user, addAuditLog, initDB_audit]
  | cmd_create_inspection req session =>
    simp [writesAudit, fallbackInvoke, cmd_create_inspection, addAuditLog, initDB_audit]
  | cmd_set_inspection_status inspectionId status session =>
    simp [writesAudit, fallbackInvoke, cmd_set_inspection_status, addAuditLog, initDB_audit]
  | cmd_validate_session token =>
    simp only [writesAudit, fallbackInvoke, cmd_validate_session]
    refine ⟨by simp, fun _ => ?_⟩
    split
    · exact initDB_audit env db
    · split
      · exact initDB_audit env db
      · split
        · exact initDB_audit env db
        · split <;> exact initDB_audit env db
  | get_grid gridId =>
    simp only [writesAudit, fallbackInvoke, get_grid]
    refine ⟨by simp, fun _ => ?_⟩
    split <;> exact initDB_audit env db
  | cmd_get_inspection inspectionId =>
    simp only [writesAudit, fallbackInvoke, cmd_get_inspection]
    refine ⟨by simp, fun _ => ?_⟩
    split <;> exact initDB_audit env db
  | list_grids => simp [writesAudit, fallbackInvoke, list_grids, initDB_audit]
  | cmd_logout token => simp [writesAudit, fallbackInvoke, cmd_logout, initDB_audit]
  | cmd_list_users => simp [writesAudit, fallbackInvoke, cmd_list_users, initDB_audit]
  | cmd_update_user userId req =>
    simp [writesAudit, fallbackInvoke, cmd_update_user, initDB_audit]
  | cmd_change_password userId newPassword =>
    simp [writesAudit, fallbackInvoke, cmd_change_password, initDB_audit]
  | cmd_delete_user userId => simp [writesAudit, fallbackInvoke, cmd_delete_user, initDB_audit]
  | cmd_list_inspections myOnly status session =>
    simp [writesAudit, fallbackInvoke, cmd_list_inspections, initDB_audit]
  | cmd_get_responses inspectionId =>
    simp [writesAudit, fallbackInvoke, cmd_get_responses, initDB_audit]
  | cmd_save_response inspectionId criterionId conforme observation session =>
    simp [writesAudit, fallbackInvoke, cmd_save_response, initDB_audit]
  | cmd_delete_inspection inspectionId =>
    simp [writesAudit, fallbackInvoke, cmd_delete_inspection, initDB_audit]
  | cmd_query_audit filter => simp [writesAudit, fallbackInvoke, cmd_query_audit, initDB_audit]
  | cmd_count_audit => simp [writesAudit, fallbackInvoke, initDB_audit]
  | unknown name => simp [writesAudit, fallbackInvoke, initDB_audit]

/-- C21, amended, on the sample store: creating a user prepends an audit entry,
deactivating one does not. -/
theorem audit_only_on_logging_commands_witness :
    (writesAudit sampleEnv (.cmd_create_user bobReq) sampleDB = true ∧
      ∃ e : AuditEntry,
        (fallbackInvoke sampleEnv (.cmd_create_user bobReq) sampleDB).db.audit
          = e :: sampleDB.audit) ∧
    (writesAudit sampleEnv (.cmd_delete_user "uuid-0001") sampleDB = false ∧
      (fallbackInvoke sampleEnv (.cmd_delete_user "uuid-0001") sampleDB).db.audit
        = sampleDB.audit) :=
  ⟨⟨by decide,
    (audit_only_on_logging_commands sampleEnv (.cmd_create_user bobReq) sampleDB).1 (by decide)⟩,
   ⟨by decide,
    (audit_only_on_logging_commands sampleEnv (.cmd_delete_user "uuid-0001") sampleDB).2
      (by decide)⟩⟩

/-- C21 as written fails: on a store whose only user is active, `cmd_delete_user`
on that user changes the users (the active flag is cleared) and the audit log
has as many entries afterwards as before. -/
theorem delete_user_writes_no_audit :
    (fallbackInvoke sampleEnv (.cmd_delete_user "uuid-0001") sampleDB).db.users
      ≠ sampleDB.users ∧
    (fallbackInvoke sampleEnv (.cmd_delete_user "uuid-0001") sampleDB).db.audit.length
      = sampleDB.audit.length := by
  decide

/-- C22 at the failing input: `sampleUser` has username `alice` and full name
`Alice Martin`.  The audit entry that `cmd_create_inspection` prepends on behalf
of that user carries the full name in its `username` field, where the entries of
`cmd_set_inspection_status` and `cmd_login` for the same user carry the
username.  Actor id, entity type and entity id are as the claim says in all
three. -/
theorem create_inspection_logs_full_name :
    sampleUser.username = "alice" ∧ sampleUser.full_name = "Alice Martin" ∧
    (fallbackInvoke sampleEnv (.cmd_create_inspection sampleReq (some sampleSession))
        sampleDB).db.audit.map (fun e => (e.user_id, e.username, e.entity_type, e.entity_id))
      = [(.str "uuid-0001", .str "Alice Martin", "inspection", "uuid-0002")] ∧
    (fallbackInvoke sampleEnv (.cmd_set_inspection_status "insp-0001" "completed"
        (some sampleSession)) sampleInspDB).db.audit.map
        (fun e => (e.user_id, e.username, e.entity_type, e.entity_id))
      = [(.str "uuid-0001", .str "alice", "inspection", "insp-0001")] ∧
    (fallbackInvoke sampleEnv (.cmd_login "alice" "s3cret") sampleDB).db.audit.map
        (fun e => (e.user_id, e.username, e.entity_type, e.entity_id))
      = [(.str "uuid-0001", .str "alice", "session", "uuid-0002")] := by
  decide

theorem audit_actor_fields (env : Env) (db : DB) :
    (∀ (username password : String) (s : Session),
      (fallbackInvoke env (.cmd_login username password) db).result = .ok (.session s) →
      ∃ e : AuditEntry,
        (fallbackInvoke env (.cmd_login username password) db).db.audit = e :: db.audit ∧
        e.user_id = .str s.user.id ∧ e.username = .str s.user.username ∧
        e.entity_type = "session" ∧ e.entity_id = s.token) ∧
    (∀ (inspectionId status : String) (session : Option Session),
      ∃ e : AuditEntry,
        (fallbackInvoke env (.cmd_set_inspection_status inspectionId status session) db).db.audit
          = e :: db.audit ∧
        e.user_id = ofOptional (sessionUserId session) ∧
        e.username = ofOptional (sessionUsername session) ∧
        e.entity_type = "inspection" ∧ e.entity_id = inspectionId) ∧
    (∀ (req : CreateInspectionReq) (session : Option Session),
      ∃ e : AuditEntry,
        (fallbackInvoke env (.cmd_create_inspection req session) db).db.audit
          = e :: db.audit ∧
        e.user_id = ofNullable (orNull (sessionUserId session)) ∧
        e.username = ofNullable (orNull (sessionFullName session)) ∧
        e.entity_type = "inspection" ∧
        (fallbackInvoke env (.cmd_create_inspection req session) db).result
          = .ok (.id e.entity_id)) := by
  refine ⟨?_, ?_, ?_⟩
  · intro username password s hs
    simp only [fallbackInvoke, cmd_login] at hs ⊢
    cases hf : jsFind (fun x => x.username == username && x.password == password && x.active)
        (initDB env db).users with
    | none => simp [hf] at hs
    | some u =>
      simp only [hf, Except.ok.injEq, Ret.session.injEq] at hs
      subst hs
      simp only [addAuditLog, initDB_audit]
      exact ⟨_, rfl, rfl, rfl, rfl, rfl⟩
  · intro inspectionId status session
    simp only [fallbackInvoke, cmd_set_inspection_status, addAuditLog, initDB_audit]
    exact ⟨_, rfl, rfl, rfl, rfl, rfl⟩
  · intro req session
    simp only [fallbackInvoke, cmd_create_inspection, addAuditLog, initDB_audit]
    exact ⟨_, rfl, rfl, rfl, rfl, rfl⟩

theorem map_username_updateFirst (p : User → Bool) (f : User → User)
    (hf : ∀ u, (f u).username = u.username) (l : List User) :
    (updateFirst p f l).map (fun u => u.username) = l.map (fun u => u.username) := by
  induction l with
  | nil => rfl
  | cons x xs ih =>
    unfold updateFirst
    split
    · simp [hf]
    · simp [ih]

theorem usernames_step (env : Env) (cmd : Cmd) (db : DB) :
    usernames (fallbackInvoke env cmd db).db
      = usernames (initDB env db) ++
        (match cmd with
         | .cmd_create_user req => [req.username]
         | _ => []) := by
  cases cmd with
  | cmd_login username password =>
    simp only [fallbackInvoke, cmd_login, usernames]
    cases jsFind (fun x => x.username == username && x.password == password && x.active)
        (initDB env db).users with
    | none => simp
    | some u => simp [addAuditLog]
  | cmd_create_user req => simp [fallbackInvoke, cmd_create_user, addAuditLog, usernames]
  | cmd_create_inspection req session =>
    simp [fallbackInvoke, cmd_create_inspection, addAuditLog, usernames]
  | cmd_set_inspection_status inspectionId status session =>
    simp [fallbackInvoke, cmd_set_inspection_status, addAuditLog, usernames]
  | cmd_validate_session token =>
    simp only [fallbackInvoke, cmd_validate_session, usernames, List.append_nil]
    split
    · rfl
    · split
      · rfl
      · split
        · rfl
        · split <;> rfl
  | get_grid gridId =>
    simp only [fallbackInvoke, get_grid, usernames, List.append_nil]
    split <;> rfl
  | cmd_get_inspection inspectionId =>
    simp only [fallbackInvoke, cmd_get_inspection, usernames, List.append_nil]
    split <;> rfl
  | list_grids => simp [fallbackInvoke, list_grids, usernames]
  | cmd_logout token => simp [fallbackInvoke, cmd_logout, usernames]
  | cmd_list_users => simp [fallbackInvoke, cmd_list_users, usernames]
  | cmd_update_user userId req =>
    simp only [fallbackInvoke, cmd_update_user, usernames, List.append_nil]
    apply map_username_updateFirst
    intro u
    rfl
  | cmd_change_password userId newPassword =>
    simp only [fallbackInvoke, cmd_change_password, usernames, List.append_nil]
    apply map_username_updateFirst
    intro u
    rfl
  | cmd_delete_user userId =>
    simp only [fallbackInvoke, cmd_delete_user, usernames, List.append_nil]
    apply map_username_updateFirst
    intro u
    rfl
  | cmd_list_inspections myOnly status session =>
    simp [fallbackInvoke, cmd_list_inspections, usernames]
  | cmd_get_responses inspectionId => simp [fallbackInvoke, cmd_get_responses, usernames]
  | cmd_save_response inspectionId criterionId conforme observation session =>
    simp [fallbackInvoke, cmd_save_response, usernames]
  | cmd_delete_inspection inspectionId =>
    simp [fallbackInvoke, cmd_delete_inspection, usernames]
  | cmd_query_audit filter => simp [fallbackInvoke, cmd_query_audit, usernames]
  | cmd_count_audit => simp [fallbackInvoke, usernames]
  | unknown name => simp [fallbackInvoke, usernames]

theorem usernames_initDB_nodup (env : Env) (db : DB) (h : (usernames db).Nodup) :
    (usernames (initDB env db)).Nodup := by
  unfold initDB
  split
  · rename_i h0
    have : db.users = [] := List.length_eq_zero.1 h0
    simp [usernames, this]
  · exact h

theorem usernames_run_nodup (c : Call) (db : DB) (h : (usernames db).Nodup)
    (hc : c.freshUsername db = true) : (usernames (c.run db)).Nodup := by
  have h1 := usernames_initDB_nodup c.env db h
  unfold Call.run
  rw [usernames_step]
  unfold Call.freshUsername at hc
  cases hcmd : c.cmd with
  | cmd_create_user req =>
    rw [hcmd] at hc
    simp only [Bool.not_eq_true', List.contains_eq_any_beq, List.any_eq_false, beq_iff_eq] at hc
    rw [List.nodup_append]
    refine ⟨h1, List.nodup_singleton _, ?_⟩
    intro a ha hb
    simp only [List.mem_singleton] at hb
    rw [hb] at ha
    exact hc _ ha rfl
  | _ => simpa using h1

theorem runCalls_usernames_nodup (calls : List Call) (db : DB) (h : (usernames db).Nodup)
    (hc : freshUsernames calls db = true) : (usernames (runCalls calls db)).Nodup := by
  induction calls generalizing db with
  | nil => exact h
  | cons c cs ih =>
    simp only [freshUsernames, Bool.and_eq_true] at hc
    exact ih (c.run db) (usernames_run_nodup c db h hc.1) hc.2

/-- C23 as written fails: one `cmd_create_user` with the username `admin` on
the empty store, which `initDB` seeds with the administrator first, gives a
store with two users named `admin`. -/
theorem duplicate_username_reachable :
    usernames (runCalls [⟨sampleEnv, .cmd_create_user adminTwinReq⟩] DB.empty)
      = ["admin", "admin"] ∧
    ¬ (usernames (runCalls [⟨sampleEnv, .cmd_create_user adminTwinReq⟩] DB.empty)).Nodup := by
  decide

/-- C23, amended: in every store reached from the empty store by a sequence of
dispatcher calls none of which creates a user under a username that the store
already holds at that point (the seeded `admin` included), no two users have the
same username.  The dispatcher itself makes no such check. -/
theorem usernames_unique (calls : List Call) (hfresh : freshUsernames calls DB.empty = true) :
    (usernames (runCalls calls DB.empty)).Nodup :=
  runCalls_usernames_nodup calls DB.empty (by simp [usernames, DB.empty]) hfresh

/-- C23, amended, on a sequence that creates `bob`, deactivates that user and
creates `carol`. -/
theorem usernames_unique_witness :
    freshUsernames [⟨sampleEnv, .cmd_create_user bobReq⟩,
      ⟨sampleEnv2, .cmd_delete_user "uuid-0002"⟩,
      ⟨sampleEnv3, .cmd_create_user { bobReq with username := "carol" }⟩] DB.empty = true ∧
    (usernames (runCalls [⟨sampleEnv, .cmd_create_user bobReq⟩,
      ⟨sampleEnv2, .cmd_delete_user "uuid-0002"⟩,
      ⟨sampleEnv3, .cmd_create_user { bobReq with username := "carol" }⟩] DB.empty)).Nodup :=
  ⟨by decide, usernames_unique _ (by decide)⟩

/-! ## Soft deletion of users -/

theorem updateFirst_of_find_none {α : Type} (p : α → Bool) (f : α → α) (l : List α)
    (h : jsFind p l = none) : updateFirst p f l = l := by
  induction l with
  | nil => rfl
  | cons x xs ih =>
    unfold jsFind at h
    rw [List.find?_cons] at h
    unfold updateFirst
    cases hp : p x with
    | true => simp [hp] at h
    | false =>
      simp only [hp] at h
      simp only [Bool.false_eq_true, if_false]
      rw [ih h]

theorem updateFirst_of_find_some {α : Type} (p : α → Bool) (f : α → α) (l : List α) (u : α)
    (h : jsFind p l = some u) :
    ∃ l1 l2 : List α, l = l1 ++ u :: l2 ∧ (∀ x ∈ l1, p x = false) ∧
      updateFirst p f l = l1 ++ f u :: l2 := by
  induction l with
  | nil => simp [jsFind] at h
  | cons x xs ih =>
    unfold jsFind at h
    rw [List.find?_cons] at h
    cases hp : p x with
    | true =>
      simp only [hp, Option.some.injEq] at h
      subst h
      refine ⟨[], xs, rfl, by simp, ?_⟩
      unfold updateFirst
      simp [hp]
    | false =>
      simp only [hp] at h
      obtain ⟨l1, l2, h1, h2, h3⟩ := ih h
      refine ⟨x :: l1, l2, by simp [h1], ?_, ?_⟩
      · intro y hy
        rcases List.mem_cons.1 hy with rfl | hy
        · exact hp
        · exact h2 y hy
      · unfold updateFirst
        simp [hp, h3]

theorem mem_listUsers (env : Env) (db : DB) (h : db.users ≠ []) (v : UserView) :
    v ∈ listUsers env db ↔ ∃ x ∈ db.users, x.active = true ∧ x.view = v := by
  simp only [listUsers, fallbackInvoke, cmd_list_users, initDB_of_users_ne_nil env db h,
    List.mem_map, List.mem_filter]
  constructor
  · rintro ⟨x, ⟨hx, ha⟩, hv⟩
    exact ⟨x, hx, ha, hv⟩
  · rintro ⟨x, hx, ha, hv⟩
    exact ⟨x, ⟨hx, ha⟩, hv⟩

theorem login_fails_of_no_match (env : Env) (db : DB) (username password : String)
    (h : db.users ≠ []) (hno : ∀ x ∈ db.users, ¬ credentialsMatch username password x) :
    (fallbackInvoke env (.cmd_login username password) db).result
      = .error "Identifiants incorrects" := by
  have hnone : jsFind (fun x => x.username == username && x.password == password && x.active)
      db.users = none := by
    rw [jsFind_credentials_none]
    rintro ⟨x, hx, hm⟩
    exact hno x hx hm
  simp only [fallbackInvoke, cmd_login, initDB_of_users_ne_nil env db h, hnone]

/-- C24 as written fails twice.  On the store that holds no user,
`cmd_delete_user` leaves one user where there was none, the administrator that
`initDB` seeds.  On a store with two active users of the same username and
password, after `cmd_delete_user` on the first of them the login with that
username and password still succeeds, as the second user. -/
theorem delete_user_seeds_and_twin_logs_in :
    DB.empty.users.length = 0 ∧
    (fallbackInvoke sampleEnv (.cmd_delete_user "uuid-0001") DB.empty).db.users.length = 1 ∧
    twinDB.users.map (fun u => (u.id, u.username, u.password, u.active))
      = [("admin-0001", "admin", "admin123", true), ("uuid-0002", "bob", "pw", true),
         ("uuid-0003", "bob", "pw", true)] ∧
    (fallbackInvoke sampleEnv3 (.cmd_login "bob" "pw")
      (fallbackInvoke sampleEnv (.cmd_delete_user "uuid-0002") twinDB).db).succeeded = true := by
  decide

/-- C24, amended: on every store that already holds a user, `cmd_delete_user`
returns `null` and leaves the users collection with the same length and order.
An id that matches no user changes nothing.  Otherwise the first user with that
id is replaced, in place, by the same record with `active` set to `false`, and
no other user and no other field changes; sessions, inspections, responses and
audit log are unchanged.  When the user ids of the store are pairwise distinct,
no user with that id is listed by `cmd_list_users` afterwards, and `cmd_login`
with the username and password of that user fails with `Identifiants incorrects`
provided no other user of the store is active with that same username and
password. -/
theorem delete_user_soft (env : Env) (db : DB) (userId : String) (hseed : db.users ≠ []) :
    (fallbackInvoke env (.cmd_delete_user userId) db).result = .ok .null ∧
    (fallbackInvoke env (.cmd_delete_user userId) db).db.users.length = db.users.length ∧
    (jsFind (fun x => x.id == userId) db.users = none →
      (fallbackInvoke env (.cmd_delete_user userId) db).db = db) ∧
    (∀ u : User, jsFind (fun x => x.id == userId) db.users = some u →
      ∃ l1 l2 : List User, db.users = l1 ++ u :: l2 ∧ (∀ x ∈ l1, x.id ≠ userId) ∧
        (fallbackInvoke env (.cmd_delete_user userId) db).db.users
          = l1 ++ { u with active := false } :: l2) ∧
    ((fallbackInvoke env (.cmd_delete_user userId) db).db.sessions = db.sessions ∧
     (fallbackInvoke env (.cmd_delete_user userId) db).db.inspections = db.inspections ∧
     (fallbackInvoke env (.cmd_delete_user userId) db).db.responses = db.responses ∧
     (fallbackInvoke env (.cmd_delete_user userId) db).db.audit = db.audit) ∧
    ((db.users.map (fun u => u.id)).Nodup →
      ∀ (env2 : Env), ∀ v ∈ listUsers env2 (fallbackInvoke env (.cmd_delete_user userId) db).db,
        v.id ≠ userId) ∧
    ((db.users.map (fun u => u.id)).Nodup →
      ∀ u : User, jsFind (fun x => x.id == userId) db.users = some u →
      (∀ x ∈ db.users, x.id ≠ userId → ¬ credentialsMatch u.username u.password x) →
      ∀ (env2 : Env),
        (fallbackInvoke env2 (.cmd_login u.username u.password)
          (fallbackInvoke env (.cmd_delete_user userId) db).db).result
          = .error "Identifiants incorrects") := by
  have hinit : initDB env db = db := initDB_of_users_ne_nil env db hseed
  have hdb : (fallbackInvoke env (.cmd_delete_user userId) db).db.users
      = updateFirst (fun x => x.id == userId) (fun u => { u with active := false })
          db.users := by
    simp only [fallbackInvoke, cmd_delete_user, hinit]
  -- the users afterwards, split around the first user with that id
  have hsplit : ∀ u : User, jsFind (fun x => x.id == userId) db.users = some u →
      ∃ l1 l2 : List User, db.users = l1 ++ u :: l2 ∧ (∀ x ∈ l1, x.id ≠ userId) ∧
        (fallbackInvoke env (.cmd_delete_user userId) db).db.users
          = l1 ++ { u with active := false } :: l2 := by
    intro u hu
    obtain ⟨l1, l2, h1, h2, h3⟩ := updateFirst_of_find_some (fun x => x.id == userId)
      (fun u => { u with active := false }) db.users u hu
    refine ⟨l1, l2, h1, ?_, ?_⟩
    · intro x hx
      simpa using h2 x hx
    · rw [hdb]
      exact h3
  have hid : ∀ u : User, jsFind (fun x => x.id == userId) db.users = some u → u.id = userId := by
    intro u hu
    have := List.find?_some hu
    simpa using this
  -- every user afterwards that is active is a user before whose id is not `userId`
  have hactive : (db.users.map (fun u => u.id)).Nodup →
      ∀ x ∈ (fallbackInvoke env (.cmd_delete_user userId) db).db.users, x.active = true →
        x ∈ db.users ∧ x.id ≠ userId := by
    intro hnd x hx hact
    cases hf : jsFind (fun x => x.id == userId) db.users with
    | none =>
      rw [hdb] at hx
      simp only [updateFirst_of_find_none _ _ _ hf] at hx
      refine ⟨hx, ?_⟩
      intro hxid
      have := List.find?_eq_none.1 hf x hx
      simp [hxid] at this
    | some u =>
      obtain ⟨l1, l2, h1, h2, h3⟩ := hsplit u hf
      rw [h3] at hx
      rw [h1] at hnd ⊢
      rcases List.mem_append.1 hx with hx1 | hx2
      · exact ⟨List.mem_append_left _ hx1, h2 x hx1⟩
      · rcases List.mem_cons.1 hx2 with rfl | hx3
        · simp at hact
        · refine ⟨List.mem_append_right _ (List.mem_cons_of_mem _ hx3), ?_⟩
          intro hxid
          simp only [List.map_append, List.map_cons] at hnd
          have hnd2 := (List.nodup_append.1 hnd).2.1
          rw [List.nodup_cons] at hnd2
          apply hnd2.1
          rw [hid u hf, ← hxid]
          exact List.mem_map_of_mem (fun u => u.id) hx3
  have hne : (fallbackInvoke env (.cmd_delete_user userId) db).db.users ≠ [] := by
    rw [hdb]
    intro h0
    apply hseed
    cases hu : db.users with
    | nil => rfl
    | cons x xs =>
      rw [hu] at h0
      unfold updateFirst at h0
      split at h0 <;> simp at h0
  refine ⟨rfl, ?_, ?_, hsplit, ?_, ?_, ?_⟩
  · cases hf : jsFind (fun x => x.id == userId) db.users with
    | none =>
      rw [hdb]
      simp only [updateFirst_of_find_none _ _ _ hf]
    | some u =>
      obtain ⟨l1, l2, h1, _, h3⟩ := hsplit u hf
      rw [h3, h1]
      simp
  · intro hf
    simp only [fallbackInvoke, cmd_delete_user, hinit, updateFirst_of_find_none _ _ _ hf]
  · simp [fallbackInvoke, cmd_delete_user, hinit]
  · intro hnd env2 v hv
    obtain ⟨x, hx, hact, rfl⟩ := (mem_listUsers env2 _ hne v).1 hv
    exact (hactive hnd x hx hact).2
  · intro hnd u hu hothers env2
    apply login_fails_of_no_match env2 _ _ _ hne
    intro x hx hm
    have := hactive hnd x hx hm.2.2
    exact hothers x this.1 this.2 hm

/-- C24, amended, on the sample store: its user is deactivated in place and no
longer listed. -/
theorem delete_user_soft_witness :
    sampleDB.users ≠ [] ∧
    (fallbackInvoke sampleEnv (.cmd_delete_user "uuid-0001") sampleDB).db.users
      = [] ++ { sampleUser with active := false } :: [] ∧
    listUsers sampleEnv2 (fallbackInvoke sampleEnv (.cmd_delete_user "uuid-0001") sampleDB).db
      = [] ∧
    (fallbackInvoke sampleEnv (.cmd_delete_user "uuid-0001") sampleDB).db.users.length
      = sampleDB.users.length :=
  ⟨by decide, by decide, by decide,
    (delete_user_soft sampleEnv sampleDB "uuid-0001" (by decide)).2.1⟩

/-! ## Wrappers of `auth.js` -/

theorem dropWhile_reverse_dropWhile_eq_nil {α : Type} (p : α → Bool) (l : List α) :
    ((l.dropWhile p).reverse.dropWhile p) = [] ↔ l.all p = true := by
  constructor
  · intro h
    rw [List.dropWhile_eq_nil_iff] at h
    cases hd : l.dropWhile p with
    | nil =>
      rw [List.dropWhile_eq_nil_iff] at hd
      simpa using hd
    | cons x xs =>
      exfalso
      have hx : p x = true := h x (by simp [hd])
      have := List.head_dropWhile_not p l (by simp [hd])
      simp [hd, hx] at this
  · intro h
    have : l.dropWhile p = [] := by
      rw [List.dropWhile_eq_nil_iff]
      simpa using h
    simp [this]

theorem jsTrim_falsy_iff (u : String) :
    strTruthy (jsTrim u) = false ↔ u.data.all jsWhiteSpace = true := by
  rw [← dropWhile_reverse_dropWhile_eq_nil]
  unfold strTruthy jsTrim
  generalize (List.dropWhile jsWhiteSpace u.data).reverse.dropWhile jsWhiteSpace = l
  cases l with
  | nil => simp
  | cons x xs =>
    simp only [List.reverse_cons, bne_eq_false_iff_eq, reduceCtorEq, iff_false]
    intro h
    have := congrArg String.data h
    simp at this

theorem login_blank (env : Env) (db : DB) (username password : Option String) :
    (isBlank username = true →
      login env username password db = ⟨db, .error usernameRequired⟩) ∧
    (isBlank username = false → ∃ u, username = some u ∧
      login env username password db =
        match password with
        | none => ⟨db, .error "Mot de passe requis"⟩
        | some p =>
          if p = "" then ⟨db, .error "Mot de passe requis"⟩
          else fallbackInvoke env (.cmd_login u p) db) := by
  cases username with
  | none => simp [isBlank, login]
  | some u =>
    have key := jsTrim_falsy_iff u
    constructor
    · intro hb
      simp only [isBlank] at hb
      have h1 := key.2 hb
      simp [login, h1]
    · intro hb
      simp only [isBlank] at hb
      have h1 : strTruthy (jsTrim u) = true := by
        cases h : strTruthy (jsTrim u) with
        | true => rfl
        | false => rw [key.1 h] at hb; cases hb
      have h0 : strTruthy u = true := by
        cases h : strTruthy u with
        | true => rfl
        | false =>
          have : u = "" := by simpa [strTruthy] using h
          subst this
          simp at hb
      refine ⟨u, rfl, ?_⟩
      cases password with
      | none => simp [login, h0, h1]
      | some p =>
        by_cases hp : p = ""
        · subst hp
          have hp2 : strTruthy "" = false := by decide
          simp [login, h0, h1, hp2]
        · have hp2 : strTruthy p = true := by simp [strTruthy, hp]
          simp [login, h0, h1, hp, hp2]

/-- C27: `login` fails with the missing-username error when the username is
absent, empty or only white space, whatever the password; it fails with
`Mot de passe requis` when the username is none of these and the password is
absent or empty; otherwise it is the dispatch of `cmd_login`, result and store.
`logout` and `validateSession` fail with `Token requis` for an absent or empty
token, and dispatch `cmd_logout` and `cmd_validate_session` otherwise.  In every
rejected case the store is the one the wrapper was called on. -/
theorem auth_wrappers_prevalidate (env : Env) (db : DB) (username password token : Option String) :
    (isBlank username = true →
      login env username password db = ⟨db, .error usernameRequired⟩) ∧
    (isBlank username = false → (password = none ∨ password = some "") →
      login env username password db = ⟨db, .error "Mot de passe requis"⟩) ∧
    (∀ u p : String, username = some u → password = some p → isBlank username = false →
      p ≠ "" → login env username password db = fallbackInvoke env (.cmd_login u p) db) ∧
    ((token = none ∨ token = some "") →
      logout env token db = ⟨db, .error "Token requis"⟩ ∧
      validateSession env token db = ⟨db, .error "Token requis"⟩) ∧
    (∀ t : String, token = some t → t ≠ "" →
      validateSession env token db = fallbackInvoke env (.cmd_validate_session t) db ∧
      (logout env token db).db = (fallbackInvoke env (.cmd_logout t) db).db ∧
      (logout env token db).result = .ok .undefined) := by
  refine ⟨(login_blank env db username password).1, ?_, ?_, ?_, ?_⟩
  · intro hb hp
    obtain ⟨u, _, h⟩ := (login_blank env db username password).2 hb
    rw [h]
    rcases hp with rfl | rfl <;> simp
  · intro u p hu hp hb hne
    obtain ⟨u2, hu2, h⟩ := (login_blank env db username password).2 hb
    rw [h]
    rw [hu] at hu2
    cases hu2
    subst hp
    simp [hne]
  · intro ht
    rcases ht with rfl | rfl <;> exact ⟨by simp [logout, strTruthy], by simp [validateSession, strTruthy]⟩
  · intro t ht hne
    subst ht
    have h1 : strTruthy t = true := by simpa [strTruthy] using hne
    refine ⟨by simp [validateSession, h1], ?_, ?_⟩
    · simp [logout, h1, fallbackInvoke, cmd_logout]
    · simp [logout, h1, fallbackInvoke, cmd_logout]

/-- C27 on the empty store: a white-space username, an empty password and an
absent token are rejected, and the store stays empty (no administrator is
seeded). -/
theorem auth_wrappers_prevalidate_witness :
    (isBlank (some " \t") = true ∧
      login sampleEnv (some " \t") (some "admin123") DB.empty
        = ⟨DB.empty, .error usernameRequired⟩) ∧
    (isBlank (some "admin") = false ∧
      login sampleEnv (some "admin") (some "") DB.empty
        = ⟨DB.empty, .error "Mot de passe requis"⟩) ∧
    (logout sampleEnv none DB.empty = ⟨DB.empty, .error "Token requis"⟩ ∧
      validateSession sampleEnv none DB.empty = ⟨DB.empty, .error "Token requis"⟩) :=
  ⟨⟨by decide, (auth_wrappers_prevalidate sampleEnv DB.empty (some " \t") (some "admin123")
      none).1 (by decide)⟩,
   ⟨by decide, (auth_wrappers_prevalidate sampleEnv DB.empty (some "admin") (some "")
      none).2.1 (by decide) (Or.inr rfl)⟩,
   (auth_wrappers_prevalidate sampleEnv DB.empty none none none).2.2.2.1 (Or.inl rfl)⟩

/-! ## Export -/

/-- C30: `exportToCSV` of an absent or empty list is the empty text, not a
header line; `exportToJSON` of an absent or empty list is the text `[]`, two
characters long; `exportInspectionReport` of a `null` inspection is the text
`{}`. -/
theorem empty_exports (gridMap : StrMap GridInfo) (responses : StrMap Json)
    (reportResponses : Option Json) :
    exportToCSV none gridMap = "" ∧ exportToCSV (some []) gridMap = "" ∧
    exportToJSON none responses = "[]" ∧ exportToJSON (some []) responses = "[]" ∧
    "[]".length = 2 ∧
    exportInspectionReport none reportResponses = "\x7b\x7d" := by
  refine ⟨rfl, rfl, ?_, ?_, by decide, ?_⟩
  · show Json.render "" (.arr []) = "[]"
    decide
  · show Json.render "" (.arr []) = "[]"
    decide
  · show Json.render "" (.obj []) = "\x7b\x7d"
    decide

/-- C28 at the failing input: the inspection of the export tests with the
establishment `Pharmacy "ABC" & Co` and the date `January 15, 2024`.  The
establishment is emitted wrapped in double quotes with its quotes doubled, and
so is the inspector list, which holds a comma; the date, which holds a comma
too, is emitted as it is, where `escapeCSV` would have wrapped it. -/
theorem csv_date_not_escaped :
    csvRow mockGridMap commaInspection
      = [ String.mk (dquote :: "Pharmacy ".data ++ dquote :: dquote :: "ABC".data ++
            dquote :: dquote :: " & Co".data ++ [dquote]),
          "Pharmacie",
          String.mk (dquote :: "Inspector 1, Inspector 2".data ++ [dquote]),
          "January 15, 2024", "Terminée", "100", "80", "60", "20", "75%" ] ∧
    "January 15, 2024".data.contains ',' = true ∧
    escapeCSV (.str "January 15, 2024")
      = String.mk (dquote :: "January 15, 2024".data ++ [dquote]) := by
  decide

/-! ### Texts joined and split -/

theorem intercalate_cons_flatMap {α : Type} (sep a : List α) (as : List (List α)) :
    List.intercalate sep (a :: as) = a ++ as.flatMap (fun x => sep ++ x) := by
  induction as generalizing a with
  | nil => simp [List.intercalate]
  | cons b bs ih =>
    have h := ih b
    simp only [List.intercalate, List.intersperse_cons_cons, List.flatten_cons,
      List.flatMap_cons] at h ⊢
    rw [h]
    simp

theorem data_intercalate_go (acc sep : String) (as : List String) :
    (String.intercalate.go acc sep as).data
      = acc.data ++ (as.map String.data).flatMap (fun x => sep.data ++ x) := by
  induction as generalizing acc with
  | nil => simp [String.intercalate.go]
  | cons a as ih =>
    simp only [String.intercalate.go, ih, String.data_append, List.map_cons, List.flatMap_cons,
      List.append_assoc]

theorem data_intercalate (sep : String) (l : List String) :
    (String.intercalate sep l).data = List.intercalate sep.data (l.map String.data) := by
  cases l with
  | nil => simp [String.intercalate, List.intercalate]
  | cons a as =>
    simp only [String.intercalate, List.map_cons, intercalate_cons_flatMap, data_intercalate_go]

theorem mem_intercalate {α : Type} (c : α) (sep : List α) (l : List (List α))
    (h : c ∈ List.intercalate sep l) : c ∈ sep ∨ ∃ p ∈ l, c ∈ p := by
  cases l with
  | nil => simp [List.intercalate] at h
  | cons a as =>
    rw [intercalate_cons_flatMap] at h
    rcases List.mem_append.1 h with h | h
    · exact Or.inr ⟨a, List.mem_cons_self _ _, h⟩
    · rw [List.mem_flatMap] at h
      obtain ⟨x, hx, hc⟩ := h
      rcases List.mem_append.1 hc with hc | hc
      · exact Or.inl hc
      · exact Or.inr ⟨x, List.mem_cons_of_mem _ hx, hc⟩

theorem intercalate_eq_append_last {α : Type} (sep : List α) (l : List (List α)) (p : List α)
    (hl : l.getLast? = some p) : ∃ pre : List α, List.intercalate sep l = pre ++ p := by
  induction l with
  | nil => simp at hl
  | cons a as ih =>
    cases as with
    | nil =>
      simp only [List.getLast?_singleton, Option.some.injEq] at hl
      subst hl
      exact ⟨[], by simp [List.intercalate]⟩
    | cons b bs =>
      have hl2 : (b :: bs).getLast? = some p := by simpa [List.getLast?_cons_cons] using hl
      obtain ⟨pre, h⟩ := ih hl2
      refine ⟨a ++ sep ++ pre, ?_⟩
      rw [intercalate_cons_flatMap] at h ⊢
      rw [List.flatMap_cons]
      simp only [List.append_assoc]
      rw [h]

theorem intercalate_getLast {α : Type} (sep : List α) (l : List (List α)) (p : List α) (c : α)
    (hl : l.getLast? = some p) (hp : p.getLast? = some c) :
    (List.intercalate sep l).getLast? = some c := by
  obtain ⟨pre, h⟩ := intercalate_eq_append_last sep l p hl
  rw [h, List.getLast?_append, hp]
  rfl

/-! ### Line feeds in the fields of a row -/

theorem mem_toDigitsCore (fuel n : Nat) (ds : List Char) (c : Char)
    (h : c ∈ Nat.toDigitsCore 10 fuel n ds) : c ∈ ds ∨ ∃ d, d < 10 ∧ c = Nat.digitChar d := by
  induction fuel generalizing n ds with
  | zero => exact Or.inl (by simpa [Nat.toDigitsCore] using h)
  | succ fuel ih =>
    simp only [Nat.toDigitsCore] at h
    split at h
    · rcases List.mem_cons.1 h with h | h
      · exact Or.inr ⟨n % 10, Nat.mod_lt _ (by decide), h⟩
      · exact Or.inl h
    · rcases ih _ _ h with h | h
      · rcases List.mem_cons.1 h with h | h
        · exact Or.inr ⟨n % 10, Nat.mod_lt _ (by decide), h⟩
        · exact Or.inl h
      · exact Or.inr h

theorem noLineFeed_toString (n : Nat) : NoLineFeed (toString n) := by
  intro h
  have h2 : lineFeed ∈ Nat.toDigitsCore 10 (n + 1) n [] := h
  rcases mem_toDigitsCore _ _ _ _ h2 with h3 | ⟨d, hd, h3⟩
  · simp at h3
  · have : ∀ d, d < 10 → lineFeed ≠ Nat.digitChar d := by decide
    exact this d hd h3

theorem noLineFeed_append (a b : String) (ha : NoLineFeed a) (hb : NoLineFeed b) :
    NoLineFeed (a ++ b) := by
  unfold NoLineFeed at *
  simp [String.data_append, ha, hb]

theorem noLineFeed_intercalate (sep : String) (l : List String) (hsep : NoLineFeed sep)
    (hl : ∀ x ∈ l, NoLineFeed x) : NoLineFeed (String.intercalate sep l) := by
  intro h
  rw [data_intercalate] at h
  rcases mem_intercalate _ _ _ h with h | ⟨p, hp, h⟩
  · exact hsep h
  · obtain ⟨x, hx, rfl⟩ := List.mem_map.1 hp
    exact hl x hx h

theorem escapeCSV_str (s : String) :
    ((',' ∈ s.data ∨ dquote ∈ s.data ∨ lineFeed ∈ s.data) →
      escapeCSV (.str s) = String.mk (dquote :: doubleQuotes s.data ++ [dquote])) ∧
    (¬ (',' ∈ s.data ∨ dquote ∈ s.data ∨ lineFeed ∈ s.data) → escapeCSV (.str s) = s) := by
  have hiff : (s.data.contains ',' || s.data.contains dquote || s.data.contains lineFeed) = true
      ↔ (',' ∈ s.data ∨ dquote ∈ s.data ∨ lineFeed ∈ s.data) := by
    simp [or_assoc]
  constructor
  · intro h
    simp only [escapeCSV, jsToString, hiff.2 h, if_true]
  · intro h
    have hf : (s.data.contains ',' || s.data.contains dquote || s.data.contains lineFeed)
        = false := by
      cases hc : (s.data.contains ',' || s.data.contains dquote || s.data.contains lineFeed) with
      | false => rfl
      | true => exact absurd (hiff.1 hc) h
    simp only [escapeCSV, jsToString, hf, Bool.false_eq_true, if_false]

theorem noLineFeed_escapeCSV (s : String) (h : NoLineFeed s) : NoLineFeed (escapeCSV (.str s)) := by
  by_cases hs : ',' ∈ s.data ∨ dquote ∈ s.data ∨ lineFeed ∈ s.data
  · rw [(escapeCSV_str s).1 hs]
    intro hmem
    simp only [List.cons_append, List.mem_cons, List.mem_append, List.mem_singleton] at hmem
    have hne : lineFeed ≠ dquote := by decide
    rcases hmem with hmem | hmem | hmem
    · exact hne hmem
    · simp only [doubleQuotes, List.mem_flatMap] at hmem
      obtain ⟨c, hc, hmem⟩ := hmem
      split at hmem
      · simp only [List.mem_cons, List.not_mem_nil, or_false, or_self] at hmem
        exact hne hmem
      · simp only [List.mem_singleton] at hmem
        exact h (hmem ▸ hc)
    · have h2 : lineFeed = dquote := by simpa using hmem
      exact hne h2
  · rw [(escapeCSV_str s).2 hs]
    exact h

theorem noLineFeed_getStatusLabel (status : String) (h : NoLineFeed status) :
    NoLineFeed (getStatusLabel status) := by
  unfold getStatusLabel
  split
  · unfold NoLineFeed; decide
  · split
    · unfold NoLineFeed; decide
    · split
      · unfold NoLineFeed; decide
      · split
        · unfold NoLineFeed; decide
        · split
          · unfold NoLineFeed; decide
          · exact h

theorem noLineFeed_csvRow (gridMap : StrMap GridInfo) (insp : ExportInspection)
    (h : CleanFields gridMap insp) :
    NoLineFeed (String.intercalate "," (csvRow gridMap insp)) := by
  obtain ⟨h1, h2, h3, h4, h5⟩ := h
  apply noLineFeed_intercalate
  · unfold NoLineFeed; decide
  · intro x hx
    simp only [csvRow, List.mem_cons, List.mem_singleton, List.not_mem_nil, or_false] at hx
    rcases hx with rfl | rfl | rfl | rfl | rfl | rfl | rfl | rfl | rfl | rfl
    · exact noLineFeed_escapeCSV _ h1
    · exact noLineFeed_escapeCSV _ h2
    · apply noLineFeed_escapeCSV
      apply noLineFeed_intercalate _ _ _ h3
      unfold NoLineFeed; decide
    · exact h4
    · exact noLineFeed_getStatusLabel _ h5
    · exact noLineFeed_toString _
    · exact noLineFeed_toString _
    · exact noLineFeed_toString _
    · exact noLineFeed_toString _
    · apply noLineFeed_append _ _ (noLineFeed_toString _)
      unfold NoLineFeed; decide

theorem csvRow_last_char (gridMap : StrMap GridInfo) (insp : ExportInspection) :
    (String.intercalate "," (csvRow gridMap insp)).data.getLast? = some '%' := by
  rw [data_intercalate]
  apply intercalate_getLast _ _
    (toString (exportComplianceRate (progressOrZero insp.progress)) ++ "%").data
  · simp [csvRow]
  · simp [String.data_append]

/-- C29: for a non-empty list of `n` inspections whose texts hold no line
feed, the text that `exportToCSV` returns splits at its line feeds into exactly
`n + 1` lines and ends with the `%` of the last row, not with a line feed.  The
first line is the ten French column names joined by commas, and line `k + 1` is
the row of the `k`-th inspection of the list, ten fields joined by commas.  The
second field of a row is `escapeCSV` applied to the name that the grid map holds
for the grid id, or to the grid id itself when the map has no entry. -/
theorem csv_layout (l : List ExportInspection) (gridMap : StrMap GridInfo) (hne : l ≠ [])
    (hclean : ∀ insp ∈ l, CleanFields gridMap insp) :
    linesOf (exportToCSV (some l) gridMap)
      = String.intercalate "," csvHeaders
          :: l.map (fun insp => String.intercalate "," (csvRow gridMap insp)) ∧
    (linesOf (exportToCSV (some l) gridMap)).length = l.length + 1 ∧
    exportToCSV (some l) gridMap
      = String.intercalate "\n" (String.intercalate "," csvHeaders
          :: l.map (fun insp => String.intercalate "," (csvRow gridMap insp))) ∧
    (exportToCSV (some l) gridMap).data.getLast? = some '%' ∧
    String.intercalate "," csvHeaders
      = "Établissement,Grille,Inspecteur(s),Date,Statut,Total critères,Réponses,Conforme,Non-conforme,% Conformité" ∧
    (∀ insp ∈ l, (csvRow gridMap insp).length = 10 ∧
      ((gridMap insp.grid_id = none →
          (csvRow gridMap insp).get? 1 = some (escapeCSV (.str insp.grid_id))) ∧
       (∀ grid : GridInfo, gridMap insp.grid_id = some grid →
          (csvRow gridMap insp).get? 1 = some (escapeCSV (.str grid.name))))) := by
  have hlen : l.length ≠ 0 := by simpa using hne
  have hcsv : exportToCSV (some l) gridMap
      = String.intercalate "\n" (String.intercalate "," csvHeaders
          :: l.map (fun insp => String.intercalate "," (csvRow gridMap insp))) := by
    simp [exportToCSV, hlen, List.map_map, Function.comp_def]
  have hlines : linesOf (exportToCSV (some l) gridMap)
      = String.intercalate "," csvHeaders
          :: l.map (fun insp => String.intercalate "," (csvRow gridMap insp)) := by
    rw [hcsv]
    unfold linesOf
    rw [data_intercalate]
    have hsep : "\n".data = [lineFeed] := by decide
    rw [hsep, List.splitOn_intercalate]
    · simp [List.map_map, Function.comp_def]
    · intro p hp
      obtain ⟨x, hx, rfl⟩ := List.mem_map.1 hp
      rcases List.mem_cons.1 hx with rfl | hx
      · decide
      · obtain ⟨insp, hi, rfl⟩ := List.mem_map.1 hx
        exact noLineFeed_csvRow gridMap insp (hclean insp hi)
    · simp
  refine ⟨hlines, ?_, hcsv, ?_, by decide, ?_⟩
  · rw [hlines]
    simp
  · rw [hcsv, data_intercalate]
    obtain ⟨last, hlast⟩ : ∃ last, l.getLast? = some last := by
      cases h : l.getLast? with
      | none => exact absurd (List.getLast?_eq_none_iff.1 h) hne
      | some x => exact ⟨x, rfl⟩
    apply intercalate_getLast _ _ (String.intercalate "," (csvRow gridMap last)).data
    · rw [List.map_cons, List.getLast?_cons]
      simp [List.getLast?_map, hlast]
    · exact csvRow_last_char gridMap last
  · intro insp _
    refine ⟨by simp [csvRow], ?_, ?_⟩
    · intro hg
      simp [csvRow, gridNameOf, hg]
    · intro grid hg
      simp [csvRow, gridNameOf, hg]

/-- C29 on the two inspections of the export tests: three lines. -/
theorem csv_layout_witness :
    [mockInspection, { mockInspection with id := "insp-2", establishment := "Pharmacy XYZ" }]
      ≠ [] ∧
    (linesOf (exportToCSV (some
      [mockInspection, { mockInspection with id := "insp-2", establishment := "Pharmacy XYZ" }])
      mockGridMap)).length = 3 :=
  ⟨by decide,
    (csv_layout
      [mockInspection, { mockInspection with id := "insp-2", establishment := "Pharmacy XYZ" }]
      mockGridMap (by decide) (by
        intro insp hi
        simp only [List.mem_cons, List.mem_singleton, List.not_mem_nil, or_false] at hi
        rcases hi with rfl | rfl <;>
          exact ⟨by unfold NoLineFeed; decide, by unfold NoLineFeed; decide,
            by unfold NoLineFeed; decide, by unfold NoLineFeed; decide,
            by unfold NoLineFeed; decide⟩)).2.1⟩

/-! ## Failed logins and orphan responses -/

/-- C40: on a store that already holds a user, a `cmd_login` that fails leaves
the whole store as it was: session mapping, audit log, users, inspections and
responses are those of before, so no token is bound and no `LOGIN` entry is
written; the call fails with `Identifiants incorrects`. -/
theorem failed_login_atomic (env : Env) (db : DB) (username password : String)
    (hseed : db.users ≠ [])
    (hfail : (fallbackInvoke env (.cmd_login username password) db).succeeded = false) :
    (fallbackInvoke env (.cmd_login username password) db).db = db ∧
    (fallbackInvoke env (.cmd_login username password) db).db.sessions = db.sessions ∧
    (fallbackInvoke env (.cmd_login username password) db).db.audit = db.audit ∧
    (fallbackInvoke env (.cmd_login username password) db).db.users = db.users ∧
    (fallbackInvoke env (.cmd_login username password) db).db.inspections = db.inspections ∧
    (fallbackInvoke env (.cmd_login username password) db).db.responses = db.responses ∧
    (fallbackInvoke env (.cmd_login username password) db).result
      = .error "Identifiants incorrects" := by
  have hinit := initDB_of_users_ne_nil env db hseed
  have hdb : (fallbackInvoke env (.cmd_login username password) db).db = db ∧
      (fallbackInvoke env (.cmd_login username password) db).result
        = .error "Identifiants incorrects" := by
    simp only [fallbackInvoke, cmd_login, hinit] at hfail ⊢
    cases hf : jsFind (fun x => x.username == username && x.password == password && x.active)
        db.users with
    | none => exact ⟨rfl, rfl⟩
    | some u => simp [hf, Outcome.succeeded] at hfail
  refine ⟨hdb.1, ?_, ?_, ?_, ?_, ?_, hdb.2⟩ <;> rw [hdb.1]

/-- C40 on the sample store with a wrong password. -/
theorem failed_login_atomic_witness :
    sampleDB.users ≠ [] ∧
    (fallbackInvoke sampleEnv (.cmd_login "alice" "wrong") sampleDB).succeeded = false ∧
    (fallbackInvoke sampleEnv (.cmd_login "alice" "wrong") sampleDB).db = sampleDB :=
  ⟨by decide, by decide,
    (failed_login_atomic sampleEnv sampleDB "alice" "wrong" (by decide) (by decide)).1⟩

/-- C39 as written fails on the store that holds no user: no inspection matches
the id, and `cmd_save_response` leaves the users changed, `initDB` having seeded
the administrator. -/
theorem save_response_seeds_empty_store :
    (∀ i ∈ DB.empty.inspections, i.id ≠ "ghost") ∧ DB.empty.users = [] ∧
    (fallbackInvoke sampleEnv (.cmd_save_response "ghost" 1 (.bool true) "" none)
      DB.empty).db.users = [seedAdmin sampleEnv] := by
  refine ⟨by simp [DB.empty], rfl, by decide⟩

/-- C39, amended: on a store that already holds a user, `cmd_save_response` for
an id that matches no stored inspection returns `null` without an error and
leaves inspections, users, sessions and audit log unchanged.  The response is
recorded all the same: a later `cmd_get_responses` for that id returns it, with
the criterion id, verdict, observation and author of the call, while no
inspection with that id is stored and `cmd_get_inspection` returns `undefined`. -/
theorem save_response_without_inspection (env : Env) (db : DB) (id : String) (crit : Nat)
    (conforme : JSVal) (obs : String) (session : Option Session) (hseed : db.users ≠ [])
    (hnone : ∀ i ∈ db.inspections, i.id ≠ id) :
    (fallbackInvoke env (.cmd_save_response id crit conforme obs session) db).result
      = .ok .null ∧
    (fallbackInvoke env (.cmd_save_response id crit conforme obs session) db).db.inspections
      = db.inspections ∧
    (fallbackInvoke env (.cmd_save_response id crit conforme obs session) db).db.users
      = db.users ∧
    (fallbackInvoke env (.cmd_save_response id crit conforme obs session) db).db.sessions
      = db.sessions ∧
    (fallbackInvoke env (.cmd_save_response id crit conforme obs session) db).db.audit
      = db.audit ∧
    (∀ env2 : Env,
      ({ criterion_id := crit, conforme := conforme, observation := obs,
         updated_by := ofOptional (sessionUserId session),
         updated_at := if strTruthy env.now1 then env.now1 else env2.now1 } : ResponseView)
        ∈ getResponses env2 id
            (fallbackInvoke env (.cmd_save_response id crit conforme obs session) db).db) ∧
    (∀ env2 : Env,
      jsFind (fun i => i.id == id)
        (fallbackInvoke env (.cmd_save_response id crit conforme obs session) db).db.inspections
        = none ∧
      (fallbackInvoke env2 (.cmd_get_inspection id)
        (fallbackInvoke env (.cmd_save_response id crit conforme obs session) db).db).result
        = .ok .undefined) := by
  have hinit := initDB_of_users_ne_nil env db hseed
  have hfind : jsFind (fun i => i.id == id) db.inspections = none := by
    simp only [jsFind, List.find?_eq_none]
    intro i hi
    simpa using hnone i hi
  have hinsp : (fallbackInvoke env (.cmd_save_response id crit conforme obs session)
      db).db.inspections = db.inspections := by
    simp only [fallbackInvoke, cmd_save_response, hinit]
    exact updateFirst_of_find_none _ _ _ hfind
  refine ⟨rfl, hinsp, ?_, ?_, ?_, ?_, ?_⟩
  · simp [fallbackInvoke, cmd_save_response, hinit]
  · simp [fallbackInvoke, cmd_save_response, hinit]
  · simp [fallbackInvoke, cmd_save_response, hinit]
  · intro env2
    rw [getResponses_eq, save_response_db]
    simp only [Option.getD_some, List.mem_map]
    refine ⟨(crit, savedResponse env conforme obs session), NumObj.mem_set_self _ _ _, ?_⟩
    simp only [responseView, savedResponse]
    congr 1
    by_cases ho : strTruthy obs = true
    · simp [ho]
    · have : obs = "" := by simpa [strTruthy] using ho
      simp [this, strTruthy]
  · intro env2
    rw [hinsp]
    refine ⟨hfind, ?_⟩
    have hne : (fallbackInvoke env (.cmd_save_response id crit conforme obs session)
        db).db.users ≠ [] := by
      simpa [fallbackInvoke, cmd_save_response, hinit] using hseed
    simp only [fallbackInvoke, cmd_get_inspection, initDB_inspections]
    simp only [fallbackInvoke, initDB_inspections] at hinsp
    rw [hinsp, hfind]

/-- C39, amended, on the sample store with the id `ghost`. -/
theorem save_response_without_inspection_witness :
    sampleDB.users ≠ [] ∧ (∀ i ∈ sampleDB.inspections, i.id ≠ "ghost") ∧
    (fallbackInvoke sampleEnv (.cmd_save_response "ghost" 1 (.bool true) "ok" none)
      sampleDB).db.inspections = sampleDB.inspections ∧
    getResponses sampleEnv2 "ghost"
      (fallbackInvoke sampleEnv (.cmd_save_response "ghost" 1 (.bool true) "ok" none)
        sampleDB).db
      = [{ criterion_id := 1, conforme := .bool true, observation := "ok",
           updated_by := .undefined, updated_at := "2024-01-15 08:00:01" }] :=
  ⟨by decide, by decide,
    (save_response_without_inspection sampleEnv sampleDB "ghost" 1 (.bool true) "ok" none
      (by decide) (by decide)).2.1, by decide⟩

/-! ## Rates across modules -/

theorem toDouble_exact (m d k : Nat) (hd : 0 < d) (h1 : 2 ^ 52 ≤ m * 2 ^ k)
    (h2 : m * 2 ^ k < 2 ^ 53) : toDouble (m * d) d = ⟨m * 2 ^ k, k⟩ := by
  have hm : 0 < m := by
    rcases Nat.eq_zero_or_pos m with h | h
    · subst h; simp at h1
    · exact h
  have hk : 1 ≤ 2 ^ k := Nat.one_le_two_pow
  have hmk : m ≤ m * 2 ^ k := Nat.le_mul_of_pos_right m (by omega)
  have hsmall : m * d < 2 ^ 53 * d := Nat.mul_lt_mul_of_pos_right (by omega) hd
  obtain ⟨b1, b2⟩ := scaleUp_bounds (m * d) d (Nat.mul_pos hm hd) hsmall
  rw [toDouble_small_eq (m * d) d (Nat.pos_iff_ne_zero.1 (Nat.mul_pos hm hd)) hsmall]
  generalize scaleUp (d + 53) (m * d) d 0 = K at *
  have c1 : 2 ^ 52 ≤ m * 2 ^ K := by
    have : 2 ^ 52 * d ≤ m * 2 ^ K * d := by
      calc 2 ^ 52 * d ≤ m * d * 2 ^ K := b1
        _ = m * 2 ^ K * d := by ring
    exact Nat.le_of_mul_le_mul_right this hd
  have c2 : m * 2 ^ K < 2 ^ 53 := by
    have : m * 2 ^ K * d < 2 ^ 53 * d := by
      calc m * 2 ^ K * d = m * d * 2 ^ K := by ring
        _ < 2 ^ 53 * d := b2
    exact Nat.lt_of_mul_lt_mul_right this
  have hK : K = k := by
    rcases Nat.lt_trichotomy K k with h | h | h
    · exfalso
      have : 2 ^ (K + 1) ≤ 2 ^ k := Nat.pow_le_pow_right (by decide) h
      have e : m * 2 ^ (K + 1) = 2 * (m * 2 ^ K) := by rw [Nat.pow_succ]; ring
      have : m * 2 ^ (K + 1) ≤ m * 2 ^ k := Nat.mul_le_mul_left _ this
      omega
    · exact h
    · exfalso
      have : 2 ^ (k + 1) ≤ 2 ^ K := Nat.pow_le_pow_right (by decide) h
      have e : m * 2 ^ (k + 1) = 2 * (m * 2 ^ k) := by rw [Nat.pow_succ]; ring
      have : m * 2 ^ (k + 1) ≤ m * 2 ^ K := Nat.mul_le_mul_left _ this
      omega
  subst hK
  have e : m * d * 2 ^ K = m * 2 ^ K * d := by ring
  rw [e, roundNearestEven_exact _ _ hd]

theorem percentOf_self (a : Nat) (ha : 0 < a) : percentOf a a = 100 := by
  unfold percentOf mulDouble divDouble
  have h1 : toDouble a a = ⟨2 ^ 52, 52⟩ := by
    have := toDouble_exact 1 a 52 ha (by norm_num) (by norm_num)
    simpa using this
  rw [h1]
  decide

theorem percentOf_le_hundred (c a : Nat) (ha : 0 < a) (hca : c ≤ a) : percentOf c a ≤ 100 := by
  have := percentOf_mono c a a a ha ha (Nat.mul_le_mul_right a hca) (le_refl a)
  rwa [percentOf_self a ha] at this

theorem mathRound_divDouble_le_hundred (s n : Nat) (hn : 0 < n) (hs : s ≤ 100 * n) :
    mathRound (divDouble s n) ≤ 100 := by
  unfold divDouble
  have h100 : toDouble (100 * n) n = ⟨100 * 2 ^ 46, 46⟩ :=
    toDouble_exact 100 n 46 hn (by norm_num) (by norm_num)
  have hmono := mathRound_mono _ _
    (toDouble_mono s n (100 * n) n hn hn (Nat.mul_le_mul_right n hs) (by omega))
  rw [h100] at hmono
  have : mathRound ⟨100 * 2 ^ 46, 46⟩ = 100 := by decide
  omega

/-- C37: for every response collection `r` (whatever its `conforme` values, so
in particular when they are `true`, `false` or `null`) and every inspection
whose progress snapshot is the one that `cmd_save_response` computes from `r`,
the compliance rate of `calculateInspectionStats` equals
`calculateComplianceRate(r)`.  That snapshot holds the number of entries of `r`
and the numbers of entries whose `conforme` is not `null`, is `true`, is
`false`. -/
theorem compliance_computations_agree (r : NumObj Response) (insp : KpiInspection)
    (hp : insp.progress = some (computeProgress r)) :
    complianceRateOf insp = calculateComplianceRate (some r) ∧
    (computeProgress r).total = r.length ∧
    (computeProgress r).answered = r.countP (fun e => e.2.conforme != JSVal.null) ∧
    (computeProgress r).conforme = r.countP (fun e => e.2.conforme == JSVal.bool true) ∧
    (computeProgress r).non_conforme = r.countP (fun e => e.2.conforme == JSVal.bool false) := by
  refine ⟨?_, rfl, ?_, ?_, ?_⟩
  · rw [compliance_rate_eq]
    simp only [complianceRateOf, inspection_stats_eq, hp, Option.getD_some, computeProgress,
      List.countP_eq_length_filter]
  · simp [computeProgress, List.countP_eq_length_filter]
  · simp [computeProgress, List.countP_eq_length_filter]
  · simp [computeProgress, List.countP_eq_length_filter]

/-- C37 on one conforming, one unanswered and one non-conforming answer: both
computations give 50. -/
theorem compliance_computations_agree_witness :
    (progressOnly 3 2 1 1).progress
      = some (computeProgress
          [(1, verdict (.bool true)), (2, verdict .null), (3, verdict (.bool false))]) ∧
    complianceRateOf (progressOnly 3 2 1 1) = 50 ∧
    complianceRateOf (progressOnly 3 2 1 1)
      = calculateComplianceRate
          (some [(1, verdict (.bool true)), (2, verdict .null), (3, verdict (.bool false))]) :=
  ⟨by decide, by decide,
    (compliance_computations_agree
      [(1, verdict (.bool true)), (2, verdict .null), (3, verdict (.bool false))]
      (progressOnly 3 2 1 1) (by decide)).1⟩

theorem export_summary_eq_stats (insp : ExportInspection) :
    calculateInspectionStats (some insp.toKpi)
      = some (exportSummary (progressOrZero insp.progress)) := by
  rw [inspection_stats_eq]
  cases hp : insp.progress <;>
    simp [ExportInspection.toKpi, hp, exportSummary, progressOrZero, exportCompletionRate,
      exportComplianceRate, percentOf]

/-- C38: for every inspection, with `st` the result of
`calculateInspectionStats` on it, the text of `exportInspectionReport` is the
rendering of an object whose `summary` holds the seven fields of `st`, field for
field; the `progress` object of the entry of `exportToJSON` holds the completion
and compliance rates of `st`; and the tenth and last column of the row of
`exportToCSV` is the compliance rate of `st` followed by `%`.  The inspection of
the export tests gives 100, 80, 20, 60, 20, 80 and 75. -/
theorem export_agrees_with_kpi (insp : ExportInspection) (gridMap : StrMap GridInfo)
    (responses : StrMap Json) (reportResponses : Option Json) :
    ∃ st : InspectionStats, calculateInspectionStats (some insp.toKpi) = some st ∧
      exportInspectionReport (some insp) reportResponses
        = Json.render "" (jsonObject
            [ ("inspection", some (jsonObject (inspectionFields insp))),
              ("summary", some (summaryJson st)),
              ("responses", some (reportResponses.getD (.arr []))) ]) ∧
      (∃ rest : Json,
        exportEntry responses insp
          = jsonObject (inspectionFields insp ++
              [ ("progress", some (progressJson (progressOrZero insp.progress)
                  st.completion_rate st.compliance_rate)),
                ("responses", some rest) ])) ∧
      (csvRow gridMap insp).length = 10 ∧
      (csvRow gridMap insp).get? 9 = some (toString st.compliance_rate ++ "%") ∧
      calculateInspectionStats (some mockInspection.toKpi)
        = some { total_criteria := 100, answered := 80, pending := 20, conforme := 60,
                 non_conforme := 20, completion_rate := 80, compliance_rate := 75 } := by
  refine ⟨_, export_summary_eq_stats insp, rfl, ⟨_, rfl⟩, rfl, rfl, by decide⟩

theorem complianceRateOf_le_hundred (insp : KpiInspection)
    (h : (progressOf insp).Coherent) : complianceRateOf insp ≤ 100 := by
  obtain ⟨h1, _⟩ := h
  simp only [progressOf] at h1
  simp only [complianceRateOf, inspection_stats_eq]
  split
  · exact Nat.zero_le _
  · rename_i ha
    exact percentOf_le_hundred _ _ (Nat.pos_of_ne_zero ha) h1

theorem sum_le_of_forall_le (l : List Nat) (b : Nat) (h : ∀ x ∈ l, x ≤ b) :
    l.sum ≤ b * l.length := by
  induction l with
  | nil => simp
  | cons x xs ih =>
    have h1 := h x (List.mem_cons_self _ _)
    have h2 := ih (fun y hy => h y (List.mem_cons_of_mem _ hy))
    simp only [List.sum_cons, List.length_cons, Nat.mul_succ]
    omega

/-- C36: for an inspection whose progress snapshot (all zeros when it has
none) satisfies `conforme <= answered <= total`, `calculateInspectionStats`
returns a compliance rate and a completion rate that are natural numbers at most
100 and a `pending` that is not negative; for a list of such inspections
`aggregateInspectionStats` returns an average compliance rate that is a natural
number at most 100. -/
theorem rates_are_percentages (insp : KpiInspection) (l : List KpiInspection)
    (hinsp : (progressOf insp).Coherent) (hl : ∀ i ∈ l, (progressOf i).Coherent) :
    (∃ st : InspectionStats, calculateInspectionStats (some insp) = some st ∧
      st.compliance_rate ≤ 100 ∧ st.completion_rate ≤ 100 ∧ 0 ≤ st.pending) ∧
    (aggregateInspectionStats (some l)).average_compliance_rate ≤ 100 := by
  constructor
  · refine ⟨_, inspection_stats_eq insp, ?_, ?_, ?_⟩
    · have := complianceRateOf_le_hundred insp hinsp
      simpa only [complianceRateOf, inspection_stats_eq] using this
    · obtain ⟨_, h2⟩ := hinsp
      simp only [progressOf] at h2
      show (if _ then _ else _) ≤ 100
      split
      · exact Nat.zero_le _
      · rename_i ht
        exact percentOf_le_hundred _ _ (Nat.pos_of_ne_zero ht) h2
    · obtain ⟨_, h2⟩ := hinsp
      simp only [progressOf] at h2
      show (0 : Int) ≤ _ - _
      omega
  · by_cases hlen : l.length = 0
    · simp [aggregateInspectionStats, hlen]
    · have hpos : 0 < l.length := Nat.pos_of_ne_zero hlen
      have havg : (aggregateInspectionStats (some l)).average_compliance_rate
          = mathRound (divDouble (l.map complianceRateOf).sum l.length) := by
        simp [aggregateInspectionStats, hlen, aggregate_foldl, foldl_add_eq_sum, hpos]
      rw [havg]
      apply mathRound_divDouble_le_hundred _ _ hpos
      have := sum_le_of_forall_le (l.map complianceRateOf) 100 (by
        intro x hx
        obtain ⟨i, hi, rfl⟩ := List.mem_map.1 hx
        exact complianceRateOf_le_hundred i (hl i hi))
      simpa using this

/-- C36 on two coherent snapshots. -/
theorem rates_are_percentages_witness :
    (progressOf (progressOnly 100 80 60 20)).Coherent ∧
    (aggregateInspectionStats
      (some [progressOnly 100 80 60 20, progressOnly 3 3 3 0])).average_compliance_rate
      ≤ 100 :=
  ⟨by decide,
    (rates_are_percentages (progressOnly 100 80 60 20)
      [progressOnly 100 80 60 20, progressOnly 3 3 3 0]
      (by decide)
      (by
        intro i hi
        simp only [List.mem_cons, List.mem_singleton, List.not_mem_nil, or_false] at hi
        rcases hi with rfl | rfl <;> decide)).2⟩

/-! ## Progress snapshots along runs -/

theorem frame_inspections (env : Env) (cmd : Cmd) (db : DB)
    (h : cmd.writesInspections = false) :
    (fallbackInvoke env cmd db).db.inspections = db.inspections ∧
    (fallbackInvoke env cmd db).db.responses = db.responses := by
  cases cmd with
  | cmd_create_inspection req session => simp [Cmd.writesInspections] at h
  | cmd_save_response a b c d e => simp [Cmd.writesInspections] at h
  | cmd_set_inspection_status a b c => simp [Cmd.writesInspections] at h
  | cmd_delete_inspection a => simp [Cmd.writesInspections] at h
  | cmd_login username password =>
    simp only [fallbackInvoke, cmd_login]
    cases jsFind (fun x => x.username == username && x.password == password && x.active)
        (initDB env db).users with
    | none => exact ⟨initDB_inspections env db, initDB_responses env db⟩
    | some u => exact ⟨initDB_inspections env db, initDB_responses env db⟩
  | cmd_validate_session token =>
    simp only [fallbackInvoke, cmd_validate_session]
    split
    · exact ⟨initDB_inspections env db, initDB_responses env db⟩
    · split
      · exact ⟨initDB_inspections env db, initDB_responses env db⟩
      · split
        · exact ⟨initDB_inspections env db, initDB_responses env db⟩
        · split <;> exact ⟨initDB_inspections env db, initDB_responses env db⟩
  | get_grid gridId =>
    simp only [fallbackInvoke, get_grid]
    split <;> exact ⟨initDB_inspections env db, initDB_responses env db⟩
  | cmd_get_inspection inspectionId =>
    simp only [fallbackInvoke, cmd_get_inspection]
    split <;> exact ⟨initDB_inspections env db, initDB_responses env db⟩
  | list_grids => exact ⟨initDB_inspections env db, initDB_responses env db⟩
  | cmd_logout token => exact ⟨initDB_inspections env db, initDB_responses env db⟩
  | cmd_list_users => exact ⟨initDB_inspections env db, initDB_responses env db⟩
  | cmd_create_user req => exact ⟨initDB_inspections env db, initDB_responses env db⟩
  | cmd_update_user userId req => exact ⟨initDB_inspections env db, initDB_responses env db⟩
  | cmd_change_password userId newPassword =>
    exact ⟨initDB_inspections env db, initDB_responses env db⟩
  | cmd_delete_user userId => exact ⟨initDB_inspections env db, initDB_responses env db⟩
  | cmd_list_inspections myOnly status session =>
    exact ⟨initDB_inspections env db, initDB_responses env db⟩
  | cmd_get_responses inspectionId => exact ⟨initDB_inspections env db, initDB_responses env db⟩
  | cmd_query_audit filter => exact ⟨initDB_inspections env db, initDB_responses env db⟩
  | cmd_count_audit => exact ⟨initDB_inspections env db, initDB_responses env db⟩
  | unknown name => exact ⟨initDB_inspections env db, initDB_responses env db⟩

theorem map_id_updateFirst (p : Inspection → Bool) (f : Inspection → Inspection)
    (hf : ∀ u, (f u).id = u.id) (l : List Inspection) :
    (updateFirst p f l).map (fun i => i.id) = l.map (fun i => i.id) := by
  induction l with
  | nil => rfl
  | cons x xs ih =>
    unfold updateFirst
    split
    · simp [hf]
    · simp [ih]

theorem mem_updateFirst {α : Type} (p : α → Bool) (f : α → α) (l : List α) (x : α)
    (h : x ∈ updateFirst p f l) : x ∈ l ∨ ∃ u ∈ l, p u = true ∧ x = f u := by
  induction l with
  | nil => simp [updateFirst] at h
  | cons y ys ih =>
    unfold updateFirst at h
    split at h
    · rename_i hp
      rcases List.mem_cons.1 h with h | h
      · exact Or.inr ⟨y, List.mem_cons_self _ _, hp, h⟩
      · exact Or.inl (List.mem_cons_of_mem _ h)
    · rcases List.mem_cons.1 h with h | h
      · exact Or.inl (h ▸ List.mem_cons_self _ _)
      · rcases ih h with h | ⟨u, hu, hp, hx⟩
        · exact Or.inl (List.mem_cons_of_mem _ h)
        · exact Or.inr ⟨u, List.mem_cons_of_mem _ hu, hp, hx⟩

theorem computeProgress_eq_countsOf (r : NumObj Response) : computeProgress r = countsOf r := by
  simp [computeProgress, countsOf, List.countP_eq_length_filter]

theorem create_inspection_store (env : Env) (req : CreateInspectionReq)
    (session : Option Session) (db : DB) :
    (fallbackInvoke env (.cmd_create_inspection req session) db).db.inspections
      = db.inspections ++ [newInspection env req session] ∧
    (fallbackInvoke env (.cmd_create_inspection req session) db).db.responses
      = db.responses.set env.newId [] := by
  simp [fallbackInvoke, cmd_create_inspection, addAuditLog, initDB_inspections,
    initDB_responses, newInspection]

theorem save_response_store (env : Env) (id : String) (crit : Nat) (conforme : JSVal)
    (obs : String) (session : Option Session) (db : DB) :
    (∃ f : Inspection → Inspection,
      (∀ u, (f u).id = u.id ∧
        (f u).progress = computeProgress (NumObj.set crit
          (savedResponse env conforme obs session) ((db.responses id).getD []))) ∧
      (fallbackInvoke env (.cmd_save_response id crit conforme obs session) db).db.inspections
        = updateFirst (fun i => i.id == id) f db.inspections) ∧
    (fallbackInvoke env (.cmd_save_response id crit conforme obs session) db).db.responses
      = db.responses.set id (NumObj.set crit (savedResponse env conforme obs session)
          ((db.responses id).getD [])) := by
  refine ⟨⟨_, ?_, by
    simp only [fallbackInvoke, cmd_save_response, initDB_inspections, initDB_responses]
    rfl⟩, by simp [fallbackInvoke, cmd_save_response, initDB_responses]⟩
  intro u
  exact ⟨rfl, rfl⟩

theorem mem_updateFirst_nodup (l : List Inspection) (id : String) (f : Inspection → Inspection)
    (hnd : (l.map (fun i => i.id)).Nodup) (x : Inspection)
    (hx : x ∈ updateFirst (fun i => i.id == id) f l) :
    (x ∈ l ∧ x.id ≠ id) ∨ ∃ u ∈ l, u.id = id ∧ x = f u := by
  cases hf : jsFind (fun i => i.id == id) l with
  | none =>
    rw [updateFirst_of_find_none _ _ _ hf] at hx
    refine Or.inl ⟨hx, ?_⟩
    intro hid
    have := List.find?_eq_none.1 hf x hx
    simp [hid] at this
  | some u =>
    obtain ⟨l1, l2, e1, e2, e3⟩ := updateFirst_of_find_some _ f l u hf
    have hu : u.id = id := by
      have := List.find?_some hf
      simpa using this
    rw [e3] at hx
    rw [e1] at hnd ⊢
    rcases List.mem_append.1 hx with h | h
    · exact Or.inl ⟨List.mem_append_left _ h, by simpa using e2 x h⟩
    · rcases List.mem_cons.1 h with h | h
      · exact Or.inr ⟨u, by simp, hu, h⟩
      · refine Or.inl ⟨List.mem_append_right _ (List.mem_cons_of_mem _ h), ?_⟩
        intro hid
        simp only [List.map_append, List.map_cons] at hnd
        have h2 := (List.nodup_append.1 hnd).2.1
        rw [List.nodup_cons] at h2
        apply h2.1
        rw [hu, ← hid]
        exact List.mem_map_of_mem (fun i => i.id) h

theorem set_status_store (env : Env) (id status : String) (session : Option Session) (db : DB) :
    (∃ f : Inspection → Inspection, (∀ u, (f u).id = u.id ∧ (f u).progress = u.progress) ∧
      (fallbackInvoke env (.cmd_set_inspection_status id status session) db).db.inspections
        = updateFirst (fun i => i.id == id) f db.inspections) ∧
    (fallbackInvoke env (.cmd_set_inspection_status id status session) db).db.responses
      = db.responses := by
  refine ⟨⟨_, ?_, by
    simp only [fallbackInvoke, cmd_set_inspection_status, addAuditLog, initDB_inspections]
    rfl⟩, by simp [fallbackInvoke, cmd_set_inspection_status, addAuditLog, initDB_responses]⟩
  intro u
  split <;> exact ⟨rfl, rfl⟩

theorem delete_inspection_store (env : Env) (id : String) (db : DB) :
    (fallbackInvoke env (.cmd_delete_inspection id) db).db.inspections
      = db.inspections.filter (fun i => i.id != id) ∧
    (fallbackInvoke env (.cmd_delete_inspection id) db).db.responses
      = db.responses.delete id := by
  simp [fallbackInvoke, cmd_delete_inspection, initDB_inspections, initDB_responses]

theorem progressInSync_step (env : Env) (cmd : Cmd) (db : DB) (h : ProgressInSync db)
    (hfresh : Call.freshInspectionId ⟨env, cmd⟩ db = true) :
    ProgressInSync (fallbackInvoke env cmd db).db := by
  obtain ⟨hnd, hsync⟩ := h
  by_cases hw : cmd.writesInspections = false
  · obtain ⟨h1, h2⟩ := frame_inspections env cmd db hw
    unfold ProgressInSync
    rw [h1, h2]
    exact ⟨hnd, hsync⟩
  cases cmd with
  | cmd_create_inspection req session =>
    obtain ⟨h1, h2⟩ := create_inspection_store env req session db
    have hnew : env.newId ∉ db.inspections.map (fun i => i.id) := by
      simpa [Call.freshInspectionId] using hfresh
    unfold ProgressInSync
    rw [h1, h2]
    constructor
    · rw [List.map_append, List.nodup_append]
      refine ⟨hnd, by simp, ?_⟩
      intro a ha hb
      simp only [List.map_cons, List.map_nil, List.mem_singleton, newInspection] at hb
      exact hnew (hb ▸ ha)
    · intro i hi
      rcases List.mem_append.1 hi with hi | hi
      · obtain ⟨r, hr, hp⟩ := hsync i hi
        refine ⟨r, ?_, hp⟩
        have hne : i.id ≠ env.newId := by
          intro heq
          exact hnew (heq ▸ List.mem_map_of_mem (fun i => i.id) hi)
        simp [StrMap.set, hne, hr]
      · simp only [List.mem_singleton] at hi
        subst hi
        exact ⟨[], by simp [StrMap.set, newInspection], by simp [newInspection, countsOf]⟩
  | cmd_save_response id crit conforme obs session =>
    obtain ⟨⟨f, hf, h1⟩, h2⟩ := save_response_store env id crit conforme obs session db
    unfold ProgressInSync
    rw [h1, h2]
    constructor
    · rw [map_id_updateFirst _ _ (fun u => (hf u).1)]
      exact hnd
    · intro i hi
      rcases mem_updateFirst_nodup _ _ _ hnd i hi with ⟨hi, hid⟩ | ⟨u, hu, hid, rfl⟩
      · obtain ⟨r, hr, hpr⟩ := hsync i hi
        exact ⟨r, by simp [StrMap.set, hid, hr], hpr⟩
      · refine ⟨NumObj.set crit (savedResponse env conforme obs session)
          ((db.responses id).getD []), by simp [StrMap.set, (hf u).1, hid], ?_⟩
        rw [(hf u).2, computeProgress_eq_countsOf]
  | cmd_set_inspection_status id status session =>
    obtain ⟨⟨f, hf, h1⟩, h2⟩ := set_status_store env id status session db
    unfold ProgressInSync
    rw [h1, h2]
    constructor
    · rw [map_id_updateFirst _ _ (fun u => (hf u).1)]
      exact hnd
    · intro i hi
      rcases mem_updateFirst _ _ _ _ hi with hi | ⟨u, hu, _, rfl⟩
      · exact hsync i hi
      · obtain ⟨r, hr, hpr⟩ := hsync u hu
        exact ⟨r, by rw [(hf u).1]; exact hr, by rw [(hf u).2]; exact hpr⟩
  | cmd_delete_inspection id =>
    obtain ⟨h1, h2⟩ := delete_inspection_store env id db
    unfold ProgressInSync
    rw [h1, h2]
    constructor
    · exact (List.filter_sublist _).map _ |>.nodup hnd
    · intro i hi
      obtain ⟨hi1, hi2⟩ := List.mem_filter.1 hi
      have hne : i.id ≠ id := by simpa using hi2
      obtain ⟨r, hr, hpr⟩ := hsync i hi1
      exact ⟨r, by simp [StrMap.delete, hne, hr], hpr⟩
  | _ => simp [Cmd.writesInspections] at hw

theorem runCalls_progressInSync (calls : List Call) (db : DB) (h : ProgressInSync db)
    (hfresh : freshInspectionIds calls db = true) : ProgressInSync (runCalls calls db) := by
  induction calls generalizing db with
  | nil => exact h
  | cons c cs ih =>
    simp only [freshInspectionIds, Bool.and_eq_true] at hfresh
    exact ih (c.run db) (progressInSync_step c.env c.cmd db h hfresh.1) hfresh.2

/-- C34: in every store reached from the empty store by a sequence of
dispatcher calls (the create, save, set-status and delete commands among them)
in which each `cmd_create_inspection` draws an identifier that no stored
inspection bears, every stored inspection has a response collection, and its
progress snapshot holds the counts of that collection: entries, entries whose
`conforme` is not `null`, is `true`, is `false`. -/
theorem progress_never_drifts (calls : List Call)
    (hfresh : freshInspectionIds calls DB.empty = true) :
    ∀ i ∈ (runCalls calls DB.empty).inspections,
      ∃ r, (runCalls calls DB.empty).responses i.id = some r ∧
        i.progress.total = r.length ∧
        i.progress.answered = r.countP (fun e => e.2.conforme != JSVal.null) ∧
        i.progress.conforme = r.countP (fun e => e.2.conforme == JSVal.bool true) ∧
        i.progress.non_conforme = r.countP (fun e => e.2.conforme == JSVal.bool false) := by
  have h := runCalls_progressInSync calls DB.empty
    ⟨by simp [DB.empty], by simp [DB.empty]⟩ hfresh
  intro i hi
  obtain ⟨r, hr, hp⟩ := h.2 i hi
  exact ⟨r, hr, by rw [hp]; rfl, by rw [hp]; rfl, by rw [hp]; rfl, by rw [hp]; rfl⟩

/-- C34 on the sample calls: the one inspection left has two responses, one of
them answered and conforming. -/
theorem progress_never_drifts_witness :
    freshInspectionIds sampleCalls DB.empty = true ∧
    (runCalls sampleCalls DB.empty).inspections.map (fun i => (i.id, i.progress))
      = [("uuid-0002", { total := 2, answered := 1, conforme := 1, non_conforme := 0 })] ∧
    ∀ i ∈ (runCalls sampleCalls DB.empty).inspections,
      ∃ r, (runCalls sampleCalls DB.empty).responses i.id = some r ∧
        i.progress.total = r.length ∧
        i.progress.answered = r.countP (fun e => e.2.conforme != JSVal.null) ∧
        i.progress.conforme = r.countP (fun e => e.2.conforme == JSVal.bool true) ∧
        i.progress.non_conforme = r.countP (fun e => e.2.conforme == JSVal.bool false) :=
  ⟨by decide, by decide, progress_never_drifts sampleCalls (by decide)⟩

theorem computeProgress_balanced (r : NumObj Response)
    (h : ∀ e ∈ r, triValued e.2.conforme = true) :
    (computeProgress r).answered = (computeProgress r).conforme + (computeProgress r).non_conforme ∧
    (computeProgress r).answered ≤ (computeProgress r).total := by
  constructor
  · simp only [computeProgress]
    induction r with
    | nil => rfl
    | cons e rest ih =>
      have he := h e (List.mem_cons_self _ _)
      have ih2 := ih (fun x hx => h x (List.mem_cons_of_mem _ hx))
      simp only [triValued, Bool.or_eq_true, beq_iff_eq] at he
      rcases he with (he | he) | he <;> simp [List.filter_cons, he] <;> omega
  · simp only [computeProgress]
    exact List.length_filter_le _ _

theorem balanced_step (env : Env) (cmd : Cmd) (db : DB)
    (h : ProgressBalanced db ∧ ResponsesTriValued db)
    (htri : Call.triValued ⟨env, cmd⟩ = true) :
    ProgressBalanced (fallbackInvoke env cmd db).db ∧
    ResponsesTriValued (fallbackInvoke env cmd db).db := by
  obtain ⟨hbal, hresp⟩ := h
  by_cases hw : cmd.writesInspections = false
  · obtain ⟨h1, h2⟩ := frame_inspections env cmd db hw
    unfold ProgressBalanced ResponsesTriValued
    rw [h1, h2]
    exact ⟨hbal, hresp⟩
  cases cmd with
  | cmd_create_inspection req session =>
    obtain ⟨h1, h2⟩ := create_inspection_store env req session db
    unfold ProgressBalanced ResponsesTriValued
    rw [h1, h2]
    constructor
    · intro i hi
      rcases List.mem_append.1 hi with hi | hi
      · exact hbal i hi
      · simp only [List.mem_singleton] at hi
        subst hi
        simp [newInspection]
    · intro id r hr e he
      by_cases hid : id = env.newId
      · simp [StrMap.set, hid] at hr
        subst hr
        simp at he
      · simp only [StrMap.set, hid, if_false] at hr
        exact hresp id r hr e he
  | cmd_save_response id crit conforme obs session =>
    obtain ⟨⟨f, hf, h1⟩, h2⟩ := save_response_store env id crit conforme obs session db
    have hnew : ∀ e ∈ NumObj.set crit (savedResponse env conforme obs session)
        ((db.responses id).getD []), triValued e.2.conforme = true := by
      intro e he
      rcases NumObj.mem_set _ _ _ _ he with rfl | he
      · simpa [Call.triValued, savedResponse] using htri
      · cases hr : db.responses id with
        | none => simp [hr] at he
        | some r =>
          rw [hr] at he
          exact hresp id r hr e he
    unfold ProgressBalanced ResponsesTriValued
    rw [h1, h2]
    constructor
    · intro i hi
      rcases mem_updateFirst _ _ _ _ hi with hi | ⟨u, _, _, rfl⟩
      · exact hbal i hi
      · rw [(hf u).2]
        exact computeProgress_balanced _ hnew
    · intro id2 r hr e he
      by_cases hid : id2 = id
      · simp [StrMap.set, hid] at hr
        subst hr
        exact hnew e he
      · simp only [StrMap.set, hid, if_false] at hr
        exact hresp id2 r hr e he
  | cmd_set_inspection_status id status session =>
    obtain ⟨⟨f, hf, h1⟩, h2⟩ := set_status_store env id status session db
    unfold ProgressBalanced ResponsesTriValued
    rw [h1, h2]
    refine ⟨?_, hresp⟩
    intro i hi
    rcases mem_updateFirst _ _ _ _ hi with hi | ⟨u, hu, _, rfl⟩
    · exact hbal i hi
    · rw [(hf u).2]
      exact hbal u hu
  | cmd_delete_inspection id =>
    obtain ⟨h1, h2⟩ := delete_inspection_store env id db
    unfold ProgressBalanced ResponsesTriValued
    rw [h1, h2]
    constructor
    · intro i hi
      exact hbal i (List.mem_filter.1 hi).1
    · intro id2 r hr e he
      by_cases hid : id2 = id
      · simp [StrMap.delete, hid] at hr
      · simp only [StrMap.delete, hid, if_false] at hr
        exact hresp id2 r hr e he
  | _ => simp [Cmd.writesInspections] at hw

theorem runCalls_balanced (calls : List Call) (db : DB)
    (h : ProgressBalanced db ∧ ResponsesTriValued db)
    (htri : ∀ c ∈ calls, c.triValued = true) :
    ProgressBalanced (runCalls calls db) ∧ ResponsesTriValued (runCalls calls db) := by
  induction calls generalizing db with
  | nil => exact h
  | cons c cs ih =>
    exact ih (c.run db) (balanced_step c.env c.cmd db h (htri c (List.mem_cons_self _ _)))
      (fun c2 hc2 => htri c2 (List.mem_cons_of_mem _ hc2))

/-- C35: in every store reached from the empty store by a sequence of
dispatcher calls whose `cmd_save_response` calls all carry a `conforme` that is
`true`, `false` or `null`, every stored inspection has
`answered = conforme + non_conforme` and `answered <= total` in its progress
snapshot. -/
theorem progress_balanced (calls : List Call) (htri : ∀ c ∈ calls, c.triValued = true) :
    ∀ i ∈ (runCalls calls DB.empty).inspections,
      i.progress.answered = i.progress.conforme + i.progress.non_conforme ∧
      i.progress.answered ≤ i.progress.total :=
  (runCalls_balanced calls DB.empty
    ⟨by simp [ProgressBalanced, DB.empty], by simp [ResponsesTriValued, DB.empty, StrMap.empty]⟩
    htri).1

/-- C35 on the sample calls. -/
theorem progress_balanced_witness :
    (∀ c ∈ sampleCalls, c.triValued = true) ∧
    ∀ i ∈ (runCalls sampleCalls DB.empty).inspections,
      i.progress.answered = i.progress.conforme + i.progress.non_conforme ∧
      i.progress.answered ≤ i.progress.total :=
  ⟨by decide, progress_balanced sampleCalls (by decide)⟩

/-! ## Derived filters and sorts -/

theorem jsIncludes_iff (s t : String) : jsIncludes s t = true ↔ t.data <:+: s.data := by
  simp only [jsIncludes, List.any_eq_true, List.mem_tails, List.isPrefixOf_iff_prefix]
  rw [List.infix_iff_prefix_suffix]
  constructor
  · rintro ⟨x, h1, h2⟩
    exact ⟨x, h2, h1⟩
  · rintro ⟨x, h1, h2⟩
    exact ⟨x, h2, h1⟩

theorem filter_exact {α : Type} [DecidableEq α] (p : α → Bool) (l : List α) :
    (l.filter p).Sublist l ∧ (∀ x, x ∈ l.filter p ↔ x ∈ l ∧ p x = true) ∧
    (∀ x, p x = true → (l.filter p).count x = l.count x) := by
  refine ⟨List.filter_sublist _, fun x => List.mem_filter, ?_⟩
  intro x hx
  rw [List.count_filter hx]

/-- C31: for every list of inspections and every non-empty filter value, each
of `filterInspectionsByStatus`, `filterInspectionsByGrid` and
`filterInspectionsByEstablishment` returns a sublist of the list (so the
relative order is kept) whose elements are exactly the elements of the list that
satisfy the predicate, each as often as in the list: status equal to `s`, grid
id equal to `g`, lower-cased establishment holding the lower-cased `t` as a
substring.  With an absent or empty filter value each returns the list itself. -/
theorem derived_filters (toLowerCase : String → String) (l : List Inspection)
    (s g t : String) (hs : s ≠ "") (hg : g ≠ "") (ht : t ≠ "") :
    ((filterInspectionsByStatus l (some s)).Sublist l ∧
      (∀ i, i ∈ filterInspectionsByStatus l (some s) ↔ i ∈ l ∧ i.status = s) ∧
      (∀ i, i.status = s → (filterInspectionsByStatus l (some s)).count i = l.count i)) ∧
    ((filterInspectionsByGrid l (some g)).Sublist l ∧
      (∀ i, i ∈ filterInspectionsByGrid l (some g) ↔ i ∈ l ∧ i.grid_id = g) ∧
      (∀ i, i.grid_id = g → (filterInspectionsByGrid l (some g)).count i = l.count i)) ∧
    ((filterInspectionsByEstablishment toLowerCase l (some t)).Sublist l ∧
      (∀ i, i ∈ filterInspectionsByEstablishment toLowerCase l (some t) ↔
        i ∈ l ∧ (toLowerCase t).data <:+: (toLowerCase i.establishment).data) ∧
      (∀ i, (toLowerCase t).data <:+: (toLowerCase i.establishment).data →
        (filterInspectionsByEstablishment toLowerCase l (some t)).count i = l.count i)) ∧
    (filterInspectionsByStatus l none = l ∧ filterInspectionsByStatus l (some "") = l ∧
      filterInspectionsByGrid l none = l ∧ filterInspectionsByGrid l (some "") = l ∧
      filterInspectionsByEstablishment toLowerCase l none = l ∧
      filterInspectionsByEstablishment toLowerCase l (some "") = l) := by
  have hs2 : falsyStr (some s) = false := by simp [falsyStr, strTruthy, hs]
  have hg2 : falsyStr (some g) = false := by simp [falsyStr, strTruthy, hg]
  have ht2 : strTruthy t = true := by simp [strTruthy, ht]
  refine ⟨?_, ?_, ?_, ?_⟩
  · obtain ⟨h1, h2, h3⟩ := filter_exact (fun i : Inspection => some i.status == some s) l
    simp only [filterInspectionsByStatus, hs2, Bool.false_eq_true, if_false]
    refine ⟨h1, fun i => ?_, fun i hi => h3 i (by simp [hi])⟩
    rw [h2]
    simp
  · obtain ⟨h1, h2, h3⟩ := filter_exact (fun i : Inspection => some i.grid_id == some g) l
    simp only [filterInspectionsByGrid, hg2, Bool.false_eq_true, if_false]
    refine ⟨h1, fun i => ?_, fun i hi => h3 i (by simp [hi])⟩
    rw [h2]
    simp
  · obtain ⟨h1, h2, h3⟩ := filter_exact
      (fun i : Inspection => jsIncludes (toLowerCase i.establishment) (toLowerCase t)) l
    simp only [filterInspectionsByEstablishment, ht2, Bool.not_true, Bool.false_eq_true, if_false]
    refine ⟨h1, fun i => ?_, fun i hi => h3 i ((jsIncludes_iff _ _).2 hi)⟩
    rw [h2, jsIncludes_iff]
  · refine ⟨rfl, rfl, rfl, rfl, rfl, rfl⟩

/-- C31 on three sample inspections. -/
theorem derived_filters_witness :
    filterInspectionsByStatus unsortedInspections (some "draft")
      = [{ sampleInspection with id := "1", status := "draft",
                                 establishment := "Pharmacy ABC" }] ∧
    filterInspectionsByEstablishment asciiLower unsortedInspections (some "PHARMACY a")
      = [{ sampleInspection with id := "1", status := "draft",
                                 establishment := "Pharmacy ABC" }] ∧
    (filterInspectionsByGrid unsortedInspections (some "officine")).Sublist
      unsortedInspections :=
  ⟨by decide, by decide,
    (derived_filters asciiLower unsortedInspections "draft" "officine" "abc"
      (by decide) (by decide) (by decide)).2.1.1⟩

/-- C32: for every list of inspections, the array that
`sortInspectionsByStatus` returns is a permutation of the list in which the
status ranks are non-decreasing, the ranks being `draft < in_progress <
completed < validated < archived`; the array handed in is left as it was.  The
statuses `completed`, `draft`, `in_progress` come out as `draft`,
`in_progress`, `completed`. -/
theorem sort_by_status (l : List Inspection) :
    (sortInspectionsByStatus l).result.Perm l ∧
    ((sortInspectionsByStatus l).result.map (fun i => statusOrder i.status)).Pairwise
      (fun a b => a ≤ b) ∧
    (sortInspectionsByStatus l).input = l ∧
    (statusOrder "draft" < statusOrder "in_progress" ∧
      statusOrder "in_progress" < statusOrder "completed" ∧
      statusOrder "completed" < statusOrder "validated" ∧
      statusOrder "validated" < statusOrder "archived") ∧
    ((sortInspectionsByStatus unsortedInspections).result.map (fun i => i.status)
      = ["draft", "in_progress", "completed"]) := by
  haveI : IsTotal Inspection
      (fun a b => (statusOrder a.status : Int) - (statusOrder b.status : Int) ≤ 0) :=
    ⟨fun a b => by omega⟩
  haveI : IsTrans Inspection
      (fun a b => (statusOrder a.status : Int) - (statusOrder b.status : Int) ≤ 0) :=
    ⟨fun a b c h1 h2 => by omega⟩
  refine ⟨?_, ?_, rfl, by decide, by decide⟩
  · exact List.perm_insertionSort _ l
  · have h := List.sorted_insertionSort
      (fun a b : Inspection => (statusOrder a.status : Int) - (statusOrder b.status : Int) ≤ 0) l
    simp only [sortInspectionsByStatus, jsSort]
    rw [List.pairwise_map]
    exact h.imp (fun hab => by omega)

/-! ## Username validation -/

theorem usernameChar_not_space (c : Char) (h : usernameChar c = true) :
    jsWhiteSpace c = false ∧ c.toNat < 0x10000 := by
  unfold usernameChar at h
  unfold jsWhiteSpace
  generalize c.toNat = n at *
  simp only [Bool.or_eq_true, Bool.and_eq_true, decide_eq_true_eq, beq_iff_eq] at h
  constructor
  · simp only [Bool.or_eq_false_iff, Bool.and_eq_false_iff, decide_eq_false_iff_not,
      beq_eq_false_iff_ne, ne_eq]
    omega
  · omega

theorem dropWhile_eq_self {α : Type} (p : α → Bool) (l : List α) (h : ∀ x ∈ l, p x = false) :
    l.dropWhile p = l := by
  cases l with
  | nil => rfl
  | cons x xs => simp [List.dropWhile_cons, h x (List.mem_cons_self _ _)]

theorem jsTrim_eq_self (s : String) (h : s.data.all usernameChar = true) : jsTrim s = s := by
  have hns : ∀ c ∈ s.data, jsWhiteSpace c = false := by
    intro c hc
    exact (usernameChar_not_space c (List.all_eq_true.1 h c hc)).1
  unfold jsTrim
  rw [dropWhile_eq_self _ _ hns, dropWhile_eq_self _ _ (fun c hc => hns c (List.mem_reverse.1 hc)),
    List.reverse_reverse]

theorem sum_units_eq_length (l : List Char) (h : ∀ c ∈ l, c.toNat < 0x10000) :
    (l.map (fun c => if c.toNat < 0x10000 then 1 else 2)).sum = l.length := by
  induction l with
  | nil => rfl
  | cons c cs ih =>
    have hc := h c (List.mem_cons_self _ _)
    simp only [List.map_cons, List.sum_cons, hc, if_true, List.length_cons,
      ih (fun x hx => h x (List.mem_cons_of_mem _ hx))]
    omega

theorem jsLength_eq_length (s : String) (h : ∀ c ∈ s.data, c.toNat < 0x10000) :
    jsLength s = s.length :=
  sum_units_eq_length s.data h

theorem validateUsername_valid_iff (v : JSVal) (t : String) :
    validateUsername v = .valid t ↔
      ∃ s, v = .str s ∧ s ≠ "" ∧ t = jsTrim s ∧ 3 ≤ (jsTrim s).length ∧
        (jsTrim s).length ≤ 50 ∧ (jsTrim s).data.all usernameChar = true := by
  constructor
  · intro h
    cases v with
    | str s =>
      unfold validateUsername at h
      simp only at h
      split at h
      · cases h
      · rename_i hs
        split at h
        · cases h
        · rename_i h3
          split at h
          · cases h
          · rename_i h50
            split at h
            · cases h
            · rename_i hpat
              simp only [Validation.valid.injEq] at h
              have hall : (jsTrim s).data.all usernameChar = true := by
                simp only [usernamePattern, Bool.not_eq_true', Bool.not_eq_false,
                  Bool.and_eq_true] at hpat
                exact hpat.2
              have hlen := jsLength_eq_length (jsTrim s) (fun c hc =>
                (usernameChar_not_space c (List.all_eq_true.1 hall c hc)).2)
              refine ⟨s, rfl, ?_, h.symm, by omega, by omega, hall⟩
              intro he
              simp [strTruthy, he] at hs
    | undefined => simp [validateUsername] at h
    | null => simp [validateUsername] at h
    | bool b => simp [validateUsername] at h
    | num n => simp [validateUsername] at h
  · rintro ⟨s, rfl, hs, rfl, h3, h50, hall⟩
    have hlen := jsLength_eq_length (jsTrim s) (fun c hc =>
      (usernameChar_not_space c (List.all_eq_true.1 hall c hc)).2)
    have hst : strTruthy s = true := by simp [strTruthy, hs]
    have hne : (jsTrim s).data.isEmpty = false := by
      cases hd : (jsTrim s).data with
      | nil => simp [String.length, hd] at h3
      | cons x xs => rfl
    have hpat : usernamePattern (jsTrim s) = true := by
      simp [usernamePattern, hne, hall]
    unfold validateUsername
    simp only [hst, Bool.not_true, Bool.false_eq_true, if_false, hpat]
    rw [if_neg (by omega), if_neg (by omega)]

/-- C33: `validateUsername` returns a value for every input.  It returns
`{valid: true, value: t}` exactly when the input is a non-empty string, `t` is
its trimmed form, `t` has between 3 and 50 characters and all of them are in
`[a-zA-Z0-9._-]`.  For every other input it returns `{valid: false}` with a
non-empty error message; the message holds `minimum 3` when the trimmed form of
a non-empty string is shorter than 3 and `maximum 50` when it is longer than 50,
lengths being those of JavaScript (UTF-16 code units, the number of characters
of every string without a code point above `0xFFFF`).  An accepted value
validates to itself. -/
theorem validate_username_spec (v : JSVal) :
    (∀ t, validateUsername v = .valid t ↔
      ∃ s, v = .str s ∧ s ≠ "" ∧ t = jsTrim s ∧ 3 ≤ (jsTrim s).length ∧
        (jsTrim s).length ≤ 50 ∧ (jsTrim s).data.all usernameChar = true) ∧
    ((∀ t, validateUsername v ≠ .valid t) → ∃ e, validateUsername v = .invalid e ∧ e ≠ "") ∧
    (∀ s, v = .str s → s ≠ "" → jsLength (jsTrim s) < 3 →
      ∃ e, validateUsername v = .invalid e ∧ jsIncludes e "minimum 3" = true) ∧
    (∀ s, v = .str s → s ≠ "" → 50 < jsLength (jsTrim s) →
      ∃ e, validateUsername v = .invalid e ∧ jsIncludes e "maximum 50" = true) ∧
    (∀ s, (∀ c ∈ s.data, c.toNat < 0x10000) → jsLength s = s.length) ∧
    (∀ t, validateUsername v = .valid t → validateUsername (.str t) = .valid t) := by
  refine ⟨validateUsername_valid_iff v, ?_, ?_, ?_, jsLength_eq_length, ?_⟩
  · intro hno
    cases v with
    | str s =>
      unfold validateUsername
      simp only
      split
      · exact ⟨_, rfl, by decide⟩
      · split
        · exact ⟨_, rfl, by decide⟩
        · split
          · exact ⟨_, rfl, by decide⟩
          · split
            · exact ⟨_, rfl, by decide⟩
            · rename_i h1 h2 h3 h4
              exfalso
              apply hno (jsTrim s)
              unfold validateUsername
              simp only [h1, h2, h3, h4, if_false]
              simp
    | undefined => exact ⟨_, rfl, by decide⟩
    | null => exact ⟨_, rfl, by decide⟩
    | bool b => exact ⟨_, rfl, by decide⟩
    | num n => exact ⟨_, rfl, by decide⟩
  · rintro s rfl hs h3
    have hst : strTruthy s = true := by simp [strTruthy, hs]
    refine ⟨"Nom d\x27utilisateur minimum 3 caractères", ?_, by decide⟩
    simp [validateUsername, hst, h3]
  · rintro s rfl hs h50
    have hst : strTruthy s = true := by simp [strTruthy, hs]
    refine ⟨"Nom d\x27utilisateur maximum 50 caractères", ?_, by decide⟩
    unfold validateUsername
    simp only [hst, Bool.not_true, Bool.false_eq_true, if_false]
    rw [if_neg (by omega), if_pos h50]
  · intro t ht
    obtain ⟨s, _, _, rfl, h3, h50, hall⟩ := (validateUsername_valid_iff v t).1 ht
    rw [validateUsername_valid_iff]
    have htrim := jsTrim_eq_self (jsTrim s) hall
    refine ⟨jsTrim s, rfl, ?_, htrim.symm, by rw [htrim]; exact h3, by rw [htrim]; exact h50,
      by rw [htrim]; exact hall⟩
    intro he
    rw [he] at h3
    simp at h3

/-- C33 on the inputs of the tests. -/
theorem validate_username_spec_witness :
    validateUsername (.str "  admin  ") = .valid "admin" ∧
    validateUsername (.str "admin") = .valid "admin" ∧
    validateUsername (.str "ab") = .invalid "Nom d\x27utilisateur minimum 3 caractères" ∧
    validateUsername (.str "user@name") = .invalid "Caractères non autorisés" ∧
    validateUsername .null = .invalid usernameRequired :=
  ⟨by decide,
    (validate_username_spec (.str "  admin  ")).2.2.2.2.2 "admin" (by decide),
    by decide, by decide, by decide⟩

end InspectionOfficine
